import Mathlib

/-!
Verification of the nsscash cache pipeline.

This file is a shallow embedding, in Lean 4, of the parts of nsscash that the
checked claims are about:

* the `/etc/passwd` and `/etc/group` text parsers (`ParsePasswds`,
  `ParseGroups` in `passwd.go` / `group.go`),
* the record serializers and the cache-file serializer
  (`SerializePasswd`/`SerializePasswds`, `SerializeGroup`/`SerializeGroups`),
* the C reader of the binary cache format (`map_file` in `file.c`,
  `entry_to_passwd` in `pw.c`, `entry_to_group` in `gr.c`, the binary
  search of `search.c`, and the enumerator `internal_getpwent_r` /
  `internal_getgrent_r`),
* the fetch/deploy pipeline (`fetchFile`, `handleFiles`, `deployFile`,
  `mainFetch`).

Modelling conventions:

* A byte string is a `List Nat`; every function that writes machine integers
  into the byte stream truncates explicitly (`% 2^16`, `% 2^32`, `% 2^64`)
  exactly where the Go or C source uses a fixed-width type.
* Go strings are byte strings by type, so the embedding of a `string`-typed
  field is a `List Nat` whose members are `< 256`; theorems carry this typing
  constraint as an explicit hypothesis where it matters.
* Go's `sort.Slice` is an unspecified (unstable) comparison sort.  It is
  modelled by `List.insertionSort`, a deterministic comparison sort; every
  theorem proved about a sorted index either depends only on sortedness plus
  the permutation property, or carries distinctness hypotheses under which
  all comparison sorts agree.
* Fallible functions return `Except`/`Option`.
-/

namespace Nsscash

/-- Byte strings: each element is one byte (callers keep elements `< 256`). -/
abbrev Bytes := List Nat

/-! ## Little-endian integer encoding

`encoding/binary.LittleEndian.PutUint64/PutUint16` in Go, and the packed
little-endian fields read by the C reader. -/

/-- Write `n` as `k` little-endian bytes (truncates to `k` bytes, exactly as
storing into a `uint8[k]` does). -/
def putLE : Nat → Nat → Bytes
  | 0, _ => []
  | k + 1, n => n % 256 :: putLE k (n / 256)

/-- Read `k` little-endian bytes at offset `off` (missing bytes read as 0,
which never happens on the in-bounds reads the theorems talk about). -/
def readLE : Nat → Bytes → Nat → Nat
  | 0, _, _ => 0
  | k + 1, f, off => f.getD off 0 + 256 * readLE k f (off + 1)

/-- `binary.LittleEndian.PutUint16`. -/
def putU16 (n : Nat) : Bytes := putLE 2 n

/-- `binary.LittleEndian.PutUint64`. -/
def putU64 (n : Nat) : Bytes := putLE 8 n

/-- Read a `uint16` field of the mapped file. -/
def readU16 (f : Bytes) (off : Nat) : Nat := readLE 2 f off

/-- Read a `uint64` field of the mapped file. -/
def readU64 (f : Bytes) (off : Nat) : Nat := readLE 8 f off

/-- `alignBufferTo` (misc.go): pad with NUL bytes so the length becomes a
multiple of `a`. -/
def alignTo (b : Bytes) (a : Nat) : Bytes :=
  if b.length % a = 0 then b
  else b ++ List.replicate (a - b.length % a) 0

/-! ## Strings and fields -/

/-- ASCII string literal to bytes (all examples in this file are ASCII). -/
def strBytes (s : String) : Bytes := s.data.map (fun c => c.toNat)

/-- `strings.Split(s, sep)` for a one-byte separator; yields at least one
element, exactly like Go. -/
def splitOnByte (sep : Nat) : Bytes → List Bytes
  | [] => [[]]
  | c :: cs =>
    match splitOnByte sep cs with
    | h :: t => if c = sep then [] :: h :: t else (c :: h) :: t
    | [] => [[]]

/-- `strconv.ParseUint(s, 10, 64)`: nonempty all-decimal strings whose value
fits in a `uint64`. -/
def parseUint64 (b : Bytes) : Option Nat :=
  if b = [] then none
  else if b.all (fun c => 48 ≤ c ∧ c ≤ 57) then
    let v := b.foldl (fun a c => a * 10 + (c - 48)) 0
    if v < 2 ^ 64 then some v else none
  else none

/-- Split an input byte stream as the `bufio.ReadString('\n')` loops do:
the list of complete (newline-terminated) lines, without their newline, and
the unterminated remainder. -/
def splitInput : Bytes → List Bytes × Bytes
  | [] => ([], [])
  | c :: cs =>
    if c = 10 then
      let r := splitInput cs
      ([] :: r.1, r.2)
    else
      match splitInput cs with
      | ([], rem) => ([], c :: rem)
      | (l :: ls, rem) => ((c :: l) :: ls, rem)

/-- The C-string starting at offset `i` of buffer `b`: bytes up to the first
NUL.  This is what a `char *` pointing at `b + i` denotes. -/
def cstr (b : Bytes) (i : Nat) : Bytes :=
  (b.drop i).takeWhile (fun c => c ≠ 0)

/-! ## Byte-wise three-way comparison

Go's `<` on `string` and C's `strcmp` (on the byte lists before the
terminating NUL) are both byte-wise lexicographic. -/

/-- Three-way byte-wise comparison of byte strings. -/
def cmpBytes : Bytes → Bytes → Ordering
  | [], [] => .eq
  | [], _ :: _ => .lt
  | _ :: _, [] => .gt
  | a :: as, b :: bs =>
    if a < b then .lt else if b < a then .gt else cmpBytes as bs

/-- Byte-wise `≤` (Go `!(b < a)` on strings). -/
def bytesLe (a b : Bytes) : Prop := cmpBytes a b ≠ .gt

instance : DecidableRel bytesLe := fun _ _ => by
  unfold bytesLe; infer_instance

/-! ## Data model (passwd.go / group.go) -/

/-- `type Passwd struct` of passwd.go. -/
structure Passwd where
  name : Bytes
  passwd : Bytes
  uid : Nat
  gid : Nat
  gecos : Bytes
  dir : Bytes
  shell : Bytes
deriving DecidableEq, Repr

/-- `type Group struct` of group.go. -/
structure Group where
  name : Bytes
  passwd : Bytes
  gid : Nat
  members : List Bytes
deriving DecidableEq, Repr

/-- `type GroupKey struct` of group.go: the map key used for the offsets map
(members joined with `","` — Go cannot key a map by a slice). -/
structure GroupKey where
  name : Bytes
  passwd : Bytes
  gid : Nat
  members : Bytes
deriving DecidableEq, Repr

/-- `func toKey(g Group) GroupKey` (the `strings.Join(g.Members, ",")`). -/
def toKey (g : Group) : GroupKey :=
  { name := g.name, passwd := g.passwd, gid := g.gid,
    members := (g.members.intersperse (strBytes ",")).flatten }

/-! ## Parsers -/

/-- Parse errors, mirroring the distinct error messages of the Go parsers. -/
inductive ParseErr where
  /-- "no newline in last line: %q" -/
  | noNewline
  /-- "invalid line %q" -/
  | invalidLine
  /-- "invalid uid/gid in line %q" -/
  | invalidId
deriving DecidableEq, Repr

/-- One iteration of the `ParsePasswds` loop body, applied to the text
`ReadString` returned (the line including its trailing newline). -/
def parsePasswdLine (t : Bytes) : Except ParseErr Passwd := do
  let x := splitOnByte 58 t
  if h7 : x.length = 7 then
    let uid ← match parseUint64 (x.get ⟨2, by omega⟩) with
      | some v => Except.ok v
      | none => Except.error .invalidId
    let gid ← match parseUint64 (x.get ⟨3, by omega⟩) with
      | some v => Except.ok v
      | none => Except.error .invalidId
    Except.ok
      { name := x.get ⟨0, by omega⟩
        passwd := x.get ⟨1, by omega⟩
        uid := uid
        gid := gid
        gecos := x.get ⟨4, by omega⟩
        dir := x.get ⟨5, by omega⟩
        -- ReadString() contains the delimiter, TrimSuffix removes it
        shell := (x.get ⟨6, by omega⟩).dropLast }
  else Except.error .invalidLine

/-- `func ParsePasswds(r io.Reader) ([]Passwd, error)` (passwd.go).

NOTE (faithful to the source): when `ReadString('\n')` hits `io.EOF` the loop
just `break`s, so an unterminated last line is silently dropped — this
version of the function has no "no newline in last line" check (its own test
`TestParsePasswd` expects one). -/
def ParsePasswds (input : Bytes) : Except ParseErr (List Passwd) := do
  let (lines, _rest) := splitInput input
  -- each complete line is handed to the loop body with its newline, as
  -- `ReadString` returns it; the remainder `_rest` is dropped on EOF
  lines.mapM (fun l => parsePasswdLine (l ++ [10]))

/-- One iteration of the `ParseGroups` loop body (the line including its
trailing newline). -/
def parseGroupLine (t : Bytes) : Except ParseErr Group := do
  let x := splitOnByte 58 t
  if h4 : x.length = 4 then
    let gid ← match parseUint64 (x.get ⟨2, by omega⟩) with
      | some v => Except.ok v
      | none => Except.error .invalidId
    -- ReadString() contains the delimiter
    let f3 := (x.get ⟨3, by omega⟩).dropLast
    -- No members must result in empty slice, not slice with the empty string
    let members := if f3 = [] then [] else splitOnByte 44 f3
    Except.ok
      { name := x.get ⟨0, by omega⟩
        passwd := x.get ⟨1, by omega⟩
        gid := gid
        members := members }
  else Except.error .invalidLine

/-- `func ParseGroups(r io.Reader) ([]Group, error)` (group.go).  Unlike
`ParsePasswds`, a nonempty unterminated last line is an error
("no newline in last line"). -/
def ParseGroups (input : Bytes) : Except ParseErr (List Group) := do
  let (lines, rest) := splitInput input
  let gs ← lines.mapM (fun l => parseGroupLine (l ++ [10]))
  if rest ≠ [] then Except.error .noNewline
  else Except.ok gs

/-! ## Record serializers -/

/-- Serialization errors of `SerializePasswds`/`SerializeGroups`. -/
inductive SerErr where
  /-- "passwd/group too large to serialize" -/
  | tooLarge
  /-- "indexes have inconsistent length" -/
  | inconsistent
deriving DecidableEq, Repr

/-- The `data` buffer of `SerializePasswd`: all strings NUL-terminated,
name first. -/
def pwData (p : Passwd) : Bytes :=
  p.name ++ [0] ++ p.passwd ++ [0] ++ p.gecos ++ [0] ++ p.dir ++ [0] ++
    p.shell ++ [0]

/-- `func SerializePasswd(p Passwd) ([]byte, error)` (passwd.go).  The
`uint16` casts of the running buffer length are the `% 65536`; the length
check rejects anything whose data block exceeds `math.MaxUint16`. -/
def SerializePasswd (p : Passwd) : Option Bytes :=
  let data := pwData p
  let offPasswd := (p.name.length + 1) % 65536
  let offGecos := (p.name.length + 1 + p.passwd.length + 1) % 65536
  let offDir :=
    (p.name.length + 1 + p.passwd.length + 1 + p.gecos.length + 1) % 65536
  let offShell :=
    (p.name.length + 1 + p.passwd.length + 1 + p.gecos.length + 1 +
      p.dir.length + 1) % 65536
  if data.length > 65535 then none
  else
    let size := data.length % 65536
    some (alignTo
      (putU64 p.uid ++ putU64 p.gid ++
        putU16 offPasswd ++ putU16 offGecos ++ putU16 offDir ++
        putU16 offShell ++ putU16 size ++ data) 8)

/-- The `mems` buffer of `SerializeGroup`: members concatenated, each
NUL-terminated. -/
def memsBuf (ms : List Bytes) : Bytes := (ms.map (fun m => m ++ [0])).flatten

/-- The `mems_off` list of `SerializeGroup`: offset of each member inside
`mems`, cast to `uint16` as it is appended. -/
def memOffs : List Bytes → Nat → List Nat
  | [], _ => []
  | m :: ms, acc => acc % 65536 :: memOffs ms (acc + m.length + 1)

/-- The `data` buffer of `SerializeGroup`: name and passwd NUL-terminated,
padding to 2-byte alignment, the member-offset `uint16` table, then the
member strings. -/
def grData (g : Group) : Bytes :=
  let d2 := alignTo (g.name ++ [0] ++ g.passwd ++ [0]) 2
  let offMemOff := d2.length % 65536
  let offMem := (offMemOff + 2 * (g.members.length % 65536)) % 65536
  d2 ++ ((memOffs g.members 0).map (fun o => putU16 ((offMem + o) % 65536))).flatten
     ++ memsBuf g.members

/-- `func SerializeGroup(g Group) ([]byte, error)` (group.go). -/
def SerializeGroup (g : Group) : Option Bytes :=
  let data := grData g
  let offPasswd := (g.name.length + 1) % 65536
  let offMemOff := (alignTo (g.name ++ [0] ++ g.passwd ++ [0]) 2).length % 65536
  if data.length > 65535 then none
  else
    let size := data.length % 65536
    some (alignTo
      (putU64 g.gid ++
        putU16 offPasswd ++ putU16 offMemOff ++
        putU16 (g.members.length % 65536) ++ putU16 size ++ data) 8)

/-! ## Cache-file serializers

The `offsets` Go map is modelled as a function updated per record, so a
duplicate key ends up mapped to the offset of its *last* occurrence, exactly
as repeated `offsets[p] = …` assignments do. -/

/-- The serialize-and-record-offsets loop of `SerializePasswds`. -/
def serPwRecs : List Passwd → Bytes → (Passwd → Nat) →
    Except SerErr (Bytes × (Passwd → Nat))
  | [], data, offs => .ok (data, offs)
  | p :: ps, data, offs =>
    let offs2 := fun q => if q = p then data.length else offs q
    match SerializePasswd p with
    | none => .error .tooLarge
    | some x => serPwRecs ps (data ++ x) offs2

/-- The serialize-and-record-offsets loop of `SerializeGroups`
(keyed by `GroupKey`). -/
def serGrRecs : List Group → Bytes → (GroupKey → Nat) →
    Except SerErr (Bytes × (GroupKey → Nat))
  | [], data, offs => .ok (data, offs)
  | g :: gs, data, offs =>
    let offs2 := fun q => if q = toKey g then data.length else offs q
    match SerializeGroup g with
    | none => .error .tooLarge
    | some x => serGrRecs gs (data ++ x) offs2

/-- `sort.Slice(sorted, … Uid < …)`, modelled by a deterministic comparison
sort (see the header comment). -/
def pwLeUid (a b : Passwd) : Prop := a.uid ≤ b.uid

instance : DecidableRel pwLeUid := fun p q => Nat.decLe p.uid q.uid

/-- `sort.Slice(sorted, … Name < …)`: byte-wise string order. -/
def pwLeName (a b : Passwd) : Prop := bytesLe a.name b.name

instance : DecidableRel pwLeName := fun _ _ => by
  unfold pwLeName; infer_instance

def grLeGid (a b : Group) : Prop := a.gid ≤ b.gid

instance : DecidableRel grLeGid := fun p q => Nat.decLe p.gid q.gid

def grLeName (a b : Group) : Prop := bytesLe a.name b.name

instance : DecidableRel grLeName := fun _ _ => by
  unfold grLeName; infer_instance

/-- The byte string "NSS-CASH". -/
def magic : Bytes := strBytes "NSS-CASH"

/-- `func SerializePasswds(w io.Writer, pws []Passwd) error` (passwd.go):
serialize all records, build the three indices (input order, by uid, by
name — the second sort reorders the already uid-sorted copy, as
`sort.Slice` is called twice on the same slice), then emit header, indices
and data. -/
def SerializePasswds (pws : List Passwd) : Except SerErr Bytes :=
  match serPwRecs pws [] (fun _ => 0) with
  | .error e => .error e
  | .ok (data, offsets) =>
  let indexOrig := (pws.map (fun p => putU64 (offsets p))).flatten
  let sorted1 := List.insertionSort pwLeUid pws
  let indexId := (sorted1.map (fun p => putU64 (offsets p))).flatten
  let sorted2 := List.insertionSort pwLeName sorted1
  let indexName := (sorted2.map (fun p => putU64 (offsets p))).flatten
  if pws.length * 8 ≠ indexOrig.length ∨
      indexOrig.length ≠ indexId.length ∨
      indexId.length ≠ indexName.length then
    .error .inconsistent
  else
    .ok (magic ++ putU64 1 ++ putU64 pws.length ++
      putU64 0 ++
      putU64 indexOrig.length ++
      putU64 (indexOrig.length + indexId.length) ++
      putU64 (indexOrig.length + indexId.length + indexName.length) ++
      indexOrig ++ indexId ++ indexName ++ data)

/-- `func SerializeGroups(w io.Writer, grs []Group) error` (group.go). -/
def SerializeGroups (grs : List Group) : Except SerErr Bytes :=
  match serGrRecs grs [] (fun _ => 0) with
  | .error e => .error e
  | .ok (data, offsets) =>
  let indexOrig := (grs.map (fun g => putU64 (offsets (toKey g)))).flatten
  let sorted1 := List.insertionSort grLeGid grs
  let indexId := (sorted1.map (fun g => putU64 (offsets (toKey g)))).flatten
  let sorted2 := List.insertionSort grLeName sorted1
  let indexName := (sorted2.map (fun g => putU64 (offsets (toKey g)))).flatten
  if grs.length * 8 ≠ indexOrig.length ∨
      indexOrig.length ≠ indexId.length ∨
      indexId.length ≠ indexName.length then
    .error .inconsistent
  else
    .ok (magic ++ putU64 1 ++ putU64 grs.length ++
      putU64 0 ++
      putU64 indexOrig.length ++
      putU64 (indexOrig.length + indexId.length) ++
      putU64 (indexOrig.length + indexId.length + indexName.length) ++
      indexOrig ++ indexId ++ indexName ++ data)

/-! ## The C reader (nss module)

The mapped file is the byte string; pointers into the mapping are byte
offsets.  `sizeof(char *) = 8` and `uid_t`/`gid_t` are 32-bit unsigned, as
on the Linux/glibc targets the module is built for. -/

/-- The errno values the reader sets. -/
inductive Errno where
  | ENOENT
  | ERANGE
  | EINVAL
deriving DecidableEq, Repr

/-- Outcome of one reader call: the NSS status plus, on non-success, the
errno stored to `*errnop`. -/
inductive NssResult (α : Type) where
  | success (a : α)
  | notfound (e : Errno)
  | tryagain (e : Errno)
  | unavail (e : Errno)
deriving DecidableEq, Repr

/-- The five `uint64` header fields after magic and version
(`struct header`, file.h). -/
structure Header where
  count : Nat
  offOrig : Nat
  offId : Nat
  offName : Nat
  offData : Nat
deriving DecidableEq, Repr

/-- `sizeof(struct header)` without the flexible `data[]`: 7 × 8 bytes.
`h->data` starts here; all header offsets are relative to it. -/
def headerSize : Nat := 56

/-- Decode the header fields of a mapped file. -/
def readHeader (f : Bytes) : Header :=
  { count := readU64 f 16
    offOrig := readU64 f 24
    offId := readU64 f 32
    offName := readU64 f 40
    offData := readU64 f 48 }

/-- `map_file` (file.c) on an already-present file: magic and version
checks, `errno = EINVAL` on mismatch. -/
def mapFile (f : Bytes) : Except Errno Header :=
  if f.take 8 ≠ magic then .error .EINVAL
  else if readU64 f 8 ≠ 1 then .error .EINVAL
  else .ok (readHeader f)

/-- `struct passwd` as materialised by `entry_to_passwd`: the `char *`
fields denote the C strings they point at inside the caller's buffer. -/
structure CPasswd where
  pw_uid : Nat
  pw_gid : Nat
  pw_name : Bytes
  pw_passwd : Bytes
  pw_gecos : Bytes
  pw_dir : Bytes
  pw_shell : Bytes
deriving DecidableEq, Repr

/-- `entry_to_passwd` (pw.c).  `e` is the byte offset of the
`struct passwd_entry` in the mapped file `f`; field offsets inside the
packed entry: uid 0, gid 8, off_passwd 16, off_gecos 18, off_dir 20,
off_shell 22, data_size 24, data 26.  Fails (caller turns this into
`ERANGE`) when `space < data_size`.  The `(uid_t)`/`(gid_t)` casts truncate
to 32 bits. -/
def entryToPasswd (f : Bytes) (e : Nat) (space : Nat) : Option CPasswd :=
  let dataSize := readU16 f (e + 24)
  if space < dataSize then none
  else
    -- memcpy(tmp, e->data, e->data_size)
    let tmp := (f.drop (e + 26)).take dataSize
    some
      { pw_uid := readU64 f e % 2 ^ 32
        pw_gid := readU64 f (e + 8) % 2 ^ 32
        pw_name := cstr tmp 0
        pw_passwd := cstr tmp (readU16 f (e + 16))
        pw_gecos := cstr tmp (readU16 f (e + 18))
        pw_dir := cstr tmp (readU16 f (e + 20))
        pw_shell := cstr tmp (readU16 f (e + 22)) }

/-- `struct group` as materialised by `entry_to_group`; `gr_mem` is the
NULL-terminated `char *[]`, given by the member strings it points at. -/
structure CGroup where
  gr_gid : Nat
  gr_name : Bytes
  gr_passwd : Bytes
  gr_mem : List Bytes
deriving DecidableEq, Repr

/-- `entry_to_group` (gr.c).  Field offsets inside the packed
`struct group_entry`: gid 0, off_passwd 8, off_mem_off 10, mem_count 12,
data_size 14, data 16.  The buffer must hold the pointer array
(`(mem_count + 1) * sizeof(char *)`, pointers are 8 bytes) plus the data
copy; member `i`'s pointer lands on the copied data at offset
`offs_mem[i]`. -/
def entryToGroup (f : Bytes) (e : Nat) (space : Nat) : Option CGroup :=
  let memCount := readU16 f (e + 12)
  let dataSize := readU16 f (e + 14)
  let memSize := (memCount + 1) * 8
  if space < dataSize + memSize then none
  else
    let offMemOff := readU16 f (e + 10)
    -- memcpy(tmp + mem_size, e->data, e->data_size)
    let tmp := (f.drop (e + 16)).take dataSize
    some
      { gr_gid := readU64 f e % 2 ^ 32
        gr_name := cstr tmp 0
        gr_passwd := cstr tmp (readU16 f (e + 8))
        gr_mem := (List.range memCount).map
          (fun i => cstr tmp (readU16 f (e + 16 + offMemOff + 2 * i))) }

/-! ### Binary search (search.c) -/

/-- The key of `struct search_key`: either a name (`key->name != NULL`)
or an id. -/
inductive SearchKey where
  | byName (n : Bytes)
  | byId (i : Nat)

/-- `bsearch_callback` applied to one index entry: `off` is the `uint64`
taken from the index, `koff` the static key offset inside the entry
(`key->offset`), `dataStart` the mapped data region
(`key->data`).  Name lookups `strcmp`, id lookups compare `uint64`s. -/
def searchCmp (f : Bytes) (dataStart : Nat) (key : SearchKey) (koff : Nat)
    (off : Nat) : Ordering :=
  match key with
  | .byName n => cmpBytes n (cstr f (dataStart + off + koff))
  | .byId i => compare i (readU64 f (dataStart + off + koff))

/-- The C library `bsearch` over indices `[l, u)`: probe the middle, go
left on negative comparison, right on positive, stop on zero. -/
def bsearch (cmp : Nat → Ordering) (l u : Nat) : Option Nat :=
  if _h : l < u then
    let idx := (l + u) / 2
    match cmp idx with
    | .lt => bsearch cmp l idx
    | .gt => bsearch cmp (idx + 1) u
    | .eq => some idx
  else none
termination_by u - l
decreasing_by
  all_goals omega

/-- `key->offset` for a passwd lookup: `offsetof(struct passwd_entry, uid)`
for ids, `sizeof(struct passwd_entry)` (name is first in `data[]`) for
names. -/
def pwKeyOff : SearchKey → Nat
  | .byName _ => 26
  | .byId _ => 0

/-- `key->offset` for a group lookup. -/
def grKeyOff : SearchKey → Nat
  | .byName _ => 16
  | .byId _ => 0

/-- `internal_getpw` (pw.c): map the file fresh, pick the name- or
id-index, binary-search it, materialise the hit into the caller's buffer of
`space` bytes. -/
def internal_getpw (disk : Option Bytes) (key : SearchKey) (space : Nat) :
    NssResult CPasswd :=
  match disk with
  | none => .unavail .ENOENT
  | some f =>
    match mapFile f with
    | .error e => .unavail e
    | .ok h =>
      let dataStart := headerSize + h.offData
      let idxBase := headerSize +
        (match key with | .byName _ => h.offName | .byId _ => h.offId)
      let cmp := fun i =>
        searchCmp f dataStart key (pwKeyOff key) (readU64 f (idxBase + 8 * i))
      match bsearch cmp 0 h.count with
      | none => .notfound .ENOENT
      | some i =>
        match entryToPasswd f (dataStart + readU64 f (idxBase + 8 * i)) space with
        | none => .tryagain .ERANGE
        | some p => .success p

/-- `_nss_cash_getpwuid_r`. -/
def getpwuidR (disk : Option Bytes) (uid : Nat) (space : Nat) :
    NssResult CPasswd :=
  internal_getpw disk (.byId uid) space

/-- `_nss_cash_getpwnam_r`. -/
def getpwnamR (disk : Option Bytes) (name : Bytes) (space : Nat) :
    NssResult CPasswd :=
  internal_getpw disk (.byName name) space

/-- `internal_getgr` (gr.c). -/
def internal_getgr (disk : Option Bytes) (key : SearchKey) (space : Nat) :
    NssResult CGroup :=
  match disk with
  | none => .unavail .ENOENT
  | some f =>
    match mapFile f with
    | .error e => .unavail e
    | .ok h =>
      let dataStart := headerSize + h.offData
      let idxBase := headerSize +
        (match key with | .byName _ => h.offName | .byId _ => h.offId)
      let cmp := fun i =>
        searchCmp f dataStart key (grKeyOff key) (readU64 f (idxBase + 8 * i))
      match bsearch cmp 0 h.count with
      | none => .notfound .ENOENT
      | some i =>
        match entryToGroup f (dataStart + readU64 f (idxBase + 8 * i)) space with
        | none => .tryagain .ERANGE
        | some g => .success g

/-- `_nss_cash_getgrgid_r`. -/
def getgrgidR (disk : Option Bytes) (gid : Nat) (space : Nat) :
    NssResult CGroup :=
  internal_getgr disk (.byId gid) space

/-- `_nss_cash_getgrnam_r`. -/
def getgrnamR (disk : Option Bytes) (name : Bytes) (space : Nat) :
    NssResult CGroup :=
  internal_getgr disk (.byName name) space

/-! ### The enumerator (`getpwent_r` / `getgrent_r`)

`static struct file static_file` holds the retained mapping and the cursor
`next_index`.  `map_file` starts with `memset(f, 0, sizeof(*f))`, so both a
fresh mapping and a failed mapping attempt reset the cursor to 0;
`unmap_file` (run by `set*ent`/`end*ent`) only drops the mapping. -/

/-- The mutable enumerator state: `static_file.header` (the retained
mapping, `none` when unmapped) and `static_file.next_index`. -/
structure EnumState where
  mapped : Option Bytes
  nextIndex : Nat
deriving DecidableEq, Repr

/-- `_nss_cash_setpwent` / `_nss_cash_endpwent` (and the gr twins): unmap. -/
def unmapStaticFile (st : EnumState) : EnumState :=
  { mapped := none, nextIndex := st.nextIndex }

/-- `internal_getpwent_r` (pw.c): map the file on first use, serve the
record at `next_index` from the orig index, and advance the cursor only on
success. -/
def getpwentStep (disk : Option Bytes) (st : EnumState) (space : Nat) :
    NssResult CPasswd × EnumState :=
  let mapped : Except Errno (Bytes × Nat) :=
    match st.mapped with
    | some f => .ok (f, st.nextIndex)
    | none =>
      match disk with
      | none => .error .ENOENT
      | some f => (mapFile f).map (fun _ => (f, 0))
  match mapped with
  | .error e => (.unavail e, { mapped := none, nextIndex := 0 })
  | .ok (f, idx) =>
    let h := readHeader f
    if idx ≥ h.count then (.notfound .ENOENT, { mapped := some f, nextIndex := idx })
    else
      let off := readU64 f (headerSize + h.offOrig + 8 * idx)
      match entryToPasswd f (headerSize + h.offData + off) space with
      | none => (.tryagain .ERANGE, { mapped := some f, nextIndex := idx })
      | some p => (.success p, { mapped := some f, nextIndex := idx + 1 })

/-- `internal_getgrent_r` (gr.c). -/
def getgrentStep (disk : Option Bytes) (st : EnumState) (space : Nat) :
    NssResult CGroup × EnumState :=
  let mapped : Except Errno (Bytes × Nat) :=
    match st.mapped with
    | some f => .ok (f, st.nextIndex)
    | none =>
      match disk with
      | none => .error .ENOENT
      | some f => (mapFile f).map (fun _ => (f, 0))
  match mapped with
  | .error e => (.unavail e, { mapped := none, nextIndex := 0 })
  | .ok (f, idx) =>
    let h := readHeader f
    if idx ≥ h.count then (.notfound .ENOENT, { mapped := some f, nextIndex := idx })
    else
      let off := readU64 f (headerSize + h.offOrig + 8 * idx)
      match entryToGroup f (headerSize + h.offData + off) space with
      | none => (.tryagain .ERANGE, { mapped := some f, nextIndex := idx })
      | some g => (.success g, { mapped := some f, nextIndex := idx + 1 })

/-! ## Fetch/deploy pipeline (fetch.go, file.go = the deploy half, main.go)

The HTTP layer is abstracted into an oracle: for each URL and each
`If-Modified-Since` value sent (0 models Go's zero `time.Time`, i.e. the
header not sent) it yields a network error or a response.  SHA-512 is
modelled by an injective stand-in (the hashed bytes themselves); every
claim settled here uses checksums only through equality tests.  File modes
and ownership are not modelled; a deploy target is its content. -/

/-- `type FileType int` (config.go). -/
inductive FileType where
  | plain
  | passwd
  | group
deriving DecidableEq, Repr

/-- One `[[file]]` config entry plus its fetched `body` (nil before a
successful fetch that produced an update).  Credentials and `ca` only select
the HTTP client and are absorbed into the oracle. -/
structure File where
  ftype : FileType
  url : String
  path : String
  body : Option Bytes := none
deriving DecidableEq, Repr

/-- Association-list lookup (a Go map read). -/
def lookupA {α : Type} (m : List (String × α)) (k : String) : Option α :=
  (m.find? (fun e => e.1 = k)).map (fun e => e.2)

/-- Association-list insert/overwrite (a Go map write). -/
def insertA {α : Type} (m : List (String × α)) (k : String) (v : α) :
    List (String × α) :=
  match m with
  | [] => [(k, v)]
  | e :: es => if e.1 = k then (k, v) :: es else e :: insertA es k v

/-- `type State struct` (state.go): `LastModified` (0 = zero time) and
`Checksum` per URL. -/
structure State where
  lastModified : List (String × Nat)
  checksum : List (String × Bytes)
deriving DecidableEq, Repr

/-- `checksumBytes` (SHA-512 hex digest), modelled by an injective
stand-in. -/
def checksumBytes (b : Bytes) : Bytes := b

/-- The contents of the deploy targets on disk, by path. -/
abbrev Targets := List (String × Bytes)

/-- An HTTP response: status, body, and the parsed `Last-Modified` response
header when present and parseable. -/
structure HttpResp where
  status : Nat
  body : Bytes
  lastModifiedHdr : Option Nat
deriving DecidableEq, Repr

/-- The HTTP oracle: URL and `If-Modified-Since` value sent ↦ outcome. -/
def HttpOracle : Type := String → Nat → Except Unit HttpResp

/-- The per-file errors of the fetch and deploy phases, mirroring the Go
error messages. -/
inductive FetchErr where
  /-- "file.path %q must exist" -/
  | pathMustExist
  /-- a transport-level error from the HTTP client -/
  | network
  /-- "status code 304 but did not send If-Modified-Since" -/
  | status304NotSent
  /-- "status code %v" -/
  | statusCode (n : Nat)
  /-- "refusing to use empty response" -/
  | emptyResponse
  /-- a passwd/group parse error -/
  | parseFailed (e : ParseErr)
  /-- "refusing to use empty passwd file" -/
  | emptyPasswd
  /-- "refusing to use empty group file" -/
  | emptyGroup
  /-- "passwd/group too large to serialize" / index sanity check -/
  | serializeFailed (e : SerErr)
  /-- "refusing to write empty file" -/
  | emptyBody
deriving DecidableEq, Repr

/-- `fetchFile` (the fetch half of file.go): conditional GET and
validation/serialization.  Reads the deploy target (for the checksum
comparison) but never writes anything to disk; its effects are confined to
the returned `File.body` and `State`. -/
def fetchFile (http : HttpOracle) (targets : Targets) (f : File)
    (state : State) : Except FetchErr (File × State) :=
  let t0 := (lookupA state.lastModified f.url).getD 0
  match lookupA targets f.path with
  | none => .error .pathMustExist
  | some cur =>
    let hash := checksumBytes cur
    -- force download when the on-disk file changed behind our back
    let t := if lookupA state.checksum f.url ≠ some hash then 0 else t0
    let oldT := t
    match http f.url t with
    | .error _ => .error .network
    | .ok resp =>
      let t2 := match resp.lastModifiedHdr with
        | some m => m
        | none => t
      if resp.status = 304 then
        if oldT = 0 then .error .status304NotSent
        else .ok (f, state)  -- not modified: body stays nil
      else if resp.status ≠ 200 then .error (.statusCode resp.status)
      else
        let state1 :=
          { state with lastModified := insertA state.lastModified f.url t2 }
        let finish := fun (b : Bytes) =>
          Except.ok ({ f with body := some b },
            { state1 with checksum := insertA state1.checksum f.url (checksumBytes b) })
        match f.ftype with
        | .plain =>
          if resp.body = [] then .error .emptyResponse
          else finish resp.body
        | .passwd =>
          match ParsePasswds resp.body with
          | .error e => .error (.parseFailed e)
          | .ok pws =>
            if pws.length = 0 then .error .emptyPasswd
            else match SerializePasswds pws with
              | .error e => .error (.serializeFailed e)
              | .ok x => finish x
        | .group =>
          match ParseGroups resp.body with
          | .error e => .error (.parseFailed e)
          | .ok grs =>
            if grs.length = 0 then .error .emptyGroup
            else match SerializeGroups grs with
              | .error e => .error (.serializeFailed e)
              | .ok x => finish x

/-- `deployFile` (file.go): refuse an empty body, require the target to
exist, then atomically replace its content. -/
def deployFile (targets : Targets) (f : File) : Except FetchErr Targets :=
  if f.body.getD [] = [] then .error .emptyBody
  else match lookupA targets f.path with
    | none => .error .pathMustExist
    | some _ => .ok (insertA targets f.path (f.body.getD []))

/-- The first loop of `handleFiles`: fetch every file in order, threading
the in-memory state; abort at the first failure.  No disk write happens
here. -/
def fetchPhase (http : HttpOracle) :
    List File → State → Targets → Except FetchErr (List File × State)
  | [], state, _ => .ok ([], state)
  | f :: fs, state, targets =>
    match fetchFile http targets f state with
    | .error e => .error e
    | .ok (f2, state2) =>
      match fetchPhase http fs state2 targets with
      | .error e => .error e
      | .ok (fs2, state3) => .ok (f2 :: fs2, state3)

/-- The second loop of `handleFiles`: deploy every file whose body was
updated; on failure the already-deployed files keep their new content. -/
def deployPhase : List File → Targets → Targets × Option FetchErr
  | [], targets => (targets, none)
  | f :: fs, targets =>
    match f.body with
    | none => deployPhase fs targets  -- "No update required"
    | some _ =>
      match deployFile targets f with
      | .error e => (targets, some e)
      | .ok targets2 => deployPhase fs targets2

/-- `handleFiles` (file.go): the fetch phase over all files, then the
deploy phase — split "to prevent updates of only some files". -/
def handleFiles (http : HttpOracle) (files : List File) (state : State)
    (targets : Targets) : Targets × Except FetchErr State :=
  match fetchPhase http files state targets with
  | .error e => (targets, .error e)
  | .ok (files2, state2) =>
    match deployPhase files2 targets with
    | (targets2, some e) => (targets2, .error e)
    | (targets2, none) => (targets2, .ok state2)

/-- The on-disk world the pipeline can touch: the deploy targets and the
state file (`none` = not present; `LoadState` treats that as empty maps). -/
structure World where
  targets : Targets
  stateFile : Option State
deriving DecidableEq, Repr

/-- `mainFetch` (main.go): load the state, run `handleFiles`, and write the
state back only when there were no errors. -/
def mainFetch (http : HttpOracle) (files : List File) (w : World) :
    World × Option FetchErr :=
  let state0 := w.stateFile.getD { lastModified := [], checksum := [] }
  match handleFiles http files state0 w.targets with
  | (targets2, .error e) => ({ w with targets := targets2 }, some e)
  | (targets2, .ok state2) =>
    ({ targets := targets2, stateFile := some state2 }, none)

instance {ε α : Type} [DecidableEq ε] [DecidableEq α] :
    DecidableEq (Except ε α) := fun a b =>
  match a, b with
  | .error e, .error f => decidable_of_iff (e = f) (by simp)
  | .ok x, .ok y => decidable_of_iff (x = y) (by simp)
  | .error _, .ok _ => isFalse (by simp)
  | .ok _, .error _ => isFalse (by simp)

/-! ## Lemmas: little-endian encoding -/

theorem putLE_length (k n : Nat) : (putLE k n).length = k := by
  induction k generalizing n with
  | zero => rfl
  | succ k ih => simp [putLE, ih]

theorem putU16_length (n : Nat) : (putU16 n).length = 2 := putLE_length 2 n

theorem putU64_length (n : Nat) : (putU64 n).length = 8 := putLE_length 8 n

theorem getD_append (pre rest : Bytes) (j d : Nat) :
    (pre ++ rest).getD (pre.length + j) d = rest.getD j d := by
  simp [List.getD_eq_getElem?_getD, List.getElem?_append_right]

theorem readLE_append (k : Nat) (pre rest : Bytes) (j : Nat) :
    readLE k (pre ++ rest) (pre.length + j) = readLE k rest j := by
  induction k generalizing j with
  | zero => rfl
  | succ k ih =>
    simp only [readLE, getD_append]
    have h := ih (j + 1)
    rw [show pre.length + j + 1 = pre.length + (j + 1) from by omega, h]

theorem readLE_putLE (k n : Nat) (rest : Bytes) :
    readLE k (putLE k n ++ rest) 0 = n % 256 ^ k := by
  induction k generalizing n rest with
  | zero => simp [readLE, putLE, Nat.mod_one]
  | succ k ih =>
    have hshift : readLE k ([n % 256] ++ (putLE k (n / 256) ++ rest)) (1 + 0) =
        readLE k (putLE k (n / 256) ++ rest) 0 := by
      have := readLE_append k [n % 256] (putLE k (n / 256) ++ rest) 0
      simpa using this
    simp only [putLE, List.cons_append, readLE, List.getD]
    rw [show (n % 256 :: (putLE k (n / 256) ++ rest)) =
        [n % 256] ++ (putLE k (n / 256) ++ rest) from rfl]
    rw [show (0 : Nat) + 1 = 1 + 0 from rfl, hshift, ih]
    rw [pow_succ', Nat.mod_mul]
    simp [List.getD]

/-- Read a `uint64` whose encoded bytes sit at offset `m` of `f`. -/
theorem readU64_at (f pre rest : Bytes) (n m : Nat)
    (hf : f = pre ++ (putU64 n ++ rest)) (hm : m = pre.length) :
    readU64 f m = n % 2 ^ 64 := by
  subst hf hm
  have h := readLE_append 8 pre (putU64 n ++ rest) 0
  simpa [readU64, putU64, readLE_putLE] using h

/-- Read a `uint16` whose encoded bytes sit at offset `m` of `f`. -/
theorem readU16_at (f pre rest : Bytes) (n m : Nat)
    (hf : f = pre ++ (putU16 n ++ rest)) (hm : m = pre.length) :
    readU16 f m = n % 2 ^ 16 := by
  subst hf hm
  have h := readLE_append 2 pre (putU16 n ++ rest) 0
  simpa [readU16, putU16, readLE_putLE] using h

theorem drop_at (f pre rest : Bytes) (m : Nat)
    (hf : f = pre ++ rest) (hm : m = pre.length) : f.drop m = rest := by
  subst hf hm
  exact List.drop_left pre rest

theorem take_exact (x y : Bytes) (k : Nat) (hk : k = x.length) :
    (x ++ y).take k = x := by
  subst hk
  exact List.take_left x y

/-! ## Lemmas: padding -/

/-- Number of padding bytes `alignBufferTo` appends to a buffer of length
`l` for alignment `a`. -/
def padLen (l a : Nat) : Nat := if l % a = 0 then 0 else a - l % a

theorem alignTo_eq (b : Bytes) (a : Nat) :
    alignTo b a = b ++ List.replicate (padLen b.length a) 0 := by
  unfold alignTo padLen
  split <;> simp

theorem alignTo_length (b : Bytes) (a : Nat) :
    (alignTo b a).length = b.length + padLen b.length a := by
  rw [alignTo_eq]; simp

/-! ## Lemmas: C strings -/

theorem takeWhile_ne_zero (a b : Bytes) (h : ∀ c ∈ a, c ≠ 0) :
    (a ++ 0 :: b).takeWhile (fun c => c ≠ 0) = a := by
  induction a with
  | nil => simp [List.takeWhile_cons]
  | cons x xs ih =>
    have hx : x ≠ 0 := h x (by simp)
    have ih2 := ih (fun c hc => h c (by simp [hc]))
    simp only [List.cons_append, List.takeWhile_cons]
    simp only [ne_eq, decide_not] at ih2 ⊢
    simp [hx, ih2]

/-- The C string at position `i = |pre|` of `pre ++ s ++ [0] ++ rest` is
`s`, when `s` is NUL-free. -/
theorem cstr_at (d pre s rest : Bytes) (i : Nat)
    (hd : d = pre ++ (s ++ 0 :: rest)) (hi : i = pre.length)
    (hs : ∀ c ∈ s, c ≠ 0) : cstr d i = s := by
  subst hd hi
  unfold cstr
  rw [List.drop_left pre (s ++ 0 :: rest)]
  exact takeWhile_ne_zero s rest hs

/-! ## Lemmas: the byte-wise order -/

theorem cmpBytes_eq_iff (a b : Bytes) : cmpBytes a b = .eq ↔ a = b := by
  induction a generalizing b with
  | nil => cases b <;> simp [cmpBytes]
  | cons x xs ih =>
    cases b with
    | nil => simp [cmpBytes]
    | cons y ys =>
      unfold cmpBytes
      split_ifs with h1 h2
      · simp; omega
      · simp; omega
      · have hxy : x = y := by omega
        simp [hxy, ih]

theorem cmpBytes_swap (a b : Bytes) : cmpBytes b a = (cmpBytes a b).swap := by
  induction a generalizing b with
  | nil => cases b <;> simp [cmpBytes, Ordering.swap]
  | cons x xs ih =>
    cases b with
    | nil => simp [cmpBytes, Ordering.swap]
    | cons y ys =>
      unfold cmpBytes
      split_ifs with h1 h2 <;>
        first
        | rfl
        | exact ih ys
        | (exfalso; omega)

theorem cmpBytes_lt_trans {a b c : Bytes} (hab : cmpBytes a b = .lt)
    (hbc : cmpBytes b c = .lt) : cmpBytes a c = .lt := by
  induction a generalizing b c with
  | nil =>
    cases b with
    | nil => simp [cmpBytes] at hab
    | cons y ys =>
      cases c with
      | nil => simp [cmpBytes] at hbc
      | cons z zs => simp [cmpBytes]
  | cons x xs ih =>
    cases b with
    | nil => simp [cmpBytes] at hab
    | cons y ys =>
      cases c with
      | nil => simp [cmpBytes] at hbc
      | cons z zs =>
        unfold cmpBytes at hab hbc ⊢
        split_ifs at hab with h1 h2 <;> split_ifs at hbc with h3 h4 <;>
          split_ifs with h5 h6 <;> try omega
        all_goals try rfl
        · have hxy : x = y := by omega
          have hyz : y = z := by omega
          exact ih hab hbc

/-- The key-comparator is antitone along an ascending list: if `a ≤ b`
then `k < a` forces `k < b`. -/
theorem cmp_key_lt_mono {k a b : Bytes} (hab : bytesLe a b)
    (h : cmpBytes k a = .lt) : cmpBytes k b = .lt := by
  unfold bytesLe at hab
  rcases ho : cmpBytes a b with _ | _ | _
  · exact cmpBytes_lt_trans h ho
  · rw [(cmpBytes_eq_iff a b).mp ho] at h; exact h
  · exact absurd ho hab

/-- If `a ≤ b` then `k > b` forces `k > a`. -/
theorem cmp_key_gt_mono {k a b : Bytes} (hab : bytesLe a b)
    (h : cmpBytes k b = .gt) : cmpBytes k a = .gt := by
  unfold bytesLe at hab
  have hbk : cmpBytes b k = .lt := by
    have hw := cmpBytes_swap k b
    rw [h] at hw
    simpa [Ordering.swap] using hw
  rcases ho : cmpBytes a b with _ | _ | _
  · have : cmpBytes a k = .lt := cmpBytes_lt_trans ho hbk
    have hsw := cmpBytes_swap a k
    rw [this] at hsw
    simpa [Ordering.swap] using hsw
  · rw [(cmpBytes_eq_iff a b).mp ho]; exact h
  · exact absurd ho hab

instance : IsTotal Bytes bytesLe := by
  constructor
  intro a b
  unfold bytesLe
  have h := cmpBytes_swap a b
  rcases ho : cmpBytes a b with _ | _ | _ <;> simp_all [Ordering.swap]

instance : IsTrans Bytes bytesLe := by
  constructor
  intro a b c hab hbc
  unfold bytesLe at hab hbc ⊢
  rcases h1 : cmpBytes a b with _ | _ | _
  · rcases h2 : cmpBytes b c with _ | _ | _
    · simp [cmpBytes_lt_trans h1 h2]
    · have hbc2 := (cmpBytes_eq_iff b c).mp h2
      rw [← hbc2]
      exact hab
    · exact absurd h2 hbc
  · have hab2 := (cmpBytes_eq_iff a b).mp h1
    rw [hab2]
    exact hbc
  · exact absurd h1 hab

instance : IsTotal Passwd pwLeUid := ⟨fun a b => Nat.le_total a.uid b.uid⟩

instance : IsTrans Passwd pwLeUid :=
  ⟨fun _ _ _ h1 h2 => Nat.le_trans h1 h2⟩

instance : IsTotal Passwd pwLeName :=
  ⟨fun a b => IsTotal.total (r := bytesLe) a.name b.name⟩

instance : IsTrans Passwd pwLeName :=
  ⟨fun _ _ _ h1 h2 => IsTrans.trans (r := bytesLe) _ _ _ h1 h2⟩

instance : IsTotal Group grLeGid := ⟨fun a b => Nat.le_total a.gid b.gid⟩

instance : IsTrans Group grLeGid :=
  ⟨fun _ _ _ h1 h2 => Nat.le_trans h1 h2⟩

instance : IsTotal Group grLeName :=
  ⟨fun a b => IsTotal.total (r := bytesLe) a.name b.name⟩

instance : IsTrans Group grLeName :=
  ⟨fun _ _ _ h1 h2 => IsTrans.trans (r := bytesLe) _ _ _ h1 h2⟩

/-! ## Lemmas: binary search -/

theorem bsearch_some_aux (n : Nat) :
    ∀ l u i (cmp : Nat → Ordering), u - l ≤ n → bsearch cmp l u = some i →
      l ≤ i ∧ i < u ∧ cmp i = .eq := by
  induction n with
  | zero =>
    intro l u i cmp hn h
    rw [bsearch] at h
    have hlu : ¬ l < u := by omega
    simp [hlu] at h
  | succ n ih =>
    intro l u i cmp hn h
    rw [bsearch] at h
    by_cases hlu : l < u
    · simp only [hlu, dif_pos] at h
      rcases hc : cmp ((l + u) / 2) with _ | _ | _ <;> rw [hc] at h
      · have := ih l ((l + u) / 2) i cmp (by omega) h
        exact ⟨this.1, by omega, this.2.2⟩
      · simp at h
        subst h
        exact ⟨by omega, by omega, hc⟩
      · have := ih ((l + u) / 2 + 1) u i cmp (by omega) h
        exact ⟨by omega, by omega, this.2.2⟩
    · simp [hlu] at h

theorem bsearch_none_aux (n : Nat) :
    ∀ l u (cmp : Nat → Ordering), u - l ≤ n →
      (∀ i j, i ≤ j → cmp i = .lt → cmp j = .lt) →
      (∀ i j, i ≤ j → cmp j = .gt → cmp i = .gt) →
      bsearch cmp l u = none →
      ∀ i, l ≤ i → i < u → cmp i ≠ .eq := by
  induction n with
  | zero =>
    intro l u cmp hn _ _ _ i hli hiu
    omega
  | succ n ih =>
    intro l u cmp hn ha hb h i hli hiu
    rw [bsearch] at h
    by_cases hlu : l < u
    · simp only [hlu, dif_pos] at h
      rcases hc : cmp ((l + u) / 2) with _ | _ | _ <;> rw [hc] at h
      · by_cases hi : i < (l + u) / 2
        · exact ih l ((l + u) / 2) cmp (by omega) ha hb h i hli hi
        · have := ha ((l + u) / 2) i (by omega) hc
          simp [this]
      · simp at h
      · by_cases hi : (l + u) / 2 + 1 ≤ i
        · exact ih ((l + u) / 2 + 1) u cmp (by omega) ha hb h i hi hiu
        · have := hb i ((l + u) / 2) (by omega) hc
          simp [this]
    · omega

theorem bsearch_some {cmp : Nat → Ordering} {l u i : Nat}
    (h : bsearch cmp l u = some i) : l ≤ i ∧ i < u ∧ cmp i = .eq :=
  bsearch_some_aux (u - l) l u i cmp le_rfl h

theorem bsearch_none {cmp : Nat → Ordering} {l u : Nat}
    (ha : ∀ i j, i ≤ j → cmp i = .lt → cmp j = .lt)
    (hb : ∀ i j, i ≤ j → cmp j = .gt → cmp i = .gt)
    (h : bsearch cmp l u = none) :
    ∀ i, l ≤ i → i < u → cmp i ≠ .eq :=
  bsearch_none_aux (u - l) l u cmp le_rfl ha hb h

/-- On a search structure whose comparator is antitone, a present key is
found. -/
theorem bsearch_finds {cmp : Nat → Ordering} {u : Nat}
    (ha : ∀ i j, i ≤ j → cmp i = .lt → cmp j = .lt)
    (hb : ∀ i j, i ≤ j → cmp j = .gt → cmp i = .gt)
    (i : Nat) (hi : i < u) (heq : cmp i = .eq) :
    ∃ j, bsearch cmp 0 u = some j ∧ j < u ∧ cmp j = .eq := by
  cases hbs : bsearch cmp 0 u with
  | none => exact absurd heq (bsearch_none ha hb hbs i (Nat.zero_le _) hi)
  | some j =>
    obtain ⟨_, hj, hcj⟩ := bsearch_some hbs
    exact ⟨j, rfl, hj, hcj⟩

/-! ## Well-formedness: the typing facts the Go source gives for free

A Go `string` holds bytes, and `/etc/passwd` / `/etc/group` fields are
C strings, hence NUL-free; `Uid`/`Gid` are `uint64` by type. -/

/-- The byte string contains no NUL (it is C-string content). -/
def NulFree (b : Bytes) : Prop := ∀ c ∈ b, c ≠ 0

/-- Typing facts for a `Passwd` value. -/
def Passwd.WF (p : Passwd) : Prop :=
  NulFree p.name ∧ NulFree p.passwd ∧ NulFree p.gecos ∧ NulFree p.dir ∧
    NulFree p.shell ∧ p.uid < 2 ^ 64 ∧ p.gid < 2 ^ 64

/-- Typing facts for a `Group` value. -/
def Group.WF (g : Group) : Prop :=
  NulFree g.name ∧ NulFree g.passwd ∧ (∀ m ∈ g.members, NulFree m) ∧
    g.gid < 2 ^ 64

/-! ## The serialized file, in closed form -/

/-- The record bytes of a record that serializes successfully. -/
def pwRec (p : Passwd) : Bytes := (SerializePasswd p).getD []

/-- `SerializePasswd` succeeds. -/
def pwOk (p : Passwd) : Prop := (pwData p).length ≤ 65535

instance : DecidablePred pwOk := fun _ => Nat.decLe _ _

/-- The record bytes of a group that serializes successfully. -/
def grRec (g : Group) : Bytes := (SerializeGroup g).getD []

/-- `SerializeGroup` succeeds. -/
def grOk (g : Group) : Prop := (grData g).length ≤ 65535

instance : DecidablePred grOk := fun _ => Nat.decLe _ _

theorem SerializePasswd_ok {p : Passwd} (h : pwOk p) :
    SerializePasswd p = some (pwRec p) := by
  unfold pwOk at h
  simp [pwRec, SerializePasswd, Nat.not_lt.mpr h, Nat.not_lt.mp]

theorem SerializeGroup_ok {g : Group} (h : grOk g) :
    SerializeGroup g = some (grRec g) := by
  unfold grOk at h
  simp [grRec, SerializeGroup, Nat.not_lt.mpr h, Nat.not_lt.mp]

/-- The final value of the `offsets` map after the serialize loop: each
record key is (re)bound to the running data length when it is processed, so
a key ends up at the offset of its last occurrence. -/
def pwFinalOff : List Passwd → Nat → (Passwd → Nat) → (Passwd → Nat)
  | [], _, off0 => off0
  | p :: ps, acc, off0 =>
    pwFinalOff ps (acc + (pwRec p).length)
      (fun q => if q = p then acc else off0 q)

def grFinalOff : List Group → Nat → (GroupKey → Nat) → (GroupKey → Nat)
  | [], _, off0 => off0
  | g :: gs, acc, off0 =>
    grFinalOff gs (acc + (grRec g).length)
      (fun q => if q = toKey g then acc else off0 q)

/-- The `offsets` map of `SerializePasswds`. -/
def pwOffs (pws : List Passwd) : Passwd → Nat :=
  pwFinalOff pws 0 (fun _ => 0)

/-- The `offsets` map of `SerializeGroups`. -/
def grOffs (grs : List Group) : GroupKey → Nat :=
  grFinalOff grs 0 (fun _ => 0)

/-- The `data` buffer: all records back to back. -/
def pwDataRegion (pws : List Passwd) : Bytes := (pws.map pwRec).flatten

def grDataRegion (grs : List Group) : Bytes := (grs.map grRec).flatten

/-- An index region: one `uint64` per entry. -/
def cat64 (xs : List Nat) : Bytes := (xs.map putU64).flatten

/-- The three passwd indices, as offset lists. -/
def pwIdxOrig (pws : List Passwd) : List Nat := pws.map (pwOffs pws)

def pwSorted1 (pws : List Passwd) : List Passwd :=
  List.insertionSort pwLeUid pws

def pwSorted2 (pws : List Passwd) : List Passwd :=
  List.insertionSort pwLeName (pwSorted1 pws)

def pwIdxId (pws : List Passwd) : List Nat :=
  (pwSorted1 pws).map (pwOffs pws)

def pwIdxName (pws : List Passwd) : List Nat :=
  (pwSorted2 pws).map (pwOffs pws)

def grIdxOrig (grs : List Group) : List Nat :=
  grs.map (fun g => grOffs grs (toKey g))

def grSorted1 (grs : List Group) : List Group :=
  List.insertionSort grLeGid grs

def grSorted2 (grs : List Group) : List Group :=
  List.insertionSort grLeName (grSorted1 grs)

def grIdxId (grs : List Group) : List Nat :=
  (grSorted1 grs).map (fun g => grOffs grs (toKey g))

def grIdxName (grs : List Group) : List Nat :=
  (grSorted2 grs).map (fun g => grOffs grs (toKey g))

/-- The whole passwd cache file, in closed form. -/
def pwFileBytes (pws : List Passwd) : Bytes :=
  magic ++ putU64 1 ++ putU64 pws.length ++
    putU64 0 ++ putU64 (8 * pws.length) ++ putU64 (16 * pws.length) ++
    putU64 (24 * pws.length) ++
    cat64 (pwIdxOrig pws) ++ cat64 (pwIdxId pws) ++ cat64 (pwIdxName pws) ++
    pwDataRegion pws

/-- The whole group cache file, in closed form. -/
def grFileBytes (grs : List Group) : Bytes :=
  magic ++ putU64 1 ++ putU64 grs.length ++
    putU64 0 ++ putU64 (8 * grs.length) ++ putU64 (16 * grs.length) ++
    putU64 (24 * grs.length) ++
    cat64 (grIdxOrig grs) ++ cat64 (grIdxId grs) ++ cat64 (grIdxName grs) ++
    grDataRegion grs

/-! ## Lemmas: the serialize loop -/

theorem serPwRecs_eq (ps : List Passwd) (data0 : Bytes) (off0 : Passwd → Nat)
    (h : ∀ p ∈ ps, pwOk p) :
    serPwRecs ps data0 off0 =
      .ok (data0 ++ (ps.map pwRec).flatten,
        pwFinalOff ps data0.length off0) := by
  induction ps generalizing data0 off0 with
  | nil => simp [serPwRecs, pwFinalOff]
  | cons p ps ih =>
    have hp : pwOk p := h p (by simp)
    have step : serPwRecs (p :: ps) data0 off0 =
        serPwRecs ps (data0 ++ pwRec p)
          (fun q => if q = p then data0.length else off0 q) := by
      rw [serPwRecs, SerializePasswd_ok hp]
    rw [step, ih (data0 ++ pwRec p) _ (fun q hq => h q (by simp [hq]))]
    simp [pwFinalOff]

theorem serGrRecs_eq (gs : List Group) (data0 : Bytes) (off0 : GroupKey → Nat)
    (h : ∀ g ∈ gs, grOk g) :
    serGrRecs gs data0 off0 =
      .ok (data0 ++ (gs.map grRec).flatten,
        grFinalOff gs data0.length off0) := by
  induction gs generalizing data0 off0 with
  | nil => simp [serGrRecs, grFinalOff]
  | cons g gs ih =>
    have hg : grOk g := h g (by simp)
    have step : serGrRecs (g :: gs) data0 off0 =
        serGrRecs gs (data0 ++ grRec g)
          (fun q => if q = toKey g then data0.length else off0 q) := by
      rw [serGrRecs, SerializeGroup_ok hg]
    rw [step, ih (data0 ++ grRec g) _ (fun q hq => h q (by simp [hq]))]
    simp [grFinalOff]

theorem pwFinalOff_notmem (ps : List Passwd) (acc : Nat) (off0 : Passwd → Nat)
    (q : Passwd) (h : q ∉ ps) : pwFinalOff ps acc off0 q = off0 q := by
  induction ps generalizing acc off0 with
  | nil => rfl
  | cons p ps ih =>
    have hqp : q ≠ p := fun he => h (by simp [he])
    rw [pwFinalOff, ih _ _ (fun hm => h (by simp [hm]))]
    simp [hqp]

theorem grFinalOff_notmem (gs : List Group) (acc : Nat) (off0 : GroupKey → Nat)
    (k : GroupKey) (h : ∀ g ∈ gs, toKey g ≠ k) :
    grFinalOff gs acc off0 k = off0 k := by
  induction gs generalizing acc off0 with
  | nil => rfl
  | cons g gs ih =>
    have hk : k ≠ toKey g := fun he => h g (by simp) he.symm
    rw [grFinalOff, ih _ _ (fun g2 hm => h g2 (by simp [hm]))]
    simp [hk]

/-- The offsets map sends a record to the byte offset of the *last*
occurrence of its key in the record buffer. -/
theorem pwFinalOff_last (pre post : List Passwd) (q : Passwd) (acc : Nat)
    (off0 : Passwd → Nat) (h : q ∉ post) :
    pwFinalOff (pre ++ q :: post) acc off0 q =
      acc + ((pre.map pwRec).flatten).length := by
  induction pre generalizing acc off0 with
  | nil =>
    rw [List.nil_append, pwFinalOff, pwFinalOff_notmem post _ _ q h]
    simp
  | cons p pre ih =>
    rw [List.cons_append, pwFinalOff, ih _ _]
    simp
    omega

theorem grFinalOff_last (pre post : List Group) (q : Group) (acc : Nat)
    (off0 : GroupKey → Nat) (h : ∀ g ∈ post, toKey g ≠ toKey q) :
    grFinalOff (pre ++ q :: post) acc off0 (toKey q) =
      acc + ((pre.map grRec).flatten).length := by
  induction pre generalizing acc off0 with
  | nil =>
    rw [List.nil_append, grFinalOff, grFinalOff_notmem post _ _ _ h]
    simp
  | cons g pre ih =>
    rw [List.cons_append, grFinalOff, ih _ _]
    simp
    omega

theorem cat64_length (xs : List Nat) : (cat64 xs).length = 8 * xs.length := by
  induction xs with
  | nil => rfl
  | cons x xs ih =>
    simp only [cat64, List.map_cons, List.flatten_cons, List.length_append,
      putU64_length, List.length_cons]
    simp only [cat64] at ih
    omega

/-- `SerializePasswds` in closed form, when every record fits. -/
theorem SerializePasswds_eq (pws : List Passwd) (h : ∀ p ∈ pws, pwOk p) :
    SerializePasswds pws = .ok (pwFileBytes pws) := by
  unfold SerializePasswds
  rw [serPwRecs_eq pws [] _ h]
  have horig : (pws.map (fun p => putU64 (pwOffs pws p))).flatten =
      cat64 (pwIdxOrig pws) := by
    simp [cat64, pwIdxOrig, List.map_map]
    rfl
  have hid : ((List.insertionSort pwLeUid pws).map
      (fun p => putU64 (pwOffs pws p))).flatten = cat64 (pwIdxId pws) := by
    simp [cat64, pwIdxId, pwSorted1, List.map_map]
    rfl
  have hname : ((List.insertionSort pwLeName (List.insertionSort pwLeUid pws)).map
      (fun p => putU64 (pwOffs pws p))).flatten = cat64 (pwIdxName pws) := by
    simp [cat64, pwIdxName, pwSorted2, pwSorted1, List.map_map]
    rfl
  simp only [List.nil_append, List.length_nil]
  rw [show pwFinalOff pws 0 (fun _ => 0) = pwOffs pws from rfl]
  rw [horig, hid, hname]
  have h1 : (cat64 (pwIdxOrig pws)).length = 8 * pws.length := by
    rw [cat64_length]; simp [pwIdxOrig]
  have h2 : (cat64 (pwIdxId pws)).length = 8 * pws.length := by
    rw [cat64_length]; simp [pwIdxId, pwSorted1, List.length_insertionSort]
  have h3 : (cat64 (pwIdxName pws)).length = 8 * pws.length := by
    rw [cat64_length]
    simp [pwIdxName, pwSorted2, pwSorted1, List.length_insertionSort]
  rw [h1, h2, h3]
  simp only [if_neg (by omega : ¬ (pws.length * 8 ≠ 8 * pws.length ∨
    8 * pws.length ≠ 8 * pws.length ∨ 8 * pws.length ≠ 8 * pws.length))]
  unfold pwFileBytes pwDataRegion
  rw [show 8 * pws.length + 8 * pws.length = 16 * pws.length from by omega]
  rw [show 16 * pws.length + 8 * pws.length = 24 * pws.length from by omega]

/-- `SerializeGroups` in closed form, when every record fits. -/
theorem SerializeGroups_eq (grs : List Group) (h : ∀ g ∈ grs, grOk g) :
    SerializeGroups grs = .ok (grFileBytes grs) := by
  unfold SerializeGroups
  rw [serGrRecs_eq grs [] _ h]
  have horig : (grs.map (fun g => putU64 (grOffs grs (toKey g)))).flatten =
      cat64 (grIdxOrig grs) := by
    simp [cat64, grIdxOrig, List.map_map]
    rfl
  have hid : ((List.insertionSort grLeGid grs).map
      (fun g => putU64 (grOffs grs (toKey g)))).flatten =
      cat64 (grIdxId grs) := by
    simp [cat64, grIdxId, grSorted1, List.map_map]
    rfl
  have hname : ((List.insertionSort grLeName (List.insertionSort grLeGid grs)).map
      (fun g => putU64 (grOffs grs (toKey g)))).flatten =
      cat64 (grIdxName grs) := by
    simp [cat64, grIdxName, grSorted2, grSorted1, List.map_map]
    rfl
  simp only [List.nil_append, List.length_nil]
  rw [show grFinalOff grs 0 (fun _ => 0) = grOffs grs from rfl]
  rw [horig, hid, hname]
  have h1 : (cat64 (grIdxOrig grs)).length = 8 * grs.length := by
    rw [cat64_length]; simp [grIdxOrig]
  have h2 : (cat64 (grIdxId grs)).length = 8 * grs.length := by
    rw [cat64_length]; simp [grIdxId, grSorted1, List.length_insertionSort]
  have h3 : (cat64 (grIdxName grs)).length = 8 * grs.length := by
    rw [cat64_length]
    simp [grIdxName, grSorted2, grSorted1, List.length_insertionSort]
  rw [h1, h2, h3]
  simp only [if_neg (by omega : ¬ (grs.length * 8 ≠ 8 * grs.length ∨
    8 * grs.length ≠ 8 * grs.length ∨ 8 * grs.length ≠ 8 * grs.length))]
  unfold grFileBytes grDataRegion
  rw [show 8 * grs.length + 8 * grs.length = 16 * grs.length from by omega]
  rw [show 16 * grs.length + 8 * grs.length = 24 * grs.length from by omega]

/-! ## Lemmas: reading one serialized passwd record back -/

theorem putU16_mod (n : Nat) : putU16 (n % 65536) = putU16 n := by
  simp only [putU16, putLE]
  have h1 : n % 65536 % 256 = n % 256 := by omega
  have h2 : n % 65536 / 256 % 256 = n / 256 % 256 := by omega
  rw [h1, h2]

theorem pwData_length (p : Passwd) :
    (pwData p).length =
      p.name.length + 1 + p.passwd.length + 1 + p.gecos.length + 1 +
        p.dir.length + 1 + p.shell.length + 1 := by
  simp [pwData]
  omega

/-- The string offsets stored in a passwd record. -/
def pwO1 (p : Passwd) : Nat := p.name.length + 1

def pwO2 (p : Passwd) : Nat := p.name.length + 1 + p.passwd.length + 1

def pwO3 (p : Passwd) : Nat :=
  p.name.length + 1 + p.passwd.length + 1 + p.gecos.length + 1

def pwO4 (p : Passwd) : Nat :=
  p.name.length + 1 + p.passwd.length + 1 + p.gecos.length + 1 +
    p.dir.length + 1

/-- The alignment padding of a passwd record. -/
def pwPad (p : Passwd) : Bytes :=
  List.replicate (padLen (26 + (pwData p).length) 8) 0

/-- Suffixes of a serialized passwd record, used to name the byte layout. -/
def pwT7 (p : Passwd) : Bytes := pwData p ++ pwPad p

def pwT6 (p : Passwd) : Bytes := putU16 (pwData p).length ++ pwT7 p

def pwT5 (p : Passwd) : Bytes := putU16 (pwO4 p) ++ pwT6 p

def pwT4 (p : Passwd) : Bytes := putU16 (pwO3 p) ++ pwT5 p

def pwT3 (p : Passwd) : Bytes := putU16 (pwO2 p) ++ pwT4 p

def pwT2 (p : Passwd) : Bytes := putU16 (pwO1 p) ++ pwT3 p

def pwT1 (p : Passwd) : Bytes := putU64 p.gid ++ pwT2 p

/-- The serialized record, right-associated, `uint16` casts removed (they
are the identity on what `putU16` stores). -/
theorem pwRec_eq (p : Passwd) (h : pwOk p) :
    pwRec p = putU64 p.uid ++ pwT1 p := by
  unfold pwOk at h
  unfold pwRec SerializePasswd
  rw [if_neg (by omega)]
  simp only [Option.getD_some]
  rw [alignTo_eq]
  have hpre : (putU64 p.uid ++ putU64 p.gid ++
      putU16 ((p.name.length + 1) % 65536) ++
      putU16 ((p.name.length + 1 + p.passwd.length + 1) % 65536) ++
      putU16 ((p.name.length + 1 + p.passwd.length + 1 + p.gecos.length + 1) % 65536) ++
      putU16 ((p.name.length + 1 + p.passwd.length + 1 + p.gecos.length + 1 +
        p.dir.length + 1) % 65536) ++
      putU16 ((pwData p).length % 65536) ++ pwData p).length =
      26 + (pwData p).length := by
    simp [putU64_length, putU16_length]
    omega
  rw [hpre]
  rw [putU16_mod, putU16_mod, putU16_mod, putU16_mod, putU16_mod]
  simp [pwT1, pwT2, pwT3, pwT4, pwT5, pwT6, pwT7, pwPad,
    pwO1, pwO2, pwO3, pwO4, List.append_assoc]

theorem pwRec_length (p : Passwd) (h : pwOk p) :
    (pwRec p).length =
      26 + (pwData p).length + padLen (26 + (pwData p).length) 8 := by
  rw [pwRec_eq p h]
  simp [pwT1, pwT2, pwT3, pwT4, pwT5, pwT6, pwT7, pwPad,
    putU64_length, putU16_length]
  omega

/-- Materialising a serialized passwd record out of any surrounding file
gives back exactly the record, provided the strings are NUL-free and the
buffer is big enough; the ids are truncated by the `uid_t`/`gid_t` casts. -/
theorem entryToPasswd_record (p : Passwd) (pre post : Bytes) (e space : Nat)
    (hok : pwOk p)
    (hn : NulFree p.name) (hp : NulFree p.passwd) (hg : NulFree p.gecos)
    (hd : NulFree p.dir) (hsh : NulFree p.shell)
    (hspace : (pwData p).length ≤ space)
    (he : e = pre.length) :
    entryToPasswd (pre ++ (pwRec p ++ post)) e space =
      some { pw_uid := p.uid % 2 ^ 32, pw_gid := p.gid % 2 ^ 32,
             pw_name := p.name, pw_passwd := p.passwd, pw_gecos := p.gecos,
             pw_dir := p.dir, pw_shell := p.shell } := by
  have hdl : (pwData p).length ≤ 65535 := hok
  have hlen := pwData_length p
  have huid : readU64 (pre ++ (pwRec p ++ post)) e = p.uid % 2 ^ 64 :=
    readU64_at _ pre (pwT1 p ++ post) p.uid e
      (by rw [pwRec_eq p hok]; simp [List.append_assoc]) he
  have hgid : readU64 (pre ++ (pwRec p ++ post)) (e + 8) = p.gid % 2 ^ 64 :=
    readU64_at _ (pre ++ putU64 p.uid) (pwT2 p ++ post) p.gid (e + 8)
      (by rw [pwRec_eq p hok]; simp [pwT1, List.append_assoc])
      (by simp [putU64_length]; omega)
  have h16 : readU16 (pre ++ (pwRec p ++ post)) (e + 16) =
      pwO1 p % 2 ^ 16 :=
    readU16_at _ (pre ++ putU64 p.uid ++ putU64 p.gid) (pwT3 p ++ post)
      (pwO1 p) (e + 16)
      (by rw [pwRec_eq p hok]; simp [pwT1, pwT2, List.append_assoc])
      (by simp [putU64_length]; omega)
  have h18 : readU16 (pre ++ (pwRec p ++ post)) (e + 18) =
      pwO2 p % 2 ^ 16 :=
    readU16_at _ (pre ++ putU64 p.uid ++ putU64 p.gid ++ putU16 (pwO1 p))
      (pwT4 p ++ post) (pwO2 p) (e + 18)
      (by rw [pwRec_eq p hok]; simp [pwT1, pwT2, pwT3, List.append_assoc])
      (by simp [putU64_length, putU16_length]; omega)
  have h20 : readU16 (pre ++ (pwRec p ++ post)) (e + 20) =
      pwO3 p % 2 ^ 16 :=
    readU16_at _ (pre ++ putU64 p.uid ++ putU64 p.gid ++ putU16 (pwO1 p) ++
        putU16 (pwO2 p)) (pwT5 p ++ post) (pwO3 p) (e + 20)
      (by rw [pwRec_eq p hok]; simp [pwT1, pwT2, pwT3, pwT4, List.append_assoc])
      (by simp [putU64_length, putU16_length]; omega)
  have h22 : readU16 (pre ++ (pwRec p ++ post)) (e + 22) =
      pwO4 p % 2 ^ 16 :=
    readU16_at _ (pre ++ putU64 p.uid ++ putU64 p.gid ++ putU16 (pwO1 p) ++
        putU16 (pwO2 p) ++ putU16 (pwO3 p)) (pwT6 p ++ post) (pwO4 p) (e + 22)
      (by
        rw [pwRec_eq p hok]
        simp [pwT1, pwT2, pwT3, pwT4, pwT5, List.append_assoc])
      (by simp [putU64_length, putU16_length]; omega)
  have h24 : readU16 (pre ++ (pwRec p ++ post)) (e + 24) =
      (pwData p).length % 2 ^ 16 :=
    readU16_at _ (pre ++ putU64 p.uid ++ putU64 p.gid ++ putU16 (pwO1 p) ++
        putU16 (pwO2 p) ++ putU16 (pwO3 p) ++ putU16 (pwO4 p))
      (pwT7 p ++ post) ((pwData p).length) (e + 24)
      (by
        rw [pwRec_eq p hok]
        simp [pwT1, pwT2, pwT3, pwT4, pwT5, pwT6, List.append_assoc])
      (by simp [putU64_length, putU16_length]; omega)
  have hdrop : (pre ++ (pwRec p ++ post)).drop (e + 26) =
      pwData p ++ (pwPad p ++ post) :=
    drop_at _ (pre ++ putU64 p.uid ++ putU64 p.gid ++ putU16 (pwO1 p) ++
        putU16 (pwO2 p) ++ putU16 (pwO3 p) ++ putU16 (pwO4 p) ++
        putU16 (pwData p).length)
      (pwData p ++ (pwPad p ++ post)) (e + 26)
      (by
        rw [pwRec_eq p hok]
        simp [pwT1, pwT2, pwT3, pwT4, pwT5, pwT6, pwT7, List.append_assoc])
      (by simp [putU64_length, putU16_length]; omega)
  have htmp : ((pre ++ (pwRec p ++ post)).drop (e + 26)).take
      ((pwData p).length) = pwData p := by
    rw [hdrop]
    exact take_exact _ _ _ rfl
  have hcn : cstr (pwData p) 0 = p.name :=
    cstr_at _ [] p.name
      (p.passwd ++ 0 :: (p.gecos ++ 0 :: (p.dir ++ 0 :: (p.shell ++ [0]))))
      0 (by simp [pwData]) rfl hn
  have hcp : cstr (pwData p) (pwO1 p) = p.passwd :=
    cstr_at _ (p.name ++ [0]) p.passwd
      (p.gecos ++ 0 :: (p.dir ++ 0 :: (p.shell ++ [0]))) _
      (by simp [pwData]) (by simp [pwO1]) hp
  have hcg : cstr (pwData p) (pwO2 p) = p.gecos :=
    cstr_at _ (p.name ++ [0] ++ p.passwd ++ [0]) p.gecos
      (p.dir ++ 0 :: (p.shell ++ [0])) _
      (by simp [pwData]) (by simp [pwO2]; omega) hg
  have hcd : cstr (pwData p) (pwO3 p) = p.dir :=
    cstr_at _ (p.name ++ [0] ++ p.passwd ++ [0] ++ p.gecos ++ [0]) p.dir
      (p.shell ++ [0]) _
      (by simp [pwData]) (by simp [pwO3]; omega) hd
  have hcs : cstr (pwData p) (pwO4 p) = p.shell :=
    cstr_at _ (p.name ++ [0] ++ p.passwd ++ [0] ++ p.gecos ++ [0] ++
      p.dir ++ [0]) p.shell [] _
      (by simp [pwData]) (by simp [pwO4]; omega) hsh
  unfold entryToPasswd
  rw [h24, Nat.mod_eq_of_lt (by omega)]
  rw [if_neg (by omega)]
  rw [htmp, h16, h18, h20, h22, huid, hgid]
  rw [Nat.mod_eq_of_lt (show pwO1 p < 2 ^ 16 by simp [pwO1]; omega)]
  rw [Nat.mod_eq_of_lt (show pwO2 p < 2 ^ 16 by simp [pwO2]; omega)]
  rw [Nat.mod_eq_of_lt (show pwO3 p < 2 ^ 16 by simp [pwO3]; omega)]
  rw [Nat.mod_eq_of_lt (show pwO4 p < 2 ^ 16 by simp [pwO4]; omega)]
  simp only [hcn, hcp, hcg, hcd, hcs,
    Nat.mod_mod_of_dvd p.uid (by norm_num : (2 : Nat) ^ 32 ∣ 2 ^ 64),
    Nat.mod_mod_of_dvd p.gid (by norm_num : (2 : Nat) ^ 32 ∣ 2 ^ 64)]

/-! ## Lemmas: packed integer arrays -/

theorem putU16_congr (m n : Nat) (h : m % 65536 = n % 65536) :
    putU16 m = putU16 n := by
  simp only [putU16, putLE]
  have h1 : m % 256 = n % 256 := by omega
  have h2 : m / 256 % 256 = n / 256 % 256 := by omega
  rw [h1, h2]

theorem readLE_catLE (k : Nat) (pre : Bytes) (xs : List Nat) (rest : Bytes)
    (i : Nat) (hi : i < xs.length) :
    readLE k (pre ++ ((xs.map (putLE k)).flatten ++ rest)) (pre.length + k * i) =
      xs.get ⟨i, hi⟩ % 256 ^ k := by
  induction xs generalizing pre i with
  | nil => simp at hi
  | cons x xs ih =>
    cases i with
    | zero =>
      have h1 : readLE k (pre ++ (putLE k x ++ ((xs.map (putLE k)).flatten ++ rest)))
          (pre.length + 0) = x % 256 ^ k := by
        rw [readLE_append k pre _ 0, readLE_putLE]
      simpa using h1
    | succ i =>
      have hx : ((x :: xs).map (putLE k)).flatten ++ rest =
          putLE k x ++ ((xs.map (putLE k)).flatten ++ rest) := by
        simp
      rw [hx]
      have hre : pre ++ (putLE k x ++ ((xs.map (putLE k)).flatten ++ rest)) =
          (pre ++ putLE k x) ++ ((xs.map (putLE k)).flatten ++ rest) := by
        simp [List.append_assoc]
      rw [hre]
      have hpos : pre.length + k * (i + 1) =
          (pre ++ putLE k x).length + k * i := by
        simp [putLE_length, Nat.mul_succ]
        omega
      rw [hpos, ih (pre ++ putLE k x) i (by simpa using hi)]
      rfl

/-- Read entry `i` of an index region (`count` packed `uint64`s). -/
theorem readU64_cat64 (pre : Bytes) (xs : List Nat) (rest : Bytes)
    (i : Nat) (hi : i < xs.length) :
    readU64 (pre ++ (cat64 xs ++ rest)) (pre.length + 8 * i) =
      xs.get ⟨i, hi⟩ % 2 ^ 64 := by
  have h := readLE_catLE 8 pre xs rest i hi
  simpa [readU64, cat64, putU64] using h

theorem readU16_cat16 (pre : Bytes) (xs : List Nat) (rest : Bytes)
    (i : Nat) (hi : i < xs.length) :
    readU16 (pre ++ ((xs.map putU16).flatten ++ rest)) (pre.length + 2 * i) =
      xs.get ⟨i, hi⟩ % 2 ^ 16 := by
  have h := readLE_catLE 2 pre xs rest i hi
  simpa [readU16, putU16] using h

theorem cat16_length (xs : List Nat) :
    ((xs.map putU16).flatten).length = 2 * xs.length := by
  induction xs with
  | nil => rfl
  | cons x xs ih =>
    simp only [List.map_cons, List.flatten_cons, List.length_append,
      putU16_length, List.length_cons, ih]
    omega

/-! ## Lemmas: the group member buffer -/

/-- Byte offset of member `i` inside `mems` (the raw running sum; the
stored `uint16` is this value reduced mod 65536). -/
def memPrefix (ms : List Bytes) (i : Nat) : Nat :=
  ((ms.take i).map (fun m => m.length + 1)).sum

theorem memsBuf_length (ms : List Bytes) :
    (memsBuf ms).length = (ms.map (fun m => m.length + 1)).sum := by
  induction ms with
  | nil => rfl
  | cons m ms ih =>
    simp only [memsBuf, List.map_cons, List.flatten_cons, List.length_append,
      List.sum_cons] at ih ⊢
    simp [ih]

theorem memsBuf_append (a b : List Bytes) :
    memsBuf (a ++ b) = memsBuf a ++ memsBuf b := by
  simp [memsBuf]

/-- `mems` splits at member `i`. -/
theorem memsBuf_decomp (ms : List Bytes) (i : Nat) (hi : i < ms.length) :
    memsBuf ms =
      memsBuf (ms.take i) ++
        (ms.get ⟨i, hi⟩ ++ 0 :: memsBuf (ms.drop (i + 1))) ∧
      (memsBuf (ms.take i)).length = memPrefix ms i := by
  have hsplit : ms = ms.take i ++ ms.get ⟨i, hi⟩ :: ms.drop (i + 1) := by
    conv_lhs => rw [← List.take_append_drop i ms]
    congr 1
    rw [← List.getElem_cons_drop ms i hi]
    simp [List.get_eq_getElem]
  constructor
  · conv_lhs => rw [hsplit]
    rw [memsBuf_append]
    congr 1
    simp only [memsBuf, List.map_cons, List.flatten_cons]
    simp
  · rw [memsBuf_length, memPrefix]

/-- `mems_off` holds the running sums, truncated to `uint16`. -/
theorem memOffs_eq (ms : List Bytes) (acc : Nat) :
    memOffs ms acc =
      (List.range ms.length).map (fun i => (acc + memPrefix ms i) % 65536) := by
  induction ms generalizing acc with
  | nil => rfl
  | cons m ms ih =>
    rw [memOffs, ih (acc + m.length + 1)]
    rw [List.length_cons, List.range_succ_eq_map]
    simp only [List.map_cons, List.map_map]
    refine List.cons_eq_cons.mpr ⟨by simp [memPrefix], ?_⟩
    apply List.map_congr_left
    intro i hmem
    simp only [Function.comp_apply, memPrefix, List.take_succ_cons,
      List.map_cons, List.sum_cons]
    omega

/-- Build a list by indexing: if `f` agrees with `ms` pointwise then
mapping `f` over `range` rebuilds `ms`. -/
theorem map_range_eq {α : Type} (n : Nat) (f : Nat → α) (ms : List α)
    (hn : ms.length = n)
    (h : ∀ i (hi : i < ms.length), f i = ms.get ⟨i, hi⟩) :
    (List.range n).map f = ms := by
  subst hn
  apply List.ext_get
  · simp
  · intro i h1 h2
    simp only [List.get_eq_getElem, List.getElem_map, List.getElem_range]
    have := h i (by simpa using h2)
    simp [List.get_eq_getElem] at this
    exact this

/-! ## Lemmas: the serialized group record -/

/-- `off_passwd` of a group record. -/
def grO1 (g : Group) : Nat := g.name.length + 1

/-- The name/passwd block of the group data. -/
def grD1 (g : Group) : Bytes := g.name ++ [0] ++ g.passwd ++ [0]

/-- Padding to the 2-byte alignment of the member-offset table. -/
def grPadD1 (g : Group) : Bytes :=
  List.replicate (padLen (grD1 g).length 2) 0

/-- `off_mem_off`: where the member-offset table starts inside `data`. -/
def grOM (g : Group) : Nat :=
  (grD1 g).length + padLen (grD1 g).length 2

/-- `mem_count`. -/
def grN (g : Group) : Nat := g.members.length

/-- `offMem`: where the member strings start inside `data`. -/
def grOffMem (g : Group) : Nat := grOM g + 2 * grN g

/-- The member-offset table, with exact (un-truncated) entries. -/
def grTable (g : Group) : Bytes :=
  (((List.range (grN g)).map
    (fun i => grOffMem g + memPrefix g.members i)).map putU16).flatten

/-- Alignment padding at the end of a group record. -/
def grPadRec (g : Group) : Bytes :=
  List.replicate (padLen (16 + (grData g).length) 8) 0

/-- Suffixes of a serialized group record. -/
def gT5 (g : Group) : Bytes := grData g ++ grPadRec g

def gT4 (g : Group) : Bytes := putU16 (grData g).length ++ gT5 g

def gT3 (g : Group) : Bytes := putU16 (grN g) ++ gT4 g

def gT2 (g : Group) : Bytes := putU16 (grOM g) ++ gT3 g

def gT1 (g : Group) : Bytes := putU16 (grO1 g) ++ gT2 g

/-- The `data` block of a group record, in clean form: the `uint16` casts
in the stored member offsets change nothing. -/
theorem grData_eq (g : Group) :
    grData g = (grD1 g ++ grPadD1 g) ++ (grTable g ++ memsBuf g.members) := by
  unfold grData
  simp only []
  have htable : (List.map (fun o => putU16
      ((((alignTo (g.name ++ [0] ++ g.passwd ++ [0]) 2).length % 65536 +
        2 * (g.members.length % 65536)) % 65536 + o) % 65536))
      (memOffs g.members 0)).flatten = grTable g := by
    rw [memOffs_eq]
    unfold grTable
    rw [List.map_map, List.map_map]
    congr 1
    apply List.map_congr_left
    intro i _
    simp only [Function.comp_apply]
    apply putU16_congr
    rw [alignTo_length]
    simp only [grOffMem, grOM, grN, grD1]
    omega
  rw [htable, alignTo_eq]
  simp [grD1, grPadD1, List.append_assoc]

theorem grTable_length (g : Group) : (grTable g).length = 2 * grN g := by
  unfold grTable
  rw [cat16_length]
  simp

theorem grData_length_eq (g : Group) :
    (grData g).length = grOM g + 2 * grN g + (memsBuf g.members).length := by
  rw [grData_eq]
  simp only [List.length_append, grTable_length]
  simp [grD1, grPadD1, grOM]
  omega

/-- Each member adds at least its bytes plus a NUL to `mems`. -/
theorem memPrefix_bound (ms : List Bytes) (i : Nat) (hi : i < ms.length) :
    memPrefix ms i + (ms.get ⟨i, hi⟩).length + 1 ≤ (memsBuf ms).length := by
  obtain ⟨hdec, hlen⟩ := memsBuf_decomp ms i hi
  have := congrArg List.length hdec
  simp only [List.length_append, List.length_cons] at this
  omega

/-- The member count is bounded by a third of the data size (each member
needs a table entry and at least a NUL), so it never wraps the `uint16`. -/
theorem grN_bound (g : Group) : 3 * grN g ≤ (grData g).length := by
  rw [grData_length_eq]
  have : grN g ≤ (memsBuf g.members).length := by
    rw [memsBuf_length]
    unfold grN
    induction g.members with
    | nil => simp
    | cons m ms ih => simp [List.sum_cons]; omega
  omega

theorem grRec_eq (g : Group) (h : grOk g) :
    grRec g = putU64 g.gid ++ gT1 g := by
  unfold grOk at h
  unfold grRec SerializeGroup
  rw [if_neg (by omega)]
  simp only [Option.getD_some]
  rw [alignTo_eq]
  have hpre : (putU64 g.gid ++ putU16 ((g.name.length + 1) % 65536) ++
      putU16 ((alignTo (g.name ++ [0] ++ g.passwd ++ [0]) 2).length % 65536) ++
      putU16 (g.members.length % 65536) ++
      putU16 ((grData g).length % 65536) ++ grData g).length =
      16 + (grData g).length := by
    simp [putU64_length, putU16_length]
    omega
  rw [hpre]
  rw [putU16_mod, putU16_mod, putU16_mod, putU16_mod]
  rw [show (alignTo (g.name ++ [0] ++ g.passwd ++ [0]) 2).length = grOM g from by
    rw [alignTo_length]; rfl]
  simp [gT1, gT2, gT3, gT4, gT5, grPadRec, grO1, grN, List.append_assoc]

theorem grRec_length (g : Group) (h : grOk g) :
    (grRec g).length =
      16 + (grData g).length + padLen (16 + (grData g).length) 8 := by
  rw [grRec_eq g h]
  simp [gT1, gT2, gT3, gT4, gT5, grPadRec, putU64_length, putU16_length]
  omega

set_option maxHeartbeats 1000000 in
/-- Materialising a serialized group record out of any surrounding file
gives back exactly the record: name, passwd, gid (truncated by the
`gid_t` cast) and the members in order. -/
theorem entryToGroup_record (g : Group) (pre post : Bytes) (e space : Nat)
    (hok : grOk g) (hn : NulFree g.name) (hp : NulFree g.passwd)
    (hm : ∀ m ∈ g.members, NulFree m)
    (hspace : (grData g).length + (grN g + 1) * 8 ≤ space)
    (he : e = pre.length) :
    entryToGroup (pre ++ (grRec g ++ post)) e space =
      some { gr_gid := g.gid % 2 ^ 32, gr_name := g.name,
             gr_passwd := g.passwd, gr_mem := g.members } := by
  have hdl : (grData g).length ≤ 65535 := hok
  have hdlen := grData_length_eq g
  have hnb := grN_bound g
  have hd1 : (grD1 g).length = g.name.length + 1 + g.passwd.length + 1 := by
    simp [grD1]
    omega
  have hOMge : (grD1 g).length ≤ grOM g := by
    simp only [grOM]
    omega
  have hgid : readU64 (pre ++ (grRec g ++ post)) e = g.gid % 2 ^ 64 :=
    readU64_at _ pre (gT1 g ++ post) g.gid e
      (by rw [grRec_eq g hok]; simp [List.append_assoc]) he
  have h8 : readU16 (pre ++ (grRec g ++ post)) (e + 8) = grO1 g % 2 ^ 16 :=
    readU16_at _ (pre ++ putU64 g.gid) (gT2 g ++ post) (grO1 g) (e + 8)
      (by rw [grRec_eq g hok]; simp [gT1, List.append_assoc])
      (by simp [putU64_length]; omega)
  have h10 : readU16 (pre ++ (grRec g ++ post)) (e + 10) = grOM g % 2 ^ 16 :=
    readU16_at _ (pre ++ putU64 g.gid ++ putU16 (grO1 g)) (gT3 g ++ post)
      (grOM g) (e + 10)
      (by rw [grRec_eq g hok]; simp [gT1, gT2, List.append_assoc])
      (by simp [putU64_length, putU16_length]; omega)
  have h12 : readU16 (pre ++ (grRec g ++ post)) (e + 12) = grN g % 2 ^ 16 :=
    readU16_at _ (pre ++ putU64 g.gid ++ putU16 (grO1 g) ++ putU16 (grOM g))
      (gT4 g ++ post) (grN g) (e + 12)
      (by rw [grRec_eq g hok]; simp [gT1, gT2, gT3, List.append_assoc])
      (by simp [putU64_length, putU16_length]; omega)
  have h14 : readU16 (pre ++ (grRec g ++ post)) (e + 14) =
      (grData g).length % 2 ^ 16 :=
    readU16_at _ (pre ++ putU64 g.gid ++ putU16 (grO1 g) ++ putU16 (grOM g) ++
      putU16 (grN g)) (gT5 g ++ post) ((grData g).length) (e + 14)
      (by rw [grRec_eq g hok]; simp [gT1, gT2, gT3, gT4, List.append_assoc])
      (by simp [putU64_length, putU16_length]; omega)
  have hdrop : (pre ++ (grRec g ++ post)).drop (e + 16) =
      grData g ++ (grPadRec g ++ post) :=
    drop_at _ (pre ++ putU64 g.gid ++ putU16 (grO1 g) ++ putU16 (grOM g) ++
      putU16 (grN g) ++ putU16 (grData g).length)
      (grData g ++ (grPadRec g ++ post)) (e + 16)
      (by
        rw [grRec_eq g hok]
        simp [gT1, gT2, gT3, gT4, gT5, List.append_assoc])
      (by simp [putU64_length, putU16_length]; omega)
  have htmp : ((pre ++ (grRec g ++ post)).drop (e + 16)).take
      ((grData g).length) = grData g := by
    rw [hdrop]
    exact take_exact _ _ _ rfl
  -- the name and passwd strings
  have hcn : cstr (grData g) 0 = g.name :=
    cstr_at _ [] g.name
      (g.passwd ++ 0 :: (grPadD1 g ++ (grTable g ++ memsBuf g.members)))
      0 (by rw [grData_eq]; simp [grD1, List.append_assoc]) rfl hn
  have hcp : cstr (grData g) (grO1 g) = g.passwd :=
    cstr_at _ (g.name ++ [0]) g.passwd
      (grPadD1 g ++ (grTable g ++ memsBuf g.members)) _
      (by rw [grData_eq]; simp [grD1, List.append_assoc])
      (by simp [grO1]) hp
  -- the clean split of the record tail
  have hT5 : gT5 g = (grD1 g ++ grPadD1 g) ++
      (grTable g ++ (memsBuf g.members ++ grPadRec g)) := by
    rw [gT5]
    conv_lhs => rw [grData_eq]
    simp [List.append_assoc]
  -- one member: table entry read plus string read
  have hmem : ∀ i (hi : i < grN g),
      cstr (grData g)
        (readU16 (pre ++ (grRec g ++ post)) (e + 16 + grOM g + 2 * i)) =
        g.members.get ⟨i, hi⟩ := by
    intro i hi
    have htab : readU16 (pre ++ (grRec g ++ post)) (e + 16 + grOM g + 2 * i) =
        (grOffMem g + memPrefix g.members i) % 2 ^ 16 := by
      have hr := readU16_cat16
        (pre ++ putU64 g.gid ++ putU16 (grO1 g) ++ putU16 (grOM g) ++
          putU16 (grN g) ++ putU16 (grData g).length ++ (grD1 g ++ grPadD1 g))
        ((List.range (grN g)).map (fun j => grOffMem g + memPrefix g.members j))
        (memsBuf g.members ++ (grPadRec g ++ post)) i (by simpa using hi)
      have hfeq : (pre ++ putU64 g.gid ++ putU16 (grO1 g) ++ putU16 (grOM g) ++
          putU16 (grN g) ++ putU16 (grData g).length ++ (grD1 g ++ grPadD1 g)) ++
          ((((List.range (grN g)).map
            (fun j => grOffMem g + memPrefix g.members j)).map putU16).flatten ++
            (memsBuf g.members ++ (grPadRec g ++ post))) =
          pre ++ (grRec g ++ post) := by
        conv_rhs => rw [grRec_eq g hok]
        simp only [gT1, gT2, gT3, gT4]
        rw [hT5]
        simp only [grTable]
        simp [List.append_assoc]
      have hpos : (pre ++ putU64 g.gid ++ putU16 (grO1 g) ++ putU16 (grOM g) ++
          putU16 (grN g) ++ putU16 (grData g).length ++
          (grD1 g ++ grPadD1 g)).length + 2 * i = e + 16 + grOM g + 2 * i := by
        simp only [List.length_append, putU64_length, putU16_length,
          grPadD1, List.length_replicate, grOM]
        omega
      rw [hfeq, hpos] at hr
      rw [hr]
      simp
    rw [htab]
    have hbound := memPrefix_bound g.members i hi
    rw [Nat.mod_eq_of_lt (by
      simp only [grOffMem]
      omega)]
    obtain ⟨hdec, hplen⟩ := memsBuf_decomp g.members i hi
    exact cstr_at _ ((grD1 g ++ grPadD1 g) ++
        (grTable g ++ memsBuf (g.members.take i)))
      (g.members.get ⟨i, hi⟩) (memsBuf (g.members.drop (i + 1))) _
      (by rw [grData_eq, hdec]; simp [List.append_assoc])
      (by
        simp only [List.length_append, grTable_length, hplen,
          grPadD1, List.length_replicate, grOM, grOffMem]
        omega)
      (hm _ (List.get_mem ..))
  unfold entryToGroup
  rw [h12, h14]
  rw [Nat.mod_eq_of_lt (show grN g < 2 ^ 16 by omega),
    Nat.mod_eq_of_lt (show (grData g).length < 2 ^ 16 by omega)]
  rw [if_neg (by omega)]
  rw [htmp, h10, h8]
  rw [Nat.mod_eq_of_lt (show grOM g < 2 ^ 16 by omega),
    Nat.mod_eq_of_lt (show grO1 g < 2 ^ 16 by
      simp only [grO1]
      omega)]
  simp only [hcn, hcp]
  congr 1
  simp only [CGroup.mk.injEq, true_and]
  refine ⟨?_, ?_⟩
  · rw [hgid,
      Nat.mod_mod_of_dvd g.gid (by norm_num : (2 : Nat) ^ 32 ∣ 2 ^ 64)]
  · exact map_range_eq _ _ _ rfl (fun i hi => hmem i hi)

/-! ## Lemmas: whole-file layout -/

theorem magic_length : magic.length = 8 := rfl

/-- The file offsets fit in the `uint64` fields (automatic in Go, where
lengths are machine integers). -/
def pwFit (pws : List Passwd) : Prop :=
  24 * pws.length + (pwDataRegion pws).length < 2 ^ 64

def grFit (grs : List Group) : Prop :=
  24 * grs.length + (grDataRegion grs).length < 2 ^ 64

/-- `map_file` on any file with the common header shape. -/
theorem cacheFile_header (n a b c : Nat) (i1 i2 i3 data : Bytes)
    (hn : n < 2 ^ 64) (ha : a < 2 ^ 64) (hb : b < 2 ^ 64) (hc : c < 2 ^ 64) :
    mapFile (magic ++ putU64 1 ++ putU64 n ++ putU64 0 ++ putU64 a ++
      putU64 b ++ putU64 c ++ i1 ++ i2 ++ i3 ++ data) =
      .ok { count := n, offOrig := 0, offId := a, offName := b, offData := c } := by
  have hmagic : (magic ++ putU64 1 ++ putU64 n ++ putU64 0 ++ putU64 a ++
      putU64 b ++ putU64 c ++ i1 ++ i2 ++ i3 ++ data).take 8 = magic := by
    rw [show magic ++ putU64 1 ++ putU64 n ++ putU64 0 ++ putU64 a ++
      putU64 b ++ putU64 c ++ i1 ++ i2 ++ i3 ++ data =
      magic ++ (putU64 1 ++ putU64 n ++ putU64 0 ++ putU64 a ++
        putU64 b ++ putU64 c ++ i1 ++ i2 ++ i3 ++ data) from by
      simp [List.append_assoc]]
    exact take_exact _ _ _ magic_length.symm
  have hver : readU64 (magic ++ putU64 1 ++ putU64 n ++ putU64 0 ++ putU64 a ++
      putU64 b ++ putU64 c ++ i1 ++ i2 ++ i3 ++ data) 8 = 1 :=
    readU64_at _ magic
      (putU64 n ++ (putU64 0 ++ (putU64 a ++ (putU64 b ++ (putU64 c ++
        (i1 ++ (i2 ++ (i3 ++ data)))))))) 1 8
      (by simp [List.append_assoc]) magic_length.symm
  have hcount : readU64 (magic ++ putU64 1 ++ putU64 n ++ putU64 0 ++ putU64 a ++
      putU64 b ++ putU64 c ++ i1 ++ i2 ++ i3 ++ data) 16 = n % 2 ^ 64 :=
    readU64_at _ (magic ++ putU64 1)
      (putU64 0 ++ (putU64 a ++ (putU64 b ++ (putU64 c ++
        (i1 ++ (i2 ++ (i3 ++ data))))))) n 16
      (by simp [List.append_assoc]) (by simp [magic_length, putU64_length])
  have ho1 : readU64 (magic ++ putU64 1 ++ putU64 n ++ putU64 0 ++ putU64 a ++
      putU64 b ++ putU64 c ++ i1 ++ i2 ++ i3 ++ data) 24 = 0 % 2 ^ 64 :=
    readU64_at _ (magic ++ putU64 1 ++ putU64 n)
      (putU64 a ++ (putU64 b ++ (putU64 c ++ (i1 ++ (i2 ++ (i3 ++ data)))))) 0 24
      (by simp [List.append_assoc]) (by simp [magic_length, putU64_length])
  have ho2 : readU64 (magic ++ putU64 1 ++ putU64 n ++ putU64 0 ++ putU64 a ++
      putU64 b ++ putU64 c ++ i1 ++ i2 ++ i3 ++ data) 32 = a % 2 ^ 64 :=
    readU64_at _ (magic ++ putU64 1 ++ putU64 n ++ putU64 0)
      (putU64 b ++ (putU64 c ++ (i1 ++ (i2 ++ (i3 ++ data))))) a 32
      (by simp [List.append_assoc]) (by simp [magic_length, putU64_length])
  have ho3 : readU64 (magic ++ putU64 1 ++ putU64 n ++ putU64 0 ++ putU64 a ++
      putU64 b ++ putU64 c ++ i1 ++ i2 ++ i3 ++ data) 40 = b % 2 ^ 64 :=
    readU64_at _ (magic ++ putU64 1 ++ putU64 n ++ putU64 0 ++ putU64 a)
      (putU64 c ++ (i1 ++ (i2 ++ (i3 ++ data)))) b 40
      (by simp [List.append_assoc]) (by simp [magic_length, putU64_length])
  have ho4 : readU64 (magic ++ putU64 1 ++ putU64 n ++ putU64 0 ++ putU64 a ++
      putU64 b ++ putU64 c ++ i1 ++ i2 ++ i3 ++ data) 48 = c % 2 ^ 64 :=
    readU64_at _ (magic ++ putU64 1 ++ putU64 n ++ putU64 0 ++ putU64 a ++
      putU64 b) (i1 ++ (i2 ++ (i3 ++ data))) c 48
      (by simp [List.append_assoc]) (by simp [magic_length, putU64_length])
  unfold mapFile
  rw [if_neg (by rw [hmagic]; simp)]
  rw [hver]
  rw [if_neg (by norm_num)]
  unfold readHeader
  rw [hcount, ho1, ho2, ho3, ho4]
  rw [Nat.mod_eq_of_lt hn, Nat.mod_eq_of_lt ha, Nat.mod_eq_of_lt hb,
    Nat.mod_eq_of_lt hc]
  rfl

/-- Read entry `i` of an index region sitting right after a 56-byte
prefix. -/
theorem readU64_idx (hdr : Bytes) (xs : List Nat) (rest : Bytes) (i m : Nat)
    (hh : hdr.length = m) (hi : i < xs.length)
    (hx : xs.get ⟨i, hi⟩ < 2 ^ 64) :
    readU64 (hdr ++ (cat64 xs ++ rest)) (m + 8 * i) = xs.get ⟨i, hi⟩ := by
  subst hh
  rw [readU64_cat64 hdr xs rest i hi, Nat.mod_eq_of_lt hx]

/-- The last occurrence of an element of a list. -/
theorem exists_last_occurrence {α : Type} [DecidableEq α] (q : α)
    (ps : List α) (h : q ∈ ps) :
    ∃ pre post, ps = pre ++ q :: post ∧ q ∉ post := by
  induction ps with
  | nil => simp at h
  | cons p ps ih =>
    by_cases hq : q ∈ ps
    · obtain ⟨pre, post, hsplit, hpost⟩ := ih hq
      exact ⟨p :: pre, post, by simp [hsplit], hpost⟩
    · have : q = p := by
        rcases List.mem_cons.mp h with h1 | h1
        · exact h1
        · exact absurd h1 hq
      exact ⟨[], ps, by simp [this], hq⟩

/-- The last occurrence of a group key. -/
theorem exists_last_key_occurrence_aux (k : GroupKey) (gs : List Group)
    (h : ∃ g2 ∈ gs, toKey g2 = k) :
    ∃ g0 pre post, gs = pre ++ g0 :: post ∧ toKey g0 = k ∧
      ∀ g2 ∈ post, toKey g2 ≠ k := by
  induction gs with
  | nil =>
    obtain ⟨g2, hg2, _⟩ := h
    simp at hg2
  | cons r rs ih =>
    by_cases hr : ∃ g3 ∈ rs, toKey g3 = k
    · obtain ⟨g0, pre, post, hsplit, hkey, hpost⟩ := ih hr
      exact ⟨g0, r :: pre, post, by simp [hsplit], hkey, hpost⟩
    · obtain ⟨g2, hg2, hk2⟩ := h
      have hrq : toKey r = k := by
        rcases List.mem_cons.mp hg2 with h1 | h1
        · rw [← h1]; exact hk2
        · exact absurd ⟨g2, h1, hk2⟩ hr
      exact ⟨r, [], rs, by simp, hrq, fun g3 hg3 hk3 => hr ⟨g3, hg3, hk3⟩⟩

theorem exists_last_key_occurrence (q : Group) (gs : List Group)
    (h : q ∈ gs) :
    ∃ g0 pre post, gs = pre ++ g0 :: post ∧ toKey g0 = toKey q ∧
      ∀ g2 ∈ post, toKey g2 ≠ toKey q :=
  exists_last_key_occurrence_aux (toKey q) gs ⟨q, h, rfl⟩

/-- Where the offsets map points for a record of the list: at a full copy
of the record serialized at the last occurrence of its key. -/
theorem pwOffs_spec (pws : List Passwd) (p : Passwd) (hp : p ∈ pws) :
    ∃ dpre dpost : List Passwd,
      pwDataRegion pws =
        (dpre.map pwRec).flatten ++ (pwRec p ++ (dpost.map pwRec).flatten) ∧
      pwOffs pws p = ((dpre.map pwRec).flatten).length := by
  obtain ⟨dpre, dpost, hsplit, hlast⟩ := exists_last_occurrence p pws hp
  refine ⟨dpre, dpost, ?_, ?_⟩
  · rw [pwDataRegion, hsplit]
    simp
  · rw [pwOffs, hsplit, pwFinalOff_last dpre dpost p 0 _ hlast]
    omega

theorem grOffs_spec (grs : List Group) (g : Group) (hg : g ∈ grs) :
    ∃ (g0 : Group) (dpre dpost : List Group),
      g0 ∈ grs ∧ toKey g0 = toKey g ∧
      grDataRegion grs =
        (dpre.map grRec).flatten ++ (grRec g0 ++ (dpost.map grRec).flatten) ∧
      grOffs grs (toKey g) = ((dpre.map grRec).flatten).length := by
  obtain ⟨g0, dpre, dpost, hsplit, hkey, hpost⟩ :=
    exists_last_key_occurrence g grs hg
  refine ⟨g0, dpre, dpost, by rw [hsplit]; simp, hkey, ?_, ?_⟩
  · rw [grDataRegion, hsplit]
    simp
  · rw [grOffs, hsplit, ← hkey, grFinalOff_last dpre dpost g0 0 _
      (fun g2 h2 => by rw [hkey]; exact hpost g2 h2)]
    omega

theorem pwOffs_le (pws : List Passwd) (p : Passwd) (hp : p ∈ pws) :
    pwOffs pws p ≤ (pwDataRegion pws).length := by
  obtain ⟨dpre, dpost, hdata, hoff⟩ := pwOffs_spec pws p hp
  rw [hoff, hdata]
  simp

theorem grOffs_le (grs : List Group) (g : Group) (hg : g ∈ grs) :
    grOffs grs (toKey g) ≤ (grDataRegion grs).length := by
  obtain ⟨g0, dpre, dpost, hg0, hkey, hdata, hoff⟩ := grOffs_spec grs g hg
  rw [hoff, hdata]
  simp

theorem pwIdxOrig_length (pws : List Passwd) :
    (pwIdxOrig pws).length = pws.length := by simp [pwIdxOrig]

theorem pwIdxId_length (pws : List Passwd) :
    (pwIdxId pws).length = pws.length := by
  simp [pwIdxId, pwSorted1, List.length_insertionSort]

theorem pwIdxName_length (pws : List Passwd) :
    (pwIdxName pws).length = pws.length := by
  simp [pwIdxName, pwSorted2, pwSorted1, List.length_insertionSort]

theorem grIdxOrig_length (grs : List Group) :
    (grIdxOrig grs).length = grs.length := by simp [grIdxOrig]

theorem grIdxId_length (grs : List Group) :
    (grIdxId grs).length = grs.length := by
  simp [grIdxId, grSorted1, List.length_insertionSort]

theorem grIdxName_length (grs : List Group) :
    (grIdxName grs).length = grs.length := by
  simp [grIdxName, grSorted2, grSorted1, List.length_insertionSort]

theorem pwFile_header (pws : List Passwd) (hfit : pwFit pws) :
    mapFile (pwFileBytes pws) =
      .ok { count := pws.length, offOrig := 0, offId := 8 * pws.length,
            offName := 16 * pws.length, offData := 24 * pws.length } := by
  unfold pwFit at hfit
  exact cacheFile_header pws.length (8 * pws.length) (16 * pws.length)
    (24 * pws.length) _ _ _ _ (by omega) (by omega) (by omega) (by omega)

theorem grFile_header (grs : List Group) (hfit : grFit grs) :
    mapFile (grFileBytes grs) =
      .ok { count := grs.length, offOrig := 0, offId := 8 * grs.length,
            offName := 16 * grs.length, offData := 24 * grs.length } := by
  unfold grFit at hfit
  exact cacheFile_header grs.length (8 * grs.length) (16 * grs.length)
    (24 * grs.length) _ _ _ _ (by omega) (by omega) (by omega) (by omega)

/-- The 56-byte header block of the passwd file. -/
def pwHdr (pws : List Passwd) : Bytes :=
  magic ++ putU64 1 ++ putU64 pws.length ++ putU64 0 ++
    putU64 (8 * pws.length) ++ putU64 (16 * pws.length) ++
    putU64 (24 * pws.length)

def grHdr (grs : List Group) : Bytes :=
  magic ++ putU64 1 ++ putU64 grs.length ++ putU64 0 ++
    putU64 (8 * grs.length) ++ putU64 (16 * grs.length) ++
    putU64 (24 * grs.length)

theorem pwHdr_length (pws : List Passwd) : (pwHdr pws).length = 56 := by
  simp [pwHdr, magic_length, putU64_length]

theorem grHdr_length (grs : List Group) : (grHdr grs).length = 56 := by
  simp [grHdr, magic_length, putU64_length]

/-- Read entry `i` of the in-input-order index of the passwd file. -/
theorem pwFile_origEntry (pws : List Passwd) (hfit : pwFit pws)
    (i : Nat) (hi : i < pws.length) (m : Nat) (hm : m = 56 + 8 * i) :
    readU64 (pwFileBytes pws) m = pwOffs pws (pws.get ⟨i, hi⟩) := by
  have hx : (pwIdxOrig pws).get ⟨i, by rw [pwIdxOrig_length]; exact hi⟩ =
      pwOffs pws (pws.get ⟨i, hi⟩) := by
    simp [pwIdxOrig]
  have hb : pwOffs pws (pws.get ⟨i, hi⟩) < 2 ^ 64 := by
    have := pwOffs_le pws (pws.get ⟨i, hi⟩) (List.get_mem ..)
    unfold pwFit at hfit
    omega
  have hread := readU64_idx (pwHdr pws) (pwIdxOrig pws)
    (cat64 (pwIdxId pws) ++ (cat64 (pwIdxName pws) ++ pwDataRegion pws))
    i 56 (pwHdr_length pws) (by rw [pwIdxOrig_length]; exact hi)
    (by rw [hx]; exact hb)
  rw [show pwHdr pws ++ (cat64 (pwIdxOrig pws) ++
      (cat64 (pwIdxId pws) ++ (cat64 (pwIdxName pws) ++ pwDataRegion pws))) =
      pwFileBytes pws from by
    unfold pwFileBytes pwHdr
    simp [List.append_assoc]] at hread
  rw [hm, hread, hx]

theorem grFile_origEntry (grs : List Group) (hfit : grFit grs)
    (i : Nat) (hi : i < grs.length) (m : Nat) (hm : m = 56 + 8 * i) :
    readU64 (grFileBytes grs) m = grOffs grs (toKey (grs.get ⟨i, hi⟩)) := by
  have hx : (grIdxOrig grs).get ⟨i, by rw [grIdxOrig_length]; exact hi⟩ =
      grOffs grs (toKey (grs.get ⟨i, hi⟩)) := by
    simp [grIdxOrig]
  have hb : grOffs grs (toKey (grs.get ⟨i, hi⟩)) < 2 ^ 64 := by
    have := grOffs_le grs (grs.get ⟨i, hi⟩) (List.get_mem ..)
    unfold grFit at hfit
    omega
  have hread := readU64_idx (grHdr grs) (grIdxOrig grs)
    (cat64 (grIdxId grs) ++ (cat64 (grIdxName grs) ++ grDataRegion grs))
    i 56 (grHdr_length grs) (by rw [grIdxOrig_length]; exact hi)
    (by rw [hx]; exact hb)
  rw [show grHdr grs ++ (cat64 (grIdxOrig grs) ++
      (cat64 (grIdxId grs) ++ (cat64 (grIdxName grs) ++ grDataRegion grs))) =
      grFileBytes grs from by
    unfold grFileBytes grHdr
    simp [List.append_assoc]] at hread
  rw [hm, hread, hx]

/-- A `Passwd` as the reader materialises it (ids exact: the caller
guarantees they fit `uid_t`). -/
def cOfPasswd (p : Passwd) : CPasswd :=
  { pw_uid := p.uid, pw_gid := p.gid, pw_name := p.name,
    pw_passwd := p.passwd, pw_gecos := p.gecos, pw_dir := p.dir,
    pw_shell := p.shell }

def cOfGroup (g : Group) : CGroup :=
  { gr_gid := g.gid, gr_name := g.name, gr_passwd := g.passwd,
    gr_mem := g.members }

/-- Materialising the record that the offsets map assigns to `p`. -/
theorem pwFile_read_at (pws : List Passwd) (p : Passwd) (hp : p ∈ pws)
    (hwf : Passwd.WF p) (hok : pwOk p)
    (hid : p.uid < 2 ^ 32 ∧ p.gid < 2 ^ 32)
    (space : Nat) (hspace : 65535 ≤ space) (m : Nat)
    (hm : m = 56 + 24 * pws.length + pwOffs pws p) :
    entryToPasswd (pwFileBytes pws) m space = some (cOfPasswd p) := by
  obtain ⟨dpre, dpost, hdata, hoff⟩ := pwOffs_spec pws p hp
  obtain ⟨h1, h2, h3, h4, h5, _, _⟩ := hwf
  have hrec := entryToPasswd_record p
    (pwHdr pws ++ (cat64 (pwIdxOrig pws) ++ (cat64 (pwIdxId pws) ++
      (cat64 (pwIdxName pws) ++ (dpre.map pwRec).flatten))))
    ((dpost.map pwRec).flatten) m space hok h1 h2 h3 h4 h5
    (le_trans hok hspace)
    (by
      simp only [List.length_append, pwHdr_length, cat64_length,
        pwIdxOrig_length, pwIdxId_length, pwIdxName_length, hm, hoff]
      omega)
  rw [show pwHdr pws ++ (cat64 (pwIdxOrig pws) ++ (cat64 (pwIdxId pws) ++
      (cat64 (pwIdxName pws) ++ (dpre.map pwRec).flatten))) ++
      (pwRec p ++ (dpost.map pwRec).flatten) = pwFileBytes pws from by
    unfold pwFileBytes pwHdr
    rw [show pwDataRegion pws =
      (dpre.map pwRec).flatten ++ (pwRec p ++ (dpost.map pwRec).flatten)
      from hdata]
    simp [List.append_assoc]] at hrec
  rw [hrec]
  unfold cOfPasswd
  rw [Nat.mod_eq_of_lt hid.1, Nat.mod_eq_of_lt hid.2]

/-- Materialising the record that the offsets map assigns to `g`'s key:
it is the last record with the same `GroupKey`. -/
theorem grFile_read_at (grs : List Group) (g g0 : Group)
    (dpre dpost : List Group)
    (_hkey : toKey g0 = toKey g)
    (hdata : grDataRegion grs =
      (dpre.map grRec).flatten ++ (grRec g0 ++ (dpost.map grRec).flatten))
    (hoff : grOffs grs (toKey g) = ((dpre.map grRec).flatten).length)
    (hwf : Group.WF g0) (hok : grOk g0) (hid : g0.gid < 2 ^ 32)
    (space : Nat) (hspace : 589823 ≤ space) (m : Nat)
    (hm : m = 56 + 24 * grs.length + grOffs grs (toKey g)) :
    entryToGroup (grFileBytes grs) m space = some (cOfGroup g0) := by
  obtain ⟨h1, h2, h3, _⟩ := hwf
  have hrec := entryToGroup_record g0
    (grHdr grs ++ (cat64 (grIdxOrig grs) ++ (cat64 (grIdxId grs) ++
      (cat64 (grIdxName grs) ++ (dpre.map grRec).flatten))))
    ((dpost.map grRec).flatten) m space hok h1 h2 h3
    (by
      have hb := grN_bound g0
      have hd : (grData g0).length ≤ 65535 := hok
      have : grN g0 ≤ 21845 := by omega
      omega)
    (by
      simp only [List.length_append, grHdr_length, cat64_length,
        grIdxOrig_length, grIdxId_length, grIdxName_length, hm, hoff]
      omega)
  rw [show grHdr grs ++ (cat64 (grIdxOrig grs) ++ (cat64 (grIdxId grs) ++
      (cat64 (grIdxName grs) ++ (dpre.map grRec).flatten))) ++
      (grRec g0 ++ (dpost.map grRec).flatten) = grFileBytes grs from by
    unfold grFileBytes grHdr
    rw [show grDataRegion grs =
      (dpre.map grRec).flatten ++ (grRec g0 ++ (dpost.map grRec).flatten)
      from hdata]
    simp [List.append_assoc]] at hrec
  rw [hrec]
  unfold cOfGroup
  rw [Nat.mod_eq_of_lt hid]

/-! ## Lemmas: enumeration -/

theorem mapFile_readHeader {f : Bytes} {h : Header}
    (hm : mapFile f = .ok h) : readHeader f = h := by
  unfold mapFile at hm
  split_ifs at hm
  all_goals simp_all

/-- The results of `k` successive `getpwent_r` calls. -/
def pwEnumFrom (disk : Option Bytes) (space : Nat) :
    Nat → EnumState → List (NssResult CPasswd)
  | 0, _ => []
  | k + 1, st =>
    (getpwentStep disk st space).1 ::
      pwEnumFrom disk space k (getpwentStep disk st space).2

def grEnumFrom (disk : Option Bytes) (space : Nat) :
    Nat → EnumState → List (NssResult CGroup)
  | 0, _ => []
  | k + 1, st =>
    (getgrentStep disk st space).1 ::
      grEnumFrom disk space k (getgrentStep disk st space).2

/-- `internal_getpwent_r` on an already-mapped state, one unfolding. -/
theorem getpwentStep_mapped (f : Bytes) (i space : Nat) :
    getpwentStep (some f) { mapped := some f, nextIndex := i } space =
      (if i ≥ (readHeader f).count then
        ((.notfound .ENOENT : NssResult CPasswd),
          { mapped := some f, nextIndex := i })
      else
        match entryToPasswd f (headerSize + (readHeader f).offData +
            readU64 f (headerSize + (readHeader f).offOrig + 8 * i)) space with
        | none => (.tryagain .ERANGE, { mapped := some f, nextIndex := i })
        | some p => (.success p, { mapped := some f, nextIndex := i + 1 })) :=
  rfl

/-- `internal_getgrent_r` on an already-mapped state, one unfolding. -/
theorem getgrentStep_mapped (f : Bytes) (i space : Nat) :
    getgrentStep (some f) { mapped := some f, nextIndex := i } space =
      (if i ≥ (readHeader f).count then
        ((.notfound .ENOENT : NssResult CGroup),
          { mapped := some f, nextIndex := i })
      else
        match entryToGroup f (headerSize + (readHeader f).offData +
            readU64 f (headerSize + (readHeader f).offOrig + 8 * i)) space with
        | none => (.tryagain .ERANGE, { mapped := some f, nextIndex := i })
        | some g => (.success g, { mapped := some f, nextIndex := i + 1 })) :=
  rfl

/-- One mapped enumeration step serves record `i` and advances the
cursor. -/
theorem getpwentStep_at (pws : List Passwd)
    (hwf : ∀ p ∈ pws, Passwd.WF p) (hok : ∀ p ∈ pws, pwOk p)
    (hid : ∀ p ∈ pws, p.uid < 2 ^ 32 ∧ p.gid < 2 ^ 32) (hfit : pwFit pws)
    (i : Nat) (hi : i < pws.length) (space : Nat) (hspace : 65535 ≤ space) :
    getpwentStep (some (pwFileBytes pws))
        { mapped := some (pwFileBytes pws), nextIndex := i } space =
      (.success (cOfPasswd (pws.get ⟨i, hi⟩)),
        { mapped := some (pwFileBytes pws), nextIndex := i + 1 }) := by
  have hhdr := mapFile_readHeader (pwFile_header pws hfit)
  rw [getpwentStep_mapped, hhdr]
  rw [if_neg (by simp; omega)]
  rw [pwFile_origEntry pws hfit i hi _ (by simp [headerSize])]
  rw [pwFile_read_at pws (pws.get ⟨i, hi⟩) (List.get_mem ..)
    (hwf _ (List.get_mem ..)) (hok _ (List.get_mem ..))
    (hid _ (List.get_mem ..)) space hspace _ (by simp [headerSize])]

theorem getgrentStep_at (grs : List Group)
    (hwf : ∀ g ∈ grs, Group.WF g) (hok : ∀ g ∈ grs, grOk g)
    (hid : ∀ g ∈ grs, g.gid < 2 ^ 32) (hfit : grFit grs)
    (hinj : ∀ g1 ∈ grs, ∀ g2 ∈ grs, toKey g1 = toKey g2 → g1 = g2)
    (i : Nat) (hi : i < grs.length) (space : Nat) (hspace : 589823 ≤ space) :
    getgrentStep (some (grFileBytes grs))
        { mapped := some (grFileBytes grs), nextIndex := i } space =
      (.success (cOfGroup (grs.get ⟨i, hi⟩)),
        { mapped := some (grFileBytes grs), nextIndex := i + 1 }) := by
  have hhdr := mapFile_readHeader (grFile_header grs hfit)
  obtain ⟨g0, dpre, dpost, hg0, hkey, hdata, hoff⟩ :=
    grOffs_spec grs (grs.get ⟨i, hi⟩) (List.get_mem ..)
  have hg0eq : g0 = grs.get ⟨i, hi⟩ := hinj g0 hg0 _ (List.get_mem ..) hkey
  rw [getgrentStep_mapped, hhdr]
  rw [if_neg (by simp; omega)]
  rw [grFile_origEntry grs hfit i hi _ (by simp [headerSize])]
  rw [grFile_read_at grs (grs.get ⟨i, hi⟩) g0 dpre dpost hkey hdata hoff
    (hwf g0 hg0) (hok g0 hg0) (by rw [hg0eq]; exact hid _ (List.get_mem ..))
    space hspace _ (by simp [headerSize])]
  rw [hg0eq]

/-- Enumerating from cursor `i` yields the remaining records in input
order. -/
theorem pwEnumFrom_spec (pws : List Passwd)
    (hwf : ∀ p ∈ pws, Passwd.WF p) (hok : ∀ p ∈ pws, pwOk p)
    (hid : ∀ p ∈ pws, p.uid < 2 ^ 32 ∧ p.gid < 2 ^ 32) (hfit : pwFit pws)
    (space : Nat) (hspace : 65535 ≤ space) :
    ∀ (k i : Nat), i + k = pws.length →
      pwEnumFrom (some (pwFileBytes pws)) space k
          { mapped := some (pwFileBytes pws), nextIndex := i } =
        (pws.drop i).map (fun p => .success (cOfPasswd p)) := by
  intro k
  induction k with
  | zero =>
    intro i hik
    rw [pwEnumFrom, List.drop_eq_nil_of_le (by omega)]
    rfl
  | succ k ih =>
    intro i hik
    have hi : i < pws.length := by omega
    rw [pwEnumFrom,
      getpwentStep_at pws hwf hok hid hfit i hi space hspace]
    rw [ih (i + 1) (by omega)]
    simp only [List.map_drop]
    rw [← List.getElem_cons_drop
      (pws.map (fun p => NssResult.success (cOfPasswd p))) i (by simpa using hi)]
    simp

theorem grEnumFrom_spec (grs : List Group)
    (hwf : ∀ g ∈ grs, Group.WF g) (hok : ∀ g ∈ grs, grOk g)
    (hid : ∀ g ∈ grs, g.gid < 2 ^ 32) (hfit : grFit grs)
    (hinj : ∀ g1 ∈ grs, ∀ g2 ∈ grs, toKey g1 = toKey g2 → g1 = g2)
    (space : Nat) (hspace : 589823 ≤ space) :
    ∀ (k i : Nat), i + k = grs.length →
      grEnumFrom (some (grFileBytes grs)) space k
          { mapped := some (grFileBytes grs), nextIndex := i } =
        (grs.drop i).map (fun g => .success (cOfGroup g)) := by
  intro k
  induction k with
  | zero =>
    intro i hik
    rw [grEnumFrom, List.drop_eq_nil_of_le (by omega)]
    rfl
  | succ k ih =>
    intro i hik
    have hi : i < grs.length := by omega
    rw [grEnumFrom,
      getgrentStep_at grs hwf hok hid hfit hinj i hi space hspace]
    rw [ih (i + 1) (by omega)]
    simp only [List.map_drop]
    rw [← List.getElem_cons_drop
      (grs.map (fun g => NssResult.success (cOfGroup g))) i (by simpa using hi)]
    simp

/-- The first enumeration call maps the file and resets the cursor, so a
fresh (unmapped) enumerator behaves like a mapped one at cursor 0. -/
theorem pwEnumFrom_start (f : Bytes) (space k j : Nat) (h : Header)
    (hm : mapFile f = .ok h) :
    pwEnumFrom (some f) space k { mapped := none, nextIndex := j } =
      pwEnumFrom (some f) space k { mapped := some f, nextIndex := 0 } := by
  cases k with
  | zero => rfl
  | succ k =>
    have hstep : getpwentStep (some f) { mapped := none, nextIndex := j }
        space = getpwentStep (some f) { mapped := some f, nextIndex := 0 }
        space := by
      simp only [getpwentStep, hm, Except.map]
    rw [pwEnumFrom, pwEnumFrom, hstep]

theorem grEnumFrom_start (f : Bytes) (space k j : Nat) (h : Header)
    (hm : mapFile f = .ok h) :
    grEnumFrom (some f) space k { mapped := none, nextIndex := j } =
      grEnumFrom (some f) space k { mapped := some f, nextIndex := 0 } := by
  cases k with
  | zero => rfl
  | succ k =>
    have hstep : getgrentStep (some f) { mapped := none, nextIndex := j }
        space = getgrentStep (some f) { mapped := some f, nextIndex := 0 }
        space := by
      simp only [getgrentStep, hm, Except.map]
    rw [grEnumFrom, grEnumFrom, hstep]

/-! ## Lemmas: the id- and name-indices and binary search -/

/-- `bsearch` only evaluates the comparator inside the probed range. -/
theorem bsearch_congr_aux (n : Nat) :
    ∀ l u (cmp1 cmp2 : Nat → Ordering), u - l ≤ n →
      (∀ i, l ≤ i → i < u → cmp1 i = cmp2 i) →
      bsearch cmp1 l u = bsearch cmp2 l u := by
  induction n with
  | zero =>
    intro l u cmp1 cmp2 hn hagree
    rw [bsearch, bsearch]
    have hlu : ¬ l < u := by omega
    simp [hlu]
  | succ n ih =>
    intro l u cmp1 cmp2 hn hagree
    rw [bsearch, bsearch]
    by_cases hlu : l < u
    · simp only [hlu, dif_pos]
      rw [hagree ((l + u) / 2) (by omega) (by omega)]
      rcases cmp2 ((l + u) / 2) with _ | _ | _
      · exact ih l ((l + u) / 2) cmp1 cmp2 (by omega)
          (fun i h1 h2 => hagree i h1 (by omega))
      · rfl
      · exact ih ((l + u) / 2 + 1) u cmp1 cmp2 (by omega)
          (fun i h1 h2 => hagree i (by omega) h2)
    · simp [hlu]

theorem bsearch_congr {l u : Nat} {cmp1 cmp2 : Nat → Ordering}
    (hagree : ∀ i, l ≤ i → i < u → cmp1 i = cmp2 i) :
    bsearch cmp1 l u = bsearch cmp2 l u :=
  bsearch_congr_aux (u - l) l u cmp1 cmp2 le_rfl hagree

/-- Read entry `i` of the uid-sorted index of the passwd file. -/
theorem pwFile_idEntry (pws : List Passwd) (hfit : pwFit pws)
    (i : Nat) (hi : i < (pwSorted1 pws).length) (m : Nat)
    (hm : m = 56 + 8 * pws.length + 8 * i) :
    readU64 (pwFileBytes pws) m =
      pwOffs pws ((pwSorted1 pws).get ⟨i, hi⟩) := by
  have hiN : i < pws.length := by
    rw [pwSorted1, List.length_insertionSort] at hi
    exact hi
  have hmem : (pwSorted1 pws).get ⟨i, hi⟩ ∈ pws :=
    (List.perm_insertionSort pwLeUid pws).mem_iff.mp
      (List.get_mem (pwSorted1 pws) i hi)
  have hx : (pwIdxId pws).get ⟨i, by rw [pwIdxId_length]; exact hiN⟩ =
      pwOffs pws ((pwSorted1 pws).get ⟨i, hi⟩) := by
    simp [pwIdxId]
  have hb : pwOffs pws ((pwSorted1 pws).get ⟨i, hi⟩) < 2 ^ 64 := by
    have := pwOffs_le pws ((pwSorted1 pws).get ⟨i, hi⟩) hmem
    unfold pwFit at hfit
    omega
  have hread := readU64_idx (pwHdr pws ++ cat64 (pwIdxOrig pws))
    (pwIdxId pws) (cat64 (pwIdxName pws) ++ pwDataRegion pws)
    i (56 + 8 * pws.length)
    (by simp [pwHdr_length, cat64_length, pwIdxOrig_length])
    (by rw [pwIdxId_length]; exact hiN)
    (by rw [hx]; exact hb)
  rw [show pwHdr pws ++ cat64 (pwIdxOrig pws) ++
      (cat64 (pwIdxId pws) ++ (cat64 (pwIdxName pws) ++ pwDataRegion pws)) =
      pwFileBytes pws from by
    unfold pwFileBytes pwHdr
    simp [List.append_assoc]] at hread
  rw [hm, hread, hx]

/-- Read entry `i` of the name-sorted index of the passwd file. -/
theorem pwFile_nameEntry (pws : List Passwd) (hfit : pwFit pws)
    (i : Nat) (hi : i < (pwSorted2 pws).length) (m : Nat)
    (hm : m = 56 + 16 * pws.length + 8 * i) :
    readU64 (pwFileBytes pws) m =
      pwOffs pws ((pwSorted2 pws).get ⟨i, hi⟩) := by
  have hiN : i < pws.length := by
    rw [pwSorted2, List.length_insertionSort, pwSorted1,
      List.length_insertionSort] at hi
    exact hi
  have hmem : (pwSorted2 pws).get ⟨i, hi⟩ ∈ pws := by
    have h1 : (pwSorted2 pws).get ⟨i, hi⟩ ∈ pwSorted1 pws :=
      (List.perm_insertionSort pwLeName (pwSorted1 pws)).mem_iff.mp
        (List.get_mem (pwSorted2 pws) i hi)
    exact (List.perm_insertionSort pwLeUid pws).mem_iff.mp h1
  have hx : (pwIdxName pws).get ⟨i, by rw [pwIdxName_length]; exact hiN⟩ =
      pwOffs pws ((pwSorted2 pws).get ⟨i, hi⟩) := by
    simp [pwIdxName]
  have hb : pwOffs pws ((pwSorted2 pws).get ⟨i, hi⟩) < 2 ^ 64 := by
    have := pwOffs_le pws ((pwSorted2 pws).get ⟨i, hi⟩) hmem
    unfold pwFit at hfit
    omega
  have hread := readU64_idx
    (pwHdr pws ++ cat64 (pwIdxOrig pws) ++ cat64 (pwIdxId pws))
    (pwIdxName pws) (pwDataRegion pws)
    i (56 + 16 * pws.length)
    (by
      simp [pwHdr_length, cat64_length, pwIdxOrig_length, pwIdxId_length]
      omega)
    (by rw [pwIdxName_length]; exact hiN)
    (by rw [hx]; exact hb)
  rw [show pwHdr pws ++ cat64 (pwIdxOrig pws) ++ cat64 (pwIdxId pws) ++
      (cat64 (pwIdxName pws) ++ pwDataRegion pws) =
      pwFileBytes pws from by
    unfold pwFileBytes pwHdr
    simp [List.append_assoc]] at hread
  rw [hm, hread, hx]

/-- Read entry `i` of the gid-sorted index of the group file. -/
theorem grFile_idEntry (grs : List Group) (hfit : grFit grs)
    (i : Nat) (hi : i < (grSorted1 grs).length) (m : Nat)
    (hm : m = 56 + 8 * grs.length + 8 * i) :
    readU64 (grFileBytes grs) m =
      grOffs grs (toKey ((grSorted1 grs).get ⟨i, hi⟩)) := by
  have hiN : i < grs.length := by
    rw [grSorted1, List.length_insertionSort] at hi
    exact hi
  have hmem : (grSorted1 grs).get ⟨i, hi⟩ ∈ grs :=
    (List.perm_insertionSort grLeGid grs).mem_iff.mp
      (List.get_mem (grSorted1 grs) i hi)
  have hx : (grIdxId grs).get ⟨i, by rw [grIdxId_length]; exact hiN⟩ =
      grOffs grs (toKey ((grSorted1 grs).get ⟨i, hi⟩)) := by
    simp [grIdxId]
  have hb : grOffs grs (toKey ((grSorted1 grs).get ⟨i, hi⟩)) < 2 ^ 64 := by
    have := grOffs_le grs ((grSorted1 grs).get ⟨i, hi⟩) hmem
    unfold grFit at hfit
    omega
  have hread := readU64_idx (grHdr grs ++ cat64 (grIdxOrig grs))
    (grIdxId grs) (cat64 (grIdxName grs) ++ grDataRegion grs)
    i (56 + 8 * grs.length)
    (by simp [grHdr_length, cat64_length, grIdxOrig_length])
    (by rw [grIdxId_length]; exact hiN)
    (by rw [hx]; exact hb)
  rw [show grHdr grs ++ cat64 (grIdxOrig grs) ++
      (cat64 (grIdxId grs) ++ (cat64 (grIdxName grs) ++ grDataRegion grs)) =
      grFileBytes grs from by
    unfold grFileBytes grHdr
    simp [List.append_assoc]] at hread
  rw [hm, hread, hx]

/-- Read entry `i` of the name-sorted index of the group file. -/
theorem grFile_nameEntry (grs : List Group) (hfit : grFit grs)
    (i : Nat) (hi : i < (grSorted2 grs).length) (m : Nat)
    (hm : m = 56 + 16 * grs.length + 8 * i) :
    readU64 (grFileBytes grs) m =
      grOffs grs (toKey ((grSorted2 grs).get ⟨i, hi⟩)) := by
  have hiN : i < grs.length := by
    rw [grSorted2, List.length_insertionSort, grSorted1,
      List.length_insertionSort] at hi
    exact hi
  have hmem : (grSorted2 grs).get ⟨i, hi⟩ ∈ grs := by
    have h1 : (grSorted2 grs).get ⟨i, hi⟩ ∈ grSorted1 grs :=
      (List.perm_insertionSort grLeName (grSorted1 grs)).mem_iff.mp
        (List.get_mem (grSorted2 grs) i hi)
    exact (List.perm_insertionSort grLeGid grs).mem_iff.mp h1
  have hx : (grIdxName grs).get ⟨i, by rw [grIdxName_length]; exact hiN⟩ =
      grOffs grs (toKey ((grSorted2 grs).get ⟨i, hi⟩)) := by
    simp [grIdxName]
  have hb : grOffs grs (toKey ((grSorted2 grs).get ⟨i, hi⟩)) < 2 ^ 64 := by
    have := grOffs_le grs ((grSorted2 grs).get ⟨i, hi⟩) hmem
    unfold grFit at hfit
    omega
  have hread := readU64_idx
    (grHdr grs ++ cat64 (grIdxOrig grs) ++ cat64 (grIdxId grs))
    (grIdxName grs) (grDataRegion grs)
    i (56 + 16 * grs.length)
    (by
      simp [grHdr_length, cat64_length, grIdxOrig_length, grIdxId_length]
      omega)
    (by rw [grIdxName_length]; exact hiN)
    (by rw [hx]; exact hb)
  rw [show grHdr grs ++ cat64 (grIdxOrig grs) ++ cat64 (grIdxId grs) ++
      (cat64 (grIdxName grs) ++ grDataRegion grs) =
      grFileBytes grs from by
    unfold grFileBytes grHdr
    simp [List.append_assoc]] at hread
  rw [hm, hread, hx]

/-- The uid stored at the start of `p`'s record in the data region. -/
theorem pwFile_uidAt (pws : List Passwd) (p : Passwd) (hp : p ∈ pws)
    (hok : pwOk p) (m : Nat)
    (hm : m = 56 + 24 * pws.length + pwOffs pws p) :
    readU64 (pwFileBytes pws) m = p.uid % 2 ^ 64 := by
  obtain ⟨dpre, dpost, hdata, hoff⟩ := pwOffs_spec pws p hp
  apply readU64_at (pwFileBytes pws)
    (pwHdr pws ++ (cat64 (pwIdxOrig pws) ++ (cat64 (pwIdxId pws) ++
      (cat64 (pwIdxName pws) ++ (dpre.map pwRec).flatten))))
    (pwT1 p ++ (dpost.map pwRec).flatten) p.uid m
  · unfold pwFileBytes pwHdr
    rw [show pwDataRegion pws =
      (dpre.map pwRec).flatten ++ (pwRec p ++ (dpost.map pwRec).flatten)
      from hdata, pwRec_eq p hok]
    simp [List.append_assoc]
  · simp only [List.length_append, pwHdr_length, cat64_length,
      pwIdxOrig_length, pwIdxId_length, pwIdxName_length, hm, hoff]
    omega

/-- The C string at offset 26 of `p`'s record is `p`'s name. -/
theorem pwFile_nameAt (pws : List Passwd) (p : Passwd) (hp : p ∈ pws)
    (hok : pwOk p) (hn : NulFree p.name) (m : Nat)
    (hm : m = 56 + 24 * pws.length + pwOffs pws p + 26) :
    cstr (pwFileBytes pws) m = p.name := by
  obtain ⟨dpre, dpost, hdata, hoff⟩ := pwOffs_spec pws p hp
  apply cstr_at (pwFileBytes pws)
    (pwHdr pws ++ (cat64 (pwIdxOrig pws) ++ (cat64 (pwIdxId pws) ++
      (cat64 (pwIdxName pws) ++ ((dpre.map pwRec).flatten ++
      (putU64 p.uid ++ (putU64 p.gid ++ (putU16 (pwO1 p) ++
      (putU16 (pwO2 p) ++ (putU16 (pwO3 p) ++ (putU16 (pwO4 p) ++
      putU16 (pwData p).length)))))))))))
    p.name
    (p.passwd ++ [0] ++ p.gecos ++ [0] ++ p.dir ++ [0] ++ p.shell ++ [0] ++
      (pwPad p ++ (dpost.map pwRec).flatten)) m
  · unfold pwFileBytes pwHdr
    rw [show pwDataRegion pws =
      (dpre.map pwRec).flatten ++ (pwRec p ++ (dpost.map pwRec).flatten)
      from hdata, pwRec_eq p hok]
    unfold pwT1 pwT2 pwT3 pwT4 pwT5 pwT6 pwT7 pwData
    simp [List.append_assoc]
  · simp only [List.length_append, pwHdr_length, cat64_length,
      pwIdxOrig_length, pwIdxId_length, pwIdxName_length, putU64_length,
      putU16_length, hm, hoff]
    omega
  · exact hn

/-- The gid stored at the start of the record `grOffs` points at for
`g`'s key: the key contains the gid, so it is `g`'s gid. -/
theorem grFile_gidAt (grs : List Group) (g : Group) (hg : g ∈ grs)
    (hokAll : ∀ g2 ∈ grs, grOk g2) (m : Nat)
    (hm : m = 56 + 24 * grs.length + grOffs grs (toKey g)) :
    readU64 (grFileBytes grs) m = g.gid % 2 ^ 64 := by
  obtain ⟨g0, dpre, dpost, hg0, hkey, hdata, hoff⟩ := grOffs_spec grs g hg
  have hgid : g0.gid = g.gid := congrArg GroupKey.gid hkey
  rw [show g.gid = g0.gid from hgid.symm]
  apply readU64_at (grFileBytes grs)
    (grHdr grs ++ (cat64 (grIdxOrig grs) ++ (cat64 (grIdxId grs) ++
      (cat64 (grIdxName grs) ++ (dpre.map grRec).flatten))))
    (gT1 g0 ++ (dpost.map grRec).flatten) g0.gid m
  · unfold grFileBytes grHdr
    rw [show grDataRegion grs =
      (dpre.map grRec).flatten ++ (grRec g0 ++ (dpost.map grRec).flatten)
      from hdata, grRec_eq g0 (hokAll g0 hg0)]
    simp [List.append_assoc]
  · simp only [List.length_append, grHdr_length, cat64_length,
      grIdxOrig_length, grIdxId_length, grIdxName_length, hm, hoff]
    omega

/-- The C string at offset 16 of the record `grOffs` points at for `g`'s
key is `g`'s name. -/
theorem grFile_nameAt (grs : List Group) (g : Group) (hg : g ∈ grs)
    (hokAll : ∀ g2 ∈ grs, grOk g2) (hwfAll : ∀ g2 ∈ grs, Group.WF g2)
    (m : Nat)
    (hm : m = 56 + 24 * grs.length + grOffs grs (toKey g) + 16) :
    cstr (grFileBytes grs) m = g.name := by
  obtain ⟨g0, dpre, dpost, hg0, hkey, hdata, hoff⟩ := grOffs_spec grs g hg
  have hname : g0.name = g.name := congrArg GroupKey.name hkey
  rw [show g.name = g0.name from hname.symm]
  apply cstr_at (grFileBytes grs)
    (grHdr grs ++ (cat64 (grIdxOrig grs) ++ (cat64 (grIdxId grs) ++
      (cat64 (grIdxName grs) ++ ((dpre.map grRec).flatten ++
      (putU64 g0.gid ++ (putU16 (grO1 g0) ++ (putU16 (grOM g0) ++
      (putU16 (grN g0) ++ putU16 (grData g0).length)))))))))
    g0.name
    (g0.passwd ++ [0] ++ (grPadD1 g0 ++
      (grTable g0 ++ memsBuf g0.members ++
        (grPadRec g0 ++ (dpost.map grRec).flatten)))) m
  · unfold grFileBytes grHdr
    rw [show grDataRegion grs =
      (dpre.map grRec).flatten ++ (grRec g0 ++ (dpost.map grRec).flatten)
      from hdata, grRec_eq g0 (hokAll g0 hg0)]
    unfold gT1 gT2 gT3 gT4 gT5
    rw [grData_eq g0]
    unfold grD1
    simp [List.append_assoc]
  · simp only [List.length_append, grHdr_length, cat64_length,
      grIdxOrig_length, grIdxId_length, grIdxName_length, putU64_length,
      putU16_length, hm, hoff]
    omega
  · exact (hwfAll g0 hg0).1

/-- The index region a search key selects (`key->name != NULL`). -/
@[reducible] def idxOffOf (h : Header) : SearchKey → Nat
  | .byName _ => h.offName
  | .byId _ => h.offId

/-- The comparator `internal_getpw` hands to `search`. -/
@[reducible] def pwCmpAt (f : Bytes) (h : Header) (key : SearchKey) (i : Nat) : Ordering :=
  searchCmp f (headerSize + h.offData) key (pwKeyOff key)
    (readU64 f (headerSize + idxOffOf h key + 8 * i))

/-- The comparator `internal_getgr` hands to `search`. -/
@[reducible] def grCmpAt (f : Bytes) (h : Header) (key : SearchKey) (i : Nat) : Ordering :=
  searchCmp f (headerSize + h.offData) key (grKeyOff key)
    (readU64 f (headerSize + idxOffOf h key + 8 * i))

theorem internal_getpw_found (f : Bytes) (h : Header) (key : SearchKey)
    (space j : Nat) (p : CPasswd) (hm : mapFile f = .ok h)
    (hbs : bsearch (pwCmpAt f h key) 0 h.count = some j)
    (hent : entryToPasswd f
      (headerSize + h.offData +
        readU64 f (headerSize + idxOffOf h key + 8 * j)) space = some p) :
    internal_getpw (some f) key space = .success p := by
  cases key with
  | byName nm =>
    simp only [internal_getpw, hm]
    rw [hbs]
    show (match entryToPasswd f
        (headerSize + h.offData +
          readU64 f (headerSize + h.offName + 8 * j)) space with
      | none => (.tryagain .ERANGE : NssResult CPasswd)
      | some q => .success q) = .success p
    rw [show (headerSize + h.offName + 8 * j) =
      headerSize + idxOffOf h (.byName nm) + 8 * j from rfl, hent]
  | byId u =>
    simp only [internal_getpw, hm]
    rw [hbs]
    show (match entryToPasswd f
        (headerSize + h.offData +
          readU64 f (headerSize + h.offId + 8 * j)) space with
      | none => (.tryagain .ERANGE : NssResult CPasswd)
      | some q => .success q) = .success p
    rw [show (headerSize + h.offId + 8 * j) =
      headerSize + idxOffOf h (.byId u) + 8 * j from rfl, hent]

theorem internal_getpw_notfound (f : Bytes) (h : Header) (key : SearchKey)
    (space : Nat) (hm : mapFile f = .ok h)
    (hbs : bsearch (pwCmpAt f h key) 0 h.count = none) :
    internal_getpw (some f) key space = .notfound .ENOENT := by
  cases key with
  | byName nm =>
    simp only [internal_getpw, hm]
    rw [hbs]
  | byId u =>
    simp only [internal_getpw, hm]
    rw [hbs]

theorem internal_getgr_found (f : Bytes) (h : Header) (key : SearchKey)
    (space j : Nat) (g : CGroup) (hm : mapFile f = .ok h)
    (hbs : bsearch (grCmpAt f h key) 0 h.count = some j)
    (hent : entryToGroup f
      (headerSize + h.offData +
        readU64 f (headerSize + idxOffOf h key + 8 * j)) space = some g) :
    internal_getgr (some f) key space = .success g := by
  cases key with
  | byName nm =>
    simp only [internal_getgr, hm]
    rw [hbs]
    show (match entryToGroup f
        (headerSize + h.offData +
          readU64 f (headerSize + h.offName + 8 * j)) space with
      | none => (.tryagain .ERANGE : NssResult CGroup)
      | some q => .success q) = .success g
    rw [show (headerSize + h.offName + 8 * j) =
      headerSize + idxOffOf h (.byName nm) + 8 * j from rfl, hent]
  | byId u =>
    simp only [internal_getgr, hm]
    rw [hbs]
    show (match entryToGroup f
        (headerSize + h.offData +
          readU64 f (headerSize + h.offId + 8 * j)) space with
      | none => (.tryagain .ERANGE : NssResult CGroup)
      | some q => .success q) = .success g
    rw [show (headerSize + h.offId + 8 * j) =
      headerSize + idxOffOf h (.byId u) + 8 * j from rfl, hent]

theorem internal_getgr_notfound (f : Bytes) (h : Header) (key : SearchKey)
    (space : Nat) (hm : mapFile f = .ok h)
    (hbs : bsearch (grCmpAt f h key) 0 h.count = none) :
    internal_getgr (some f) key space = .notfound .ENOENT := by
  cases key with
  | byName nm =>
    simp only [internal_getgr, hm]
    rw [hbs]
  | byId u =>
    simp only [internal_getgr, hm]
    rw [hbs]

/-- The header the serializers write for `pws`. -/
@[reducible] def pwHeaderOf (pws : List Passwd) : Header :=
  { count := pws.length, offOrig := 0, offId := 8 * pws.length,
    offName := 16 * pws.length, offData := 24 * pws.length }

@[reducible] def grHeaderOf (grs : List Group) : Header :=
  { count := grs.length, offOrig := 0, offId := 8 * grs.length,
    offName := 16 * grs.length, offData := 24 * grs.length }

/-- A totalised view of the id comparator over the uid-sorted list. -/
def pwUidCmp (pws : List Passwd) (u : Nat) (i : Nat) : Ordering :=
  if hi : i < (pwSorted1 pws).length then
    compare u ((pwSorted1 pws).get ⟨i, hi⟩).uid
  else .lt

/-- A totalised view of the name comparator over the name-sorted list. -/
def pwNameCmp (pws : List Passwd) (nm : Bytes) (i : Nat) : Ordering :=
  if hi : i < (pwSorted2 pws).length then
    cmpBytes nm ((pwSorted2 pws).get ⟨i, hi⟩).name
  else .lt

def grGidCmp (grs : List Group) (u : Nat) (i : Nat) : Ordering :=
  if hi : i < (grSorted1 grs).length then
    compare u ((grSorted1 grs).get ⟨i, hi⟩).gid
  else .lt

def grNameCmp (grs : List Group) (nm : Bytes) (i : Nat) : Ordering :=
  if hi : i < (grSorted2 grs).length then
    cmpBytes nm ((grSorted2 grs).get ⟨i, hi⟩).name
  else .lt

theorem pwUidCmp_ha (pws : List Passwd) (u : Nat) :
    ∀ i j, i ≤ j → pwUidCmp pws u i = .lt → pwUidCmp pws u j = .lt := by
  intro i j hij hlt
  unfold pwUidCmp at hlt ⊢
  by_cases hj : j < (pwSorted1 pws).length
  · have hi : i < (pwSorted1 pws).length := lt_of_le_of_lt
      (Nat.lt_succ_iff.mp (Nat.lt_succ_of_le hij)) hj
    rw [dif_pos hi] at hlt
    rw [dif_pos hj]
    have hmono : ((pwSorted1 pws).get ⟨i, hi⟩).uid ≤
        ((pwSorted1 pws).get ⟨j, hj⟩).uid := by
      rcases Nat.eq_or_lt_of_le hij with he | hl
      · subst he
        exact le_rfl
      · exact (List.sorted_insertionSort pwLeUid pws).rel_get_of_lt hl
    rw [compare_lt_iff_lt] at hlt ⊢
    omega
  · rw [dif_neg hj]

theorem pwUidCmp_hb (pws : List Passwd) (u : Nat) :
    ∀ i j, i ≤ j → pwUidCmp pws u j = .gt → pwUidCmp pws u i = .gt := by
  intro i j hij hgt
  unfold pwUidCmp at hgt ⊢
  by_cases hj : j < (pwSorted1 pws).length
  · have hi : i < (pwSorted1 pws).length := lt_of_le_of_lt
      (Nat.lt_succ_iff.mp (Nat.lt_succ_of_le hij)) hj
    rw [dif_pos hj] at hgt
    rw [dif_pos hi]
    have hmono : ((pwSorted1 pws).get ⟨i, hi⟩).uid ≤
        ((pwSorted1 pws).get ⟨j, hj⟩).uid := by
      rcases Nat.eq_or_lt_of_le hij with he | hl
      · subst he
        exact le_rfl
      · exact (List.sorted_insertionSort pwLeUid pws).rel_get_of_lt hl
    rw [compare_gt_iff_gt] at hgt ⊢
    omega
  · rw [dif_neg hj] at hgt
    exact absurd hgt (by simp)

theorem pwNameCmp_ha (pws : List Passwd) (nm : Bytes) :
    ∀ i j, i ≤ j → pwNameCmp pws nm i = .lt → pwNameCmp pws nm j = .lt := by
  intro i j hij hlt
  unfold pwNameCmp at hlt ⊢
  by_cases hj : j < (pwSorted2 pws).length
  · have hi : i < (pwSorted2 pws).length := lt_of_le_of_lt
      (Nat.lt_succ_iff.mp (Nat.lt_succ_of_le hij)) hj
    rw [dif_pos hi] at hlt
    rw [dif_pos hj]
    have hmono : bytesLe ((pwSorted2 pws).get ⟨i, hi⟩).name
        ((pwSorted2 pws).get ⟨j, hj⟩).name := by
      rcases Nat.eq_or_lt_of_le hij with he | hl
      · subst he
        unfold bytesLe
        rw [(cmpBytes_eq_iff _ _).mpr rfl]
        simp
      · exact (List.sorted_insertionSort pwLeName (pwSorted1 pws)).rel_get_of_lt hl
    exact cmp_key_lt_mono hmono hlt
  · rw [dif_neg hj]

theorem pwNameCmp_hb (pws : List Passwd) (nm : Bytes) :
    ∀ i j, i ≤ j → pwNameCmp pws nm j = .gt → pwNameCmp pws nm i = .gt := by
  intro i j hij hgt
  unfold pwNameCmp at hgt ⊢
  by_cases hj : j < (pwSorted2 pws).length
  · have hi : i < (pwSorted2 pws).length := lt_of_le_of_lt
      (Nat.lt_succ_iff.mp (Nat.lt_succ_of_le hij)) hj
    rw [dif_pos hj] at hgt
    rw [dif_pos hi]
    have hmono : bytesLe ((pwSorted2 pws).get ⟨i, hi⟩).name
        ((pwSorted2 pws).get ⟨j, hj⟩).name := by
      rcases Nat.eq_or_lt_of_le hij with he | hl
      · subst he
        unfold bytesLe
        rw [(cmpBytes_eq_iff _ _).mpr rfl]
        simp
      · exact (List.sorted_insertionSort pwLeName (pwSorted1 pws)).rel_get_of_lt hl
    exact cmp_key_gt_mono hmono hgt
  · rw [dif_neg hj] at hgt
    exact absurd hgt (by simp)

theorem grGidCmp_ha (grs : List Group) (u : Nat) :
    ∀ i j, i ≤ j → grGidCmp grs u i = .lt → grGidCmp grs u j = .lt := by
  intro i j hij hlt
  unfold grGidCmp at hlt ⊢
  by_cases hj : j < (grSorted1 grs).length
  · have hi : i < (grSorted1 grs).length := lt_of_le_of_lt
      (Nat.lt_succ_iff.mp (Nat.lt_succ_of_le hij)) hj
    rw [dif_pos hi] at hlt
    rw [dif_pos hj]
    have hmono : ((grSorted1 grs).get ⟨i, hi⟩).gid ≤
        ((grSorted1 grs).get ⟨j, hj⟩).gid := by
      rcases Nat.eq_or_lt_of_le hij with he | hl
      · subst he
        exact le_rfl
      · exact (List.sorted_insertionSort grLeGid grs).rel_get_of_lt hl
    rw [compare_lt_iff_lt] at hlt ⊢
    omega
  · rw [dif_neg hj]

theorem grGidCmp_hb (grs : List Group) (u : Nat) :
    ∀ i j, i ≤ j → grGidCmp grs u j = .gt → grGidCmp grs u i = .gt := by
  intro i j hij hgt
  unfold grGidCmp at hgt ⊢
  by_cases hj : j < (grSorted1 grs).length
  · have hi : i < (grSorted1 grs).length := lt_of_le_of_lt
      (Nat.lt_succ_iff.mp (Nat.lt_succ_of_le hij)) hj
    rw [dif_pos hj] at hgt
    rw [dif_pos hi]
    have hmono : ((grSorted1 grs).get ⟨i, hi⟩).gid ≤
        ((grSorted1 grs).get ⟨j, hj⟩).gid := by
      rcases Nat.eq_or_lt_of_le hij with he | hl
      · subst he
        exact le_rfl
      · exact (List.sorted_insertionSort grLeGid grs).rel_get_of_lt hl
    rw [compare_gt_iff_gt] at hgt ⊢
    omega
  · rw [dif_neg hj] at hgt
    exact absurd hgt (by simp)

theorem grNameCmp_ha (grs : List Group) (nm : Bytes) :
    ∀ i j, i ≤ j → grNameCmp grs nm i = .lt → grNameCmp grs nm j = .lt := by
  intro i j hij hlt
  unfold grNameCmp at hlt ⊢
  by_cases hj : j < (grSorted2 grs).length
  · have hi : i < (grSorted2 grs).length := lt_of_le_of_lt
      (Nat.lt_succ_iff.mp (Nat.lt_succ_of_le hij)) hj
    rw [dif_pos hi] at hlt
    rw [dif_pos hj]
    have hmono : bytesLe ((grSorted2 grs).get ⟨i, hi⟩).name
        ((grSorted2 grs).get ⟨j, hj⟩).name := by
      rcases Nat.eq_or_lt_of_le hij with he | hl
      · subst he
        unfold bytesLe
        rw [(cmpBytes_eq_iff _ _).mpr rfl]
        simp
      · exact (List.sorted_insertionSort grLeName (grSorted1 grs)).rel_get_of_lt hl
    exact cmp_key_lt_mono hmono hlt
  · rw [dif_neg hj]

theorem grNameCmp_hb (grs : List Group) (nm : Bytes) :
    ∀ i j, i ≤ j → grNameCmp grs nm j = .gt → grNameCmp grs nm i = .gt := by
  intro i j hij hgt
  unfold grNameCmp at hgt ⊢
  by_cases hj : j < (grSorted2 grs).length
  · have hi : i < (grSorted2 grs).length := lt_of_le_of_lt
      (Nat.lt_succ_iff.mp (Nat.lt_succ_of_le hij)) hj
    rw [dif_pos hj] at hgt
    rw [dif_pos hi]
    have hmono : bytesLe ((grSorted2 grs).get ⟨i, hi⟩).name
        ((grSorted2 grs).get ⟨j, hj⟩).name := by
      rcases Nat.eq_or_lt_of_le hij with he | hl
      · subst he
        unfold bytesLe
        rw [(cmpBytes_eq_iff _ _).mpr rfl]
        simp
      · exact (List.sorted_insertionSort grLeName (grSorted1 grs)).rel_get_of_lt hl
    exact cmp_key_gt_mono hmono hgt
  · rw [dif_neg hj] at hgt
    exact absurd hgt (by simp)

/-- The comparator of a lookup by uid agrees, on the index range, with
comparing against the uid-sorted records. -/
theorem pwCmpAt_id (pws : List Passwd) (hokA : ∀ q ∈ pws, pwOk q)
    (hwf : ∀ q ∈ pws, Passwd.WF q) (hfit : pwFit pws) (u : Nat)
    (i : Nat) (hi : i < (pwSorted1 pws).length) :
    pwCmpAt (pwFileBytes pws) (pwHeaderOf pws) (.byId u) i =
      compare u ((pwSorted1 pws).get ⟨i, hi⟩).uid := by
  have hmem : (pwSorted1 pws).get ⟨i, hi⟩ ∈ pws :=
    (List.perm_insertionSort pwLeUid pws).mem_iff.mp
      (List.get_mem (pwSorted1 pws) i hi)
  show compare u (readU64 (pwFileBytes pws)
    (headerSize + 24 * pws.length +
      readU64 (pwFileBytes pws) (headerSize + 8 * pws.length + 8 * i) + 0)) = _
  rw [Nat.add_zero, show headerSize + 8 * pws.length = 56 + 8 * pws.length
    from rfl, pwFile_idEntry pws hfit i hi _ rfl,
    show headerSize + 24 * pws.length = 56 + 24 * pws.length from rfl,
    pwFile_uidAt pws _ hmem (hokA _ hmem) _ rfl,
    Nat.mod_eq_of_lt (hwf _ hmem).2.2.2.2.2.1]

/-- The comparator of a lookup by name agrees, on the index range, with
comparing against the name-sorted records. -/
theorem pwCmpAt_name (pws : List Passwd) (hokA : ∀ q ∈ pws, pwOk q)
    (hwf : ∀ q ∈ pws, Passwd.WF q) (hfit : pwFit pws) (nm : Bytes)
    (i : Nat) (hi : i < (pwSorted2 pws).length) :
    pwCmpAt (pwFileBytes pws) (pwHeaderOf pws) (.byName nm) i =
      cmpBytes nm ((pwSorted2 pws).get ⟨i, hi⟩).name := by
  have hmem : (pwSorted2 pws).get ⟨i, hi⟩ ∈ pws := by
    have h1 : (pwSorted2 pws).get ⟨i, hi⟩ ∈ pwSorted1 pws :=
      (List.perm_insertionSort pwLeName (pwSorted1 pws)).mem_iff.mp
        (List.get_mem (pwSorted2 pws) i hi)
    exact (List.perm_insertionSort pwLeUid pws).mem_iff.mp h1
  show cmpBytes nm (cstr (pwFileBytes pws)
    (headerSize + 24 * pws.length +
      readU64 (pwFileBytes pws) (headerSize + 16 * pws.length + 8 * i) +
      26)) = _
  rw [show headerSize + 16 * pws.length = 56 + 16 * pws.length from rfl,
    pwFile_nameEntry pws hfit i hi _ rfl,
    show ∀ off, headerSize + 24 * pws.length + off + 26 =
      56 + 24 * pws.length + off + 26 from fun off => rfl,
    pwFile_nameAt pws _ hmem (hokA _ hmem) (hwf _ hmem).1 _ rfl]

/-- Lookup by uid finds any present record (uids pairwise distinct). -/
theorem pwLookup_id_found (pws : List Passwd)
    (hwf : ∀ q ∈ pws, Passwd.WF q) (hokA : ∀ q ∈ pws, pwOk q)
    (hid32 : ∀ q ∈ pws, q.uid < 2 ^ 32 ∧ q.gid < 2 ^ 32) (hfit : pwFit pws)
    (huniq : ∀ q1 ∈ pws, ∀ q2 ∈ pws, q1.uid = q2.uid → q1 = q2)
    (p : Passwd) (hp : p ∈ pws) (space : Nat) (hspace : 65535 ≤ space) :
    getpwuidR (some (pwFileBytes pws)) p.uid space =
      .success (cOfPasswd p) := by
  have hlen1 : (pwSorted1 pws).length = pws.length := by
    rw [pwSorted1, List.length_insertionSort]
  have hmem0 : p ∈ pwSorted1 pws :=
    (List.perm_insertionSort pwLeUid pws).mem_iff.mpr hp
  obtain ⟨⟨i0, hi0⟩, hgot⟩ := List.mem_iff_get.mp hmem0
  have heq0 : pwUidCmp pws p.uid i0 = .eq := by
    unfold pwUidCmp
    rw [dif_pos hi0]
    show compare p.uid ((pwSorted1 pws).get ⟨i0, hi0⟩).uid = .eq
    rw [show (pwSorted1 pws).get ⟨i0, hi0⟩ = p from hgot]
    exact compare_eq_iff_eq.mpr rfl
  obtain ⟨j, hbs2, hj, hcj⟩ := bsearch_finds (u := pws.length)
    (pwUidCmp_ha pws p.uid)
    (pwUidCmp_hb pws p.uid) i0 (by rw [← hlen1]; exact hi0) heq0
  have hjS : j < (pwSorted1 pws).length := by rw [hlen1]; exact hj
  have hcj2 : compare p.uid ((pwSorted1 pws).get ⟨j, hjS⟩).uid = .eq := by
    unfold pwUidCmp at hcj
    rw [dif_pos hjS] at hcj
    exact hcj
  have hmemj : (pwSorted1 pws).get ⟨j, hjS⟩ ∈ pws :=
    (List.perm_insertionSort pwLeUid pws).mem_iff.mp
      (List.get_mem (pwSorted1 pws) j hjS)
  have hqj : (pwSorted1 pws).get ⟨j, hjS⟩ = p :=
    huniq _ hmemj p hp (compare_eq_iff_eq.mp hcj2).symm
  have hagree : ∀ i, 0 ≤ i → i < pws.length →
      pwCmpAt (pwFileBytes pws) (pwHeaderOf pws) (.byId p.uid) i =
        pwUidCmp pws p.uid i := by
    intro i _ hi
    have hiS : i < (pwSorted1 pws).length := by rw [hlen1]; exact hi
    rw [pwCmpAt_id pws hokA hwf hfit p.uid i hiS]
    unfold pwUidCmp
    rw [dif_pos hiS]
  have hbs : bsearch (pwCmpAt (pwFileBytes pws) (pwHeaderOf pws)
      (.byId p.uid)) 0 pws.length = some j :=
    (bsearch_congr hagree).trans hbs2
  have hent : entryToPasswd (pwFileBytes pws)
      (headerSize + (pwHeaderOf pws).offData +
        readU64 (pwFileBytes pws)
          (headerSize + idxOffOf (pwHeaderOf pws) (.byId p.uid) + 8 * j))
      space = some (cOfPasswd p) := by
    rw [show headerSize + idxOffOf (pwHeaderOf pws) (.byId p.uid) + 8 * j =
      56 + 8 * pws.length + 8 * j from rfl,
      pwFile_idEntry pws hfit j hjS _ rfl, hqj]
    exact pwFile_read_at pws p hp (hwf p hp) (hokA p hp) (hid32 p hp)
      space hspace _ rfl
  exact internal_getpw_found _ (pwHeaderOf pws) _ space j _
    (pwFile_header pws hfit) hbs hent

/-- Lookup by name finds any present record (names pairwise distinct). -/
theorem pwLookup_name_found (pws : List Passwd)
    (hwf : ∀ q ∈ pws, Passwd.WF q) (hokA : ∀ q ∈ pws, pwOk q)
    (hid32 : ∀ q ∈ pws, q.uid < 2 ^ 32 ∧ q.gid < 2 ^ 32) (hfit : pwFit pws)
    (huniq : ∀ q1 ∈ pws, ∀ q2 ∈ pws, q1.name = q2.name → q1 = q2)
    (p : Passwd) (hp : p ∈ pws) (space : Nat) (hspace : 65535 ≤ space) :
    getpwnamR (some (pwFileBytes pws)) p.name space =
      .success (cOfPasswd p) := by
  have hlen2 : (pwSorted2 pws).length = pws.length := by
    rw [pwSorted2, List.length_insertionSort, pwSorted1,
      List.length_insertionSort]
  have hmem0 : p ∈ pwSorted2 pws :=
    (List.perm_insertionSort pwLeName (pwSorted1 pws)).mem_iff.mpr
      ((List.perm_insertionSort pwLeUid pws).mem_iff.mpr hp)
  obtain ⟨⟨i0, hi0⟩, hgot⟩ := List.mem_iff_get.mp hmem0
  have heq0 : pwNameCmp pws p.name i0 = .eq := by
    unfold pwNameCmp
    rw [dif_pos hi0]
    show cmpBytes p.name ((pwSorted2 pws).get ⟨i0, hi0⟩).name = .eq
    rw [show (pwSorted2 pws).get ⟨i0, hi0⟩ = p from hgot]
    exact (cmpBytes_eq_iff _ _).mpr rfl
  obtain ⟨j, hbs2, hj, hcj⟩ := bsearch_finds (u := pws.length)
    (pwNameCmp_ha pws p.name)
    (pwNameCmp_hb pws p.name) i0 (by rw [← hlen2]; exact hi0) heq0
  have hjS : j < (pwSorted2 pws).length := by rw [hlen2]; exact hj
  have hcj2 : cmpBytes p.name ((pwSorted2 pws).get ⟨j, hjS⟩).name = .eq := by
    unfold pwNameCmp at hcj
    rw [dif_pos hjS] at hcj
    exact hcj
  have hmemj : (pwSorted2 pws).get ⟨j, hjS⟩ ∈ pws := by
    have h1 : (pwSorted2 pws).get ⟨j, hjS⟩ ∈ pwSorted1 pws :=
      (List.perm_insertionSort pwLeName (pwSorted1 pws)).mem_iff.mp
        (List.get_mem (pwSorted2 pws) j hjS)
    exact (List.perm_insertionSort pwLeUid pws).mem_iff.mp h1
  have hqj : (pwSorted2 pws).get ⟨j, hjS⟩ = p :=
    huniq _ hmemj p hp ((cmpBytes_eq_iff _ _).mp hcj2).symm
  have hagree : ∀ i, 0 ≤ i → i < pws.length →
      pwCmpAt (pwFileBytes pws) (pwHeaderOf pws) (.byName p.name) i =
        pwNameCmp pws p.name i := by
    intro i _ hi
    have hiS : i < (pwSorted2 pws).length := by rw [hlen2]; exact hi
    rw [pwCmpAt_name pws hokA hwf hfit p.name i hiS]
    unfold pwNameCmp
    rw [dif_pos hiS]
  have hbs : bsearch (pwCmpAt (pwFileBytes pws) (pwHeaderOf pws)
      (.byName p.name)) 0 pws.length = some j :=
    (bsearch_congr hagree).trans hbs2
  have hent : entryToPasswd (pwFileBytes pws)
      (headerSize + (pwHeaderOf pws).offData +
        readU64 (pwFileBytes pws)
          (headerSize + idxOffOf (pwHeaderOf pws) (.byName p.name) + 8 * j))
      space = some (cOfPasswd p) := by
    rw [show headerSize + idxOffOf (pwHeaderOf pws) (.byName p.name) + 8 * j =
      56 + 16 * pws.length + 8 * j from rfl,
      pwFile_nameEntry pws hfit j hjS _ rfl, hqj]
    exact pwFile_read_at pws p hp (hwf p hp) (hokA p hp) (hid32 p hp)
      space hspace _ rfl
  exact internal_getpw_found _ (pwHeaderOf pws) _ space j _
    (pwFile_header pws hfit) hbs hent

/-- Lookup by an absent uid reports not-found/ENOENT. -/
theorem pwLookup_id_notfound (pws : List Passwd)
    (hwf : ∀ q ∈ pws, Passwd.WF q) (hokA : ∀ q ∈ pws, pwOk q)
    (hfit : pwFit pws) (uid : Nat) (habs : ∀ q ∈ pws, q.uid ≠ uid)
    (space : Nat) :
    getpwuidR (some (pwFileBytes pws)) uid space = .notfound .ENOENT := by
  have hlen1 : (pwSorted1 pws).length = pws.length := by
    rw [pwSorted1, List.length_insertionSort]
  cases hbs : bsearch (pwCmpAt (pwFileBytes pws) (pwHeaderOf pws)
      (.byId uid)) 0 pws.length with
  | none =>
    exact internal_getpw_notfound _ (pwHeaderOf pws) _ space
      (pwFile_header pws hfit) hbs
  | some j =>
    obtain ⟨_, hj, hcj⟩ := bsearch_some hbs
    have hjS : j < (pwSorted1 pws).length := by rw [hlen1]; exact hj
    rw [pwCmpAt_id pws hokA hwf hfit uid j hjS] at hcj
    have hmemj : (pwSorted1 pws).get ⟨j, hjS⟩ ∈ pws :=
      (List.perm_insertionSort pwLeUid pws).mem_iff.mp
        (List.get_mem (pwSorted1 pws) j hjS)
    exact absurd (compare_eq_iff_eq.mp hcj).symm (habs _ hmemj)

/-- Lookup by an absent name reports not-found/ENOENT. -/
theorem pwLookup_name_notfound (pws : List Passwd)
    (hwf : ∀ q ∈ pws, Passwd.WF q) (hokA : ∀ q ∈ pws, pwOk q)
    (hfit : pwFit pws) (nm : Bytes) (habs : ∀ q ∈ pws, q.name ≠ nm)
    (space : Nat) :
    getpwnamR (some (pwFileBytes pws)) nm space = .notfound .ENOENT := by
  have hlen2 : (pwSorted2 pws).length = pws.length := by
    rw [pwSorted2, List.length_insertionSort, pwSorted1,
      List.length_insertionSort]
  cases hbs : bsearch (pwCmpAt (pwFileBytes pws) (pwHeaderOf pws)
      (.byName nm)) 0 pws.length with
  | none =>
    exact internal_getpw_notfound _ (pwHeaderOf pws) _ space
      (pwFile_header pws hfit) hbs
  | some j =>
    obtain ⟨_, hj, hcj⟩ := bsearch_some hbs
    have hjS : j < (pwSorted2 pws).length := by rw [hlen2]; exact hj
    rw [pwCmpAt_name pws hokA hwf hfit nm j hjS] at hcj
    have hmemj : (pwSorted2 pws).get ⟨j, hjS⟩ ∈ pws := by
      have h1 : (pwSorted2 pws).get ⟨j, hjS⟩ ∈ pwSorted1 pws :=
        (List.perm_insertionSort pwLeName (pwSorted1 pws)).mem_iff.mp
          (List.get_mem (pwSorted2 pws) j hjS)
      exact (List.perm_insertionSort pwLeUid pws).mem_iff.mp h1
    exact absurd ((cmpBytes_eq_iff _ _).mp hcj).symm (habs _ hmemj)

/-- The comparator of a group lookup by gid agrees, on the index range,
with comparing against the gid-sorted records. -/
theorem grCmpAt_id (grs : List Group) (hokA : ∀ q ∈ grs, grOk q)
    (hwf : ∀ q ∈ grs, Group.WF q) (hfit : grFit grs) (u : Nat)
    (i : Nat) (hi : i < (grSorted1 grs).length) :
    grCmpAt (grFileBytes grs) (grHeaderOf grs) (.byId u) i =
      compare u ((grSorted1 grs).get ⟨i, hi⟩).gid := by
  have hmem : (grSorted1 grs).get ⟨i, hi⟩ ∈ grs :=
    (List.perm_insertionSort grLeGid grs).mem_iff.mp
      (List.get_mem (grSorted1 grs) i hi)
  show compare u (readU64 (grFileBytes grs)
    (headerSize + 24 * grs.length +
      readU64 (grFileBytes grs) (headerSize + 8 * grs.length + 8 * i) + 0)) = _
  rw [Nat.add_zero, show headerSize + 8 * grs.length = 56 + 8 * grs.length
    from rfl, grFile_idEntry grs hfit i hi _ rfl,
    show headerSize + 24 * grs.length = 56 + 24 * grs.length from rfl,
    grFile_gidAt grs _ hmem hokA _ rfl,
    Nat.mod_eq_of_lt (hwf _ hmem).2.2.2]

/-- The comparator of a group lookup by name agrees, on the index range,
with comparing against the name-sorted records. -/
theorem grCmpAt_name (grs : List Group) (hokA : ∀ q ∈ grs, grOk q)
    (hwf : ∀ q ∈ grs, Group.WF q) (hfit : grFit grs) (nm : Bytes)
    (i : Nat) (hi : i < (grSorted2 grs).length) :
    grCmpAt (grFileBytes grs) (grHeaderOf grs) (.byName nm) i =
      cmpBytes nm ((grSorted2 grs).get ⟨i, hi⟩).name := by
  have hmem : (grSorted2 grs).get ⟨i, hi⟩ ∈ grs := by
    have h1 : (grSorted2 grs).get ⟨i, hi⟩ ∈ grSorted1 grs :=
      (List.perm_insertionSort grLeName (grSorted1 grs)).mem_iff.mp
        (List.get_mem (grSorted2 grs) i hi)
    exact (List.perm_insertionSort grLeGid grs).mem_iff.mp h1
  show cmpBytes nm (cstr (grFileBytes grs)
    (headerSize + 24 * grs.length +
      readU64 (grFileBytes grs) (headerSize + 16 * grs.length + 8 * i) +
      16)) = _
  rw [show headerSize + 16 * grs.length = 56 + 16 * grs.length from rfl,
    grFile_nameEntry grs hfit i hi _ rfl,
    show ∀ off, headerSize + 24 * grs.length + off + 16 =
      56 + 24 * grs.length + off + 16 from fun off => rfl,
    grFile_nameAt grs _ hmem hokA hwf _ rfl]

/-- Group lookup by gid finds any present record (gids pairwise
distinct). -/
theorem grLookup_id_found (grs : List Group)
    (hwf : ∀ q ∈ grs, Group.WF q) (hokA : ∀ q ∈ grs, grOk q)
    (hid32 : ∀ q ∈ grs, q.gid < 2 ^ 32) (hfit : grFit grs)
    (huniq : ∀ q1 ∈ grs, ∀ q2 ∈ grs, q1.gid = q2.gid → q1 = q2)
    (g : Group) (hg : g ∈ grs) (space : Nat) (hspace : 589823 ≤ space) :
    getgrgidR (some (grFileBytes grs)) g.gid space =
      .success (cOfGroup g) := by
  have hlen1 : (grSorted1 grs).length = grs.length := by
    rw [grSorted1, List.length_insertionSort]
  have hmem0 : g ∈ grSorted1 grs :=
    (List.perm_insertionSort grLeGid grs).mem_iff.mpr hg
  obtain ⟨⟨i0, hi0⟩, hgot⟩ := List.mem_iff_get.mp hmem0
  have heq0 : grGidCmp grs g.gid i0 = .eq := by
    unfold grGidCmp
    rw [dif_pos hi0]
    show compare g.gid ((grSorted1 grs).get ⟨i0, hi0⟩).gid = .eq
    rw [show (grSorted1 grs).get ⟨i0, hi0⟩ = g from hgot]
    exact compare_eq_iff_eq.mpr rfl
  obtain ⟨j, hbs2, hj, hcj⟩ := bsearch_finds (u := grs.length)
    (grGidCmp_ha grs g.gid)
    (grGidCmp_hb grs g.gid) i0 (by rw [← hlen1]; exact hi0) heq0
  have hjS : j < (grSorted1 grs).length := by rw [hlen1]; exact hj
  have hcj2 : compare g.gid ((grSorted1 grs).get ⟨j, hjS⟩).gid = .eq := by
    unfold grGidCmp at hcj
    rw [dif_pos hjS] at hcj
    exact hcj
  have hmemj : (grSorted1 grs).get ⟨j, hjS⟩ ∈ grs :=
    (List.perm_insertionSort grLeGid grs).mem_iff.mp
      (List.get_mem (grSorted1 grs) j hjS)
  have hqj : (grSorted1 grs).get ⟨j, hjS⟩ = g :=
    huniq _ hmemj g hg (compare_eq_iff_eq.mp hcj2).symm
  have hagree : ∀ i, 0 ≤ i → i < grs.length →
      grCmpAt (grFileBytes grs) (grHeaderOf grs) (.byId g.gid) i =
        grGidCmp grs g.gid i := by
    intro i _ hi
    have hiS : i < (grSorted1 grs).length := by rw [hlen1]; exact hi
    rw [grCmpAt_id grs hokA hwf hfit g.gid i hiS]
    unfold grGidCmp
    rw [dif_pos hiS]
  have hbs : bsearch (grCmpAt (grFileBytes grs) (grHeaderOf grs)
      (.byId g.gid)) 0 grs.length = some j :=
    (bsearch_congr hagree).trans hbs2
  obtain ⟨g0, dpre, dpost, hg0, hkey, hdata, hoff⟩ := grOffs_spec grs g hg
  have hg0g : g0 = g := huniq g0 hg0 g hg (congrArg GroupKey.gid hkey)
  have hent0 := grFile_read_at grs g g0 dpre dpost hkey hdata hoff
    (hwf g0 hg0) (hokA g0 hg0) (hid32 g0 hg0) space hspace _ rfl
  rw [hg0g] at hent0
  have hent : entryToGroup (grFileBytes grs)
      (headerSize + (grHeaderOf grs).offData +
        readU64 (grFileBytes grs)
          (headerSize + idxOffOf (grHeaderOf grs) (.byId g.gid) + 8 * j))
      space = some (cOfGroup g) := by
    rw [show headerSize + idxOffOf (grHeaderOf grs) (.byId g.gid) + 8 * j =
      56 + 8 * grs.length + 8 * j from rfl,
      grFile_idEntry grs hfit j hjS _ rfl, hqj]
    exact hent0
  exact internal_getgr_found _ (grHeaderOf grs) _ space j _
    (grFile_header grs hfit) hbs hent

/-- Group lookup by name finds any present record (names pairwise
distinct). -/
theorem grLookup_name_found (grs : List Group)
    (hwf : ∀ q ∈ grs, Group.WF q) (hokA : ∀ q ∈ grs, grOk q)
    (hid32 : ∀ q ∈ grs, q.gid < 2 ^ 32) (hfit : grFit grs)
    (huniq : ∀ q1 ∈ grs, ∀ q2 ∈ grs, q1.name = q2.name → q1 = q2)
    (g : Group) (hg : g ∈ grs) (space : Nat) (hspace : 589823 ≤ space) :
    getgrnamR (some (grFileBytes grs)) g.name space =
      .success (cOfGroup g) := by
  have hlen2 : (grSorted2 grs).length = grs.length := by
    rw [grSorted2, List.length_insertionSort, grSorted1,
      List.length_insertionSort]
  have hmem0 : g ∈ grSorted2 grs :=
    (List.perm_insertionSort grLeName (grSorted1 grs)).mem_iff.mpr
      ((List.perm_insertionSort grLeGid grs).mem_iff.mpr hg)
  obtain ⟨⟨i0, hi0⟩, hgot⟩ := List.mem_iff_get.mp hmem0
  have heq0 : grNameCmp grs g.name i0 = .eq := by
    unfold grNameCmp
    rw [dif_pos hi0]
    show cmpBytes g.name ((grSorted2 grs).get ⟨i0, hi0⟩).name = .eq
    rw [show (grSorted2 grs).get ⟨i0, hi0⟩ = g from hgot]
    exact (cmpBytes_eq_iff _ _).mpr rfl
  obtain ⟨j, hbs2, hj, hcj⟩ := bsearch_finds (u := grs.length)
    (grNameCmp_ha grs g.name)
    (grNameCmp_hb grs g.name) i0 (by rw [← hlen2]; exact hi0) heq0
  have hjS : j < (grSorted2 grs).length := by rw [hlen2]; exact hj
  have hcj2 : cmpBytes g.name ((grSorted2 grs).get ⟨j, hjS⟩).name = .eq := by
    unfold grNameCmp at hcj
    rw [dif_pos hjS] at hcj
    exact hcj
  have hmemj : (grSorted2 grs).get ⟨j, hjS⟩ ∈ grs := by
    have h1 : (grSorted2 grs).get ⟨j, hjS⟩ ∈ grSorted1 grs :=
      (List.perm_insertionSort grLeName (grSorted1 grs)).mem_iff.mp
        (List.get_mem (grSorted2 grs) j hjS)
    exact (List.perm_insertionSort grLeGid grs).mem_iff.mp h1
  have hqj : (grSorted2 grs).get ⟨j, hjS⟩ = g :=
    huniq _ hmemj g hg ((cmpBytes_eq_iff _ _).mp hcj2).symm
  have hagree : ∀ i, 0 ≤ i → i < grs.length →
      grCmpAt (grFileBytes grs) (grHeaderOf grs) (.byName g.name) i =
        grNameCmp grs g.name i := by
    intro i _ hi
    have hiS : i < (grSorted2 grs).length := by rw [hlen2]; exact hi
    rw [grCmpAt_name grs hokA hwf hfit g.name i hiS]
    unfold grNameCmp
    rw [dif_pos hiS]
  have hbs : bsearch (grCmpAt (grFileBytes grs) (grHeaderOf grs)
      (.byName g.name)) 0 grs.length = some j :=
    (bsearch_congr hagree).trans hbs2
  obtain ⟨g0, dpre, dpost, hg0, hkey, hdata, hoff⟩ := grOffs_spec grs g hg
  have hg0g : g0 = g := huniq g0 hg0 g hg (congrArg GroupKey.name hkey)
  have hent0 := grFile_read_at grs g g0 dpre dpost hkey hdata hoff
    (hwf g0 hg0) (hokA g0 hg0) (hid32 g0 hg0) space hspace _ rfl
  rw [hg0g] at hent0
  have hent : entryToGroup (grFileBytes grs)
      (headerSize + (grHeaderOf grs).offData +
        readU64 (grFileBytes grs)
          (headerSize + idxOffOf (grHeaderOf grs) (.byName g.name) + 8 * j))
      space = some (cOfGroup g) := by
    rw [show headerSize + idxOffOf (grHeaderOf grs) (.byName g.name) + 8 * j =
      56 + 16 * grs.length + 8 * j from rfl,
      grFile_nameEntry grs hfit j hjS _ rfl, hqj]
    exact hent0
  exact internal_getgr_found _ (grHeaderOf grs) _ space j _
    (grFile_header grs hfit) hbs hent

/-- Group lookup by an absent gid reports not-found/ENOENT. -/
theorem grLookup_id_notfound (grs : List Group)
    (hwf : ∀ q ∈ grs, Group.WF q) (hokA : ∀ q ∈ grs, grOk q)
    (hfit : grFit grs) (gid : Nat) (habs : ∀ q ∈ grs, q.gid ≠ gid)
    (space : Nat) :
    getgrgidR (some (grFileBytes grs)) gid space = .notfound .ENOENT := by
  have hlen1 : (grSorted1 grs).length = grs.length := by
    rw [grSorted1, List.length_insertionSort]
  cases hbs : bsearch (grCmpAt (grFileBytes grs) (grHeaderOf grs)
      (.byId gid)) 0 grs.length with
  | none =>
    exact internal_getgr_notfound _ (grHeaderOf grs) _ space
      (grFile_header grs hfit) hbs
  | some j =>
    obtain ⟨_, hj, hcj⟩ := bsearch_some hbs
    have hjS : j < (grSorted1 grs).length := by rw [hlen1]; exact hj
    rw [grCmpAt_id grs hokA hwf hfit gid j hjS] at hcj
    have hmemj : (grSorted1 grs).get ⟨j, hjS⟩ ∈ grs :=
      (List.perm_insertionSort grLeGid grs).mem_iff.mp
        (List.get_mem (grSorted1 grs) j hjS)
    exact absurd (compare_eq_iff_eq.mp hcj).symm (habs _ hmemj)

/-- Group lookup by an absent name reports not-found/ENOENT. -/
theorem grLookup_name_notfound (grs : List Group)
    (hwf : ∀ q ∈ grs, Group.WF q) (hokA : ∀ q ∈ grs, grOk q)
    (hfit : grFit grs) (nm : Bytes) (habs : ∀ q ∈ grs, q.name ≠ nm)
    (space : Nat) :
    getgrnamR (some (grFileBytes grs)) nm space = .notfound .ENOENT := by
  have hlen2 : (grSorted2 grs).length = grs.length := by
    rw [grSorted2, List.length_insertionSort, grSorted1,
      List.length_insertionSort]
  cases hbs : bsearch (grCmpAt (grFileBytes grs) (grHeaderOf grs)
      (.byName nm)) 0 grs.length with
  | none =>
    exact internal_getgr_notfound _ (grHeaderOf grs) _ space
      (grFile_header grs hfit) hbs
  | some j =>
    obtain ⟨_, hj, hcj⟩ := bsearch_some hbs
    have hjS : j < (grSorted2 grs).length := by rw [hlen2]; exact hj
    rw [grCmpAt_name grs hokA hwf hfit nm j hjS] at hcj
    have hmemj : (grSorted2 grs).get ⟨j, hjS⟩ ∈ grs := by
      have h1 : (grSorted2 grs).get ⟨j, hjS⟩ ∈ grSorted1 grs :=
        (List.perm_insertionSort grLeName (grSorted1 grs)).mem_iff.mp
          (List.get_mem (grSorted2 grs) j hjS)
      exact (List.perm_insertionSort grLeGid grs).mem_iff.mp h1
    exact absurd ((cmpBytes_eq_iff _ _).mp hcj).symm (habs _ hmemj)

/-! ## Claim C9 -/

/-- Claim C9: a structurally valid cache file with `count = 0` (as the
serializers produce from an empty record list) is accepted by the reader
and never treated as unavailable: every enumeration call — first call or
any later one — reports not-found with errno `ENOENT`, and so does every
lookup by id or by name; no call returns a record. -/
theorem C9_empty_cache_is_valid_and_empty :
    SerializePasswds [] = .ok (pwFileBytes []) ∧
    SerializeGroups [] = .ok (grFileBytes []) ∧
    mapFile (pwFileBytes []) =
      .ok { count := 0, offOrig := 0, offId := 0, offName := 0, offData := 0 } ∧
    mapFile (grFileBytes []) =
      .ok { count := 0, offOrig := 0, offId := 0, offName := 0, offData := 0 } ∧
    (∀ idx space,
      getpwentStep (some (pwFileBytes []))
          { mapped := some (pwFileBytes []), nextIndex := idx } space =
        (.notfound .ENOENT,
          { mapped := some (pwFileBytes []), nextIndex := idx })) ∧
    (∀ space,
      getpwentStep (some (pwFileBytes []))
          { mapped := none, nextIndex := 0 } space =
        (.notfound .ENOENT,
          { mapped := some (pwFileBytes []), nextIndex := 0 })) ∧
    (∀ uid space,
      getpwuidR (some (pwFileBytes [])) uid space = .notfound .ENOENT) ∧
    (∀ name space,
      getpwnamR (some (pwFileBytes [])) name space = .notfound .ENOENT) ∧
    (∀ idx space,
      getgrentStep (some (grFileBytes []))
          { mapped := some (grFileBytes []), nextIndex := idx } space =
        (.notfound .ENOENT,
          { mapped := some (grFileBytes []), nextIndex := idx })) ∧
    (∀ space,
      getgrentStep (some (grFileBytes []))
          { mapped := none, nextIndex := 0 } space =
        (.notfound .ENOENT,
          { mapped := some (grFileBytes []), nextIndex := 0 })) ∧
    (∀ gid space,
      getgrgidR (some (grFileBytes [])) gid space = .notfound .ENOENT) ∧
    (∀ name space,
      getgrnamR (some (grFileBytes [])) name space = .notfound .ENOENT) := by
  have hbs : ∀ cmp : Nat → Ordering, bsearch cmp 0 0 = none := fun cmp => by
    rw [bsearch]
    simp
  have hmapP : mapFile (pwFileBytes []) =
      .ok { count := 0, offOrig := 0, offId := 0, offName := 0,
            offData := 0 } := by
    simpa using pwFile_header [] (by unfold pwFit; decide)
  have hmapG : mapFile (grFileBytes []) =
      .ok { count := 0, offOrig := 0, offId := 0, offName := 0,
            offData := 0 } := by
    simpa using grFile_header [] (by unfold grFit; decide)
  have hcntP : (readHeader (pwFileBytes [])).count = 0 := by
    rw [mapFile_readHeader hmapP]
  have hcntG : (readHeader (grFileBytes [])).count = 0 := by
    rw [mapFile_readHeader hmapG]
  have hstepP : ∀ idx space,
      getpwentStep (some (pwFileBytes []))
          { mapped := some (pwFileBytes []), nextIndex := idx } space =
        (.notfound .ENOENT,
          { mapped := some (pwFileBytes []), nextIndex := idx }) := by
    intro idx space
    rw [getpwentStep_mapped, if_pos (by omega)]
  have hstepG : ∀ idx space,
      getgrentStep (some (grFileBytes []))
          { mapped := some (grFileBytes []), nextIndex := idx } space =
        (.notfound .ENOENT,
          { mapped := some (grFileBytes []), nextIndex := idx }) := by
    intro idx space
    rw [getgrentStep_mapped, if_pos (by omega)]
  refine ⟨SerializePasswds_eq [] (by simp), SerializeGroups_eq [] (by simp),
    hmapP, hmapG, hstepP, ?_, ?_, ?_, hstepG, ?_, ?_, ?_⟩
  · intro space
    have h1 : getpwentStep (some (pwFileBytes []))
        { mapped := none, nextIndex := 0 } space =
        getpwentStep (some (pwFileBytes []))
          { mapped := some (pwFileBytes []), nextIndex := 0 } space := by
      simp only [getpwentStep, hmapP, Except.map]
    rw [h1, hstepP]
  · intro uid space
    simp only [getpwuidR, internal_getpw, hmapP, hbs]
  · intro name space
    simp only [getpwnamR, internal_getpw, hmapP, hbs]
  · intro space
    have h1 : getgrentStep (some (grFileBytes []))
        { mapped := none, nextIndex := 0 } space =
        getgrentStep (some (grFileBytes []))
          { mapped := some (grFileBytes []), nextIndex := 0 } space := by
      simp only [getgrentStep, hmapG, Except.map]
    rw [h1, hstepG]
  · intro gid space
    simp only [getgrgidR, internal_getgr, hmapG, hbs]
  · intro name space
    simp only [getgrnamR, internal_getgr, hmapG, hbs]

/-! ## Claim C7 -/

/-- The enumerator state after `k` repeated `getpwent_r` calls with the
same buffer size. -/
def pwStepN (disk : Option Bytes) (space : Nat) :
    Nat → EnumState → EnumState
  | 0, st => st
  | k + 1, st => pwStepN disk space k (getpwentStep disk st space).2

/-- The enumerator state after `k` repeated `getgrent_r` calls with the
same buffer size. -/
def grStepN (disk : Option Bytes) (space : Nat) :
    Nat → EnumState → EnumState
  | 0, st => st
  | k + 1, st => grStepN disk space k (getgrentStep disk st space).2

theorem getpwentStep_tryagain (disk : Option Bytes) (f : Bytes)
    (i space : Nat) (r : Errno) (st2 : EnumState)
    (h : getpwentStep disk { mapped := some f, nextIndex := i } space =
      (.tryagain r, st2)) :
    r = .ERANGE ∧ st2 = { mapped := some f, nextIndex := i } := by
  have h2 : getpwentStep disk { mapped := some f, nextIndex := i } space =
      getpwentStep (some f) { mapped := some f, nextIndex := i } space := by
    cases disk <;> rfl
  rw [h2, getpwentStep_mapped] at h
  split_ifs at h with hge
  · simp at h
  · rcases hm : entryToPasswd f (headerSize + (readHeader f).offData +
        readU64 f (headerSize + (readHeader f).offOrig + 8 * i)) space with
      _ | p
    · simp only [hm, Prod.mk.injEq, NssResult.tryagain.injEq] at h
      exact ⟨h.1.symm, h.2.symm⟩
    · simp only [hm] at h
      simp at h

theorem getgrentStep_tryagain (disk : Option Bytes) (f : Bytes)
    (i space : Nat) (r : Errno) (st2 : EnumState)
    (h : getgrentStep disk { mapped := some f, nextIndex := i } space =
      (.tryagain r, st2)) :
    r = .ERANGE ∧ st2 = { mapped := some f, nextIndex := i } := by
  have h2 : getgrentStep disk { mapped := some f, nextIndex := i } space =
      getgrentStep (some f) { mapped := some f, nextIndex := i } space := by
    cases disk <;> rfl
  rw [h2, getgrentStep_mapped] at h
  split_ifs at h with hge
  · simp at h
  · rcases hm : entryToGroup f (headerSize + (readHeader f).offData +
        readU64 f (headerSize + (readHeader f).offOrig + 8 * i)) space with
      _ | g
    · simp only [hm, Prod.mk.injEq, NssResult.tryagain.injEq] at h
      exact ⟨h.1.symm, h.2.symm⟩
    · simp only [hm] at h
      simp at h

/-- Claim C7: an enumeration call whose buffer is too small for the
current record returns "try again" with errno `ERANGE` and leaves the
cursor untouched; after any number of consecutive identical too-small
calls the state is still the original one, so a retry with any other
buffer size — in particular a sufficiently large one, which by the
round-trip theorems serves record `next_index` — receives exactly the
record that was due before the failed calls. -/
theorem C7_small_buffer_keeps_cursor :
    (∀ (disk : Option Bytes) (f : Bytes) (i space : Nat) (r : Errno)
        (st2 : EnumState),
      getpwentStep disk { mapped := some f, nextIndex := i } space =
        (.tryagain r, st2) →
      r = .ERANGE ∧ st2 = { mapped := some f, nextIndex := i } ∧
      (∀ k, pwStepN disk space k { mapped := some f, nextIndex := i } =
        { mapped := some f, nextIndex := i }) ∧
      (∀ k space2,
        getpwentStep disk
            (pwStepN disk space k { mapped := some f, nextIndex := i })
            space2 =
          getpwentStep disk { mapped := some f, nextIndex := i } space2)) ∧
    (∀ (f : Bytes) (i space : Nat), i < (readHeader f).count →
      space < readU16 f (headerSize + (readHeader f).offData +
        readU64 f (headerSize + (readHeader f).offOrig + 8 * i) + 24) →
      getpwentStep (some f) { mapped := some f, nextIndex := i } space =
        (.tryagain .ERANGE, { mapped := some f, nextIndex := i })) ∧
    (∀ (disk : Option Bytes) (f : Bytes) (i space : Nat) (r : Errno)
        (st2 : EnumState),
      getgrentStep disk { mapped := some f, nextIndex := i } space =
        (.tryagain r, st2) →
      r = .ERANGE ∧ st2 = { mapped := some f, nextIndex := i } ∧
      (∀ k, grStepN disk space k { mapped := some f, nextIndex := i } =
        { mapped := some f, nextIndex := i }) ∧
      (∀ k space2,
        getgrentStep disk
            (grStepN disk space k { mapped := some f, nextIndex := i })
            space2 =
          getgrentStep disk { mapped := some f, nextIndex := i } space2)) ∧
    (∀ (f : Bytes) (i space : Nat), i < (readHeader f).count →
      space < readU16 f (headerSize + (readHeader f).offData +
          readU64 f (headerSize + (readHeader f).offOrig + 8 * i) + 14) +
        (readU16 f (headerSize + (readHeader f).offData +
          readU64 f (headerSize + (readHeader f).offOrig + 8 * i) + 12) + 1) *
          8 →
      getgrentStep (some f) { mapped := some f, nextIndex := i } space =
        (.tryagain .ERANGE, { mapped := some f, nextIndex := i })) := by
  refine ⟨?_, ?_, ?_, ?_⟩
  · intro disk f i space r st2 h
    obtain ⟨hr, hst⟩ := getpwentStep_tryagain disk f i space r st2 h
    have hfix : ∀ k, pwStepN disk space k
        { mapped := some f, nextIndex := i } =
        { mapped := some f, nextIndex := i } := by
      intro k
      induction k with
      | zero => rfl
      | succ k ih =>
        rw [pwStepN, h, hst, ih]
    exact ⟨hr, hst, hfix, fun k space2 => by rw [hfix k]⟩
  · intro f i space hi hsp
    rw [getpwentStep_mapped, if_neg (by omega)]
    have hnone : entryToPasswd f (headerSize + (readHeader f).offData +
        readU64 f (headerSize + (readHeader f).offOrig + 8 * i)) space =
        none := by
      unfold entryToPasswd
      rw [if_pos (by omega)]
    rw [hnone]
  · intro disk f i space r st2 h
    obtain ⟨hr, hst⟩ := getgrentStep_tryagain disk f i space r st2 h
    have hfix : ∀ k, grStepN disk space k
        { mapped := some f, nextIndex := i } =
        { mapped := some f, nextIndex := i } := by
      intro k
      induction k with
      | zero => rfl
      | succ k ih =>
        rw [grStepN, h, hst, ih]
    exact ⟨hr, hst, hfix, fun k space2 => by rw [hfix k]⟩
  · intro f i space hi hsp
    rw [getgrentStep_mapped, if_neg (by omega)]
    have hnone : entryToGroup f (headerSize + (readHeader f).offData +
        readU64 f (headerSize + (readHeader f).offOrig + 8 * i)) space =
        none := by
      unfold entryToGroup
      rw [if_pos (by omega)]
    rw [hnone]

/-- A one-record passwd input (`"a:x:1:1:::/\n"`, data block 8 bytes). -/
def pwTiny : Passwd :=
  { name := [97], passwd := [120], uid := 1, gid := 1, gecos := [],
    dir := [], shell := [47] }

/-- A one-record group input (`"g:x:1:\n"`, data block 4 bytes). -/
def grTiny : Group :=
  { name := [103], passwd := [120], gid := 1, members := [] }

/-- Witness for C7: on the one-record caches a 3-byte buffer is too
small; the call reports `ERANGE`, five repeated too-small calls leave
the state untouched. -/
theorem C7_small_buffer_keeps_cursor_witness :
    getpwentStep (some (pwFileBytes [pwTiny]))
        { mapped := some (pwFileBytes [pwTiny]), nextIndex := 0 } 3 =
      (.tryagain .ERANGE,
        { mapped := some (pwFileBytes [pwTiny]), nextIndex := 0 }) ∧
    pwStepN (some (pwFileBytes [pwTiny])) 3 5
        { mapped := some (pwFileBytes [pwTiny]), nextIndex := 0 } =
      { mapped := some (pwFileBytes [pwTiny]), nextIndex := 0 } ∧
    getgrentStep (some (grFileBytes [grTiny]))
        { mapped := some (grFileBytes [grTiny]), nextIndex := 0 } 3 =
      (.tryagain .ERANGE,
        { mapped := some (grFileBytes [grTiny]), nextIndex := 0 }) ∧
    grStepN (some (grFileBytes [grTiny])) 3 5
        { mapped := some (grFileBytes [grTiny]), nextIndex := 0 } =
      { mapped := some (grFileBytes [grTiny]), nextIndex := 0 } :=
  ⟨by decide,
   (C7_small_buffer_keeps_cursor.1 (some (pwFileBytes [pwTiny]))
     (pwFileBytes [pwTiny]) 0 3 .ERANGE
     { mapped := some (pwFileBytes [pwTiny]), nextIndex := 0 }
     (by decide)).2.2.1 5,
   by decide,
   (C7_small_buffer_keeps_cursor.2.2.1 (some (grFileBytes [grTiny]))
     (grFileBytes [grTiny]) 0 3 .ERANGE
     { mapped := some (grFileBytes [grTiny]), nextIndex := 0 }
     (by decide)).2.2.1 5⟩

/-! ## Claim C4 -/

/-- Claim C4: `ParsePasswds` and `ParseGroups` are claimed to fail with a
"no newline in last line" error whenever the final record is not
newline-terminated.  `ParseGroups` does; but `ParsePasswds` silently
drops the unterminated last line and returns success — on the input
`"root:x:0:0:root:/root:/bin/zsh"` (the exact input its own test
`TestParsePasswd` feeds it, expecting the error) it returns an empty
record list with no error, while the same shape of input makes
`ParseGroups` fail as specified. -/
theorem C4_unterminated_last_line :
    ParsePasswds (strBytes "root:x:0:0:root:/root:/bin/zsh") =
      .ok [] ∧
    ParseGroups (strBytes "root:x:0:") = .error .noNewline ∧
    ParsePasswds (strBytes "root:x:0:0:root:/root:/bin/zsh\n") =
      .ok [{ name := strBytes "root", passwd := strBytes "x", uid := 0,
             gid := 0, gecos := strBytes "root", dir := strBytes "/root",
             shell := strBytes "/bin/zsh" }] := by
  refine ⟨?_, ?_, ?_⟩ <;> decide

/-! ## Claim C5 -/

theorem padLen_two (l : Nat) : padLen l 2 = l % 2 := by
  unfold padLen
  split_ifs with h <;> omega

/-- A passwd record whose data block is exactly 65535 bytes. -/
def pwBoundaryOk : Passwd :=
  { name := List.replicate 65530 114, passwd := [], uid := 0, gid := 0,
    gecos := [], dir := [], shell := [] }

/-- A passwd record whose data block is exactly 65536 bytes. -/
def pwBoundaryBad : Passwd :=
  { name := List.replicate 65531 114, passwd := [], uid := 0, gid := 0,
    gecos := [], dir := [], shell := [] }

/-- Claim C5: a record serializes successfully exactly when its data
block is at most 65535 bytes (the block is sized by the field lengths
plus the NUL terminators, member-offset table and alignment padding);
the boundary record with a 65535-byte block is accepted and one byte
more is rejected, not truncated. -/
theorem C5_size_limit :
    (∀ p : Passwd, (SerializePasswd p).isSome ↔
      p.name.length + p.passwd.length + p.gecos.length + p.dir.length +
        p.shell.length + 5 ≤ 65535) ∧
    (∀ g : Group, (SerializeGroup g).isSome ↔
      g.name.length + g.passwd.length + 2 +
        (g.name.length + g.passwd.length + 2) % 2 +
        2 * g.members.length +
        (g.members.map (fun m => m.length + 1)).sum ≤ 65535) ∧
    (SerializePasswd pwBoundaryOk).isSome ∧
    SerializePasswd pwBoundaryBad = none := by
  have hpw : ∀ p : Passwd, (SerializePasswd p).isSome ↔
      p.name.length + p.passwd.length + p.gecos.length + p.dir.length +
        p.shell.length + 5 ≤ 65535 := by
    intro p
    have hlen := pwData_length p
    simp only [SerializePasswd]
    split_ifs with h
    · simp only [Option.isSome_none, Bool.false_eq_true, false_iff]
      omega
    · simp only [Option.isSome_some, true_iff]
      omega
  refine ⟨hpw, ?_, ?_, ?_⟩
  · intro g
    have hlen := grData_length_eq g
    have hmems := memsBuf_length g.members
    have hom : grOM g = g.name.length + g.passwd.length + 2 +
        (g.name.length + g.passwd.length + 2) % 2 := by
      unfold grOM grD1
      rw [padLen_two]
      simp
      omega
    simp only [SerializeGroup]
    split_ifs with h
    · simp only [Option.isSome_none, Bool.false_eq_true, false_iff]
      unfold grN at hlen
      omega
    · simp only [Option.isSome_some, true_iff]
      unfold grN at hlen
      omega
  · apply (hpw pwBoundaryOk).mpr
    have h1 : pwBoundaryOk.name.length = 65530 := by
      rw [show pwBoundaryOk.name = List.replicate 65530 114 from rfl,
        List.length_replicate]
    have h2 : pwBoundaryOk.passwd.length = 0 := rfl
    have h3 : pwBoundaryOk.gecos.length = 0 := rfl
    have h4 : pwBoundaryOk.dir.length = 0 := rfl
    have h5 : pwBoundaryOk.shell.length = 0 := rfl
    omega
  · have hbad : ¬ (SerializePasswd pwBoundaryBad).isSome := by
      rw [hpw]
      have h1 : pwBoundaryBad.name.length = 65531 := by
        rw [show pwBoundaryBad.name = List.replicate 65531 114 from rfl,
          List.length_replicate]
      have h2 : pwBoundaryBad.passwd.length = 0 := rfl
      have h3 : pwBoundaryBad.gecos.length = 0 := rfl
      have h4 : pwBoundaryBad.dir.length = 0 := rfl
      have h5 : pwBoundaryBad.shell.length = 0 := rfl
      omega
    exact Option.not_isSome_iff_eq_none.mp hbad

/-! ## Claim C8 -/

/-- Claim C8: if fetching any configured file fails (network error,
bad status, parse/serialize failure, empty body — any `fetchPhase`
error), the run aborts before the deploy phase: no deploy target on
disk changes and the state file is not rewritten.  `mainFetch` returns
the world unchanged. -/
theorem C8_fetch_failure_changes_nothing (http : HttpOracle)
    (files : List File) (w : World) (e : FetchErr)
    (h : fetchPhase http files
      (w.stateFile.getD { lastModified := [], checksum := [] })
      w.targets = .error e) :
    mainFetch http files w = (w, some e) := by
  simp only [mainFetch, handleFiles, h]

/-- Witness for C8: a single configured file whose server answers 404;
the target file and the absent state file stay untouched. -/
theorem C8_fetch_failure_changes_nothing_witness :
    fetchPhase (fun _ _ => .ok { status := 404, body := [], lastModifiedHdr := none })
      [{ ftype := .passwd, url := "u", path := "p" }]
      (({ targets := [("p", [1])], stateFile := none } : World).stateFile.getD
        { lastModified := [], checksum := [] })
      ({ targets := [("p", [1])], stateFile := none } : World).targets =
      .error (.statusCode 404) ∧
    mainFetch (fun _ _ => .ok { status := 404, body := [], lastModifiedHdr := none })
      [{ ftype := .passwd, url := "u", path := "p" }]
      { targets := [("p", [1])], stateFile := none } =
      ({ targets := [("p", [1])], stateFile := none }, some (.statusCode 404)) :=
  ⟨by decide, C8_fetch_failure_changes_nothing _ _ _ _ (by decide)⟩

/-! ## Claim C10 -/

theorem splitOnByte_no_sep (sep : Nat) (b : Bytes) (h : ∀ c ∈ b, c ≠ sep) :
    splitOnByte sep b = [b] := by
  induction b with
  | nil => rfl
  | cons c cs ih =>
    rw [splitOnByte, ih (fun x hx => h x (by simp [hx]))]
    simp [h c (by simp)]

theorem splitInput_line (l : Bytes) (h : ∀ c ∈ l, c ≠ 10) :
    splitInput (l ++ [10]) = ([l], []) := by
  induction l with
  | nil => rfl
  | cons c cs ih =>
    rw [List.cons_append, splitInput, ih (fun x hx => h x (by simp [hx]))]
    simp [h c (by simp)]

theorem parseGroupLine_eq (t a b c d : Bytes) (h : splitOnByte 58 t = [a, b, c, d])
    (v : Nat) (hv : parseUint64 c = some v) :
    parseGroupLine t =
      .ok { name := a, passwd := b, gid := v,
            members := if d.dropLast = [] then [] else splitOnByte 44 d.dropLast } := by
  have e0 : ∀ p, (splitOnByte 58 t).get ⟨0, p⟩ = a := fun p => by
    rw [List.get_of_eq h]
    rfl
  have e1 : ∀ p, (splitOnByte 58 t).get ⟨1, p⟩ = b := fun p => by
    rw [List.get_of_eq h]
    rfl
  have e2 : ∀ p, (splitOnByte 58 t).get ⟨2, p⟩ = c := fun p => by
    rw [List.get_of_eq h]
    rfl
  have e3 : ∀ p, (splitOnByte 58 t).get ⟨3, p⟩ = d := fun p => by
    rw [List.get_of_eq h]
    rfl
  unfold parseGroupLine
  rw [dif_pos (show (splitOnByte 58 t).length = 4 by
    rw [h]
    rfl)]
  simp only [e0, e1, e2, e3, hv]
  rfl

/-- Claim C10: `ParseGroups` keeps empty member names produced by
consecutive or trailing commas: only a completely empty fourth field
yields an empty members list, a non-empty field is split at every
comma. -/
theorem C10_group_member_splitting (f4 : Bytes)
    (hc : ∀ c ∈ f4, c ≠ 58 ∧ c ≠ 10) :
    ParseGroups (strBytes "g:x:1:" ++ (f4 ++ [10])) =
      .ok [{ name := [103], passwd := [120], gid := 1,
             members := if f4 = [] then [] else splitOnByte 44 f4 }] := by
  have hpre10 : ∀ c ∈ strBytes "g:x:1:", c ≠ 10 := by decide
  have hline : splitInput ((strBytes "g:x:1:" ++ f4) ++ [10]) =
      ([strBytes "g:x:1:" ++ f4], []) := by
    apply splitInput_line
    intro c hc2
    rcases List.mem_append.mp hc2 with h1 | h1
    · exact hpre10 c h1
    · exact (hc c h1).2
  have hsplit4 : splitOnByte 58 (f4 ++ [10]) = [f4 ++ [10]] := by
    apply splitOnByte_no_sep
    intro c hc2
    rcases List.mem_append.mp hc2 with h1 | h1
    · exact (hc c h1).1
    · simp at h1
      omega
  have hlinesplit : splitOnByte 58 ((strBytes "g:x:1:" ++ f4) ++ [10]) =
      [[103], [120], [49], f4 ++ [10]] := by
    rw [show (strBytes "g:x:1:" ++ f4) ++ [10] =
      103 :: 58 :: 120 :: 58 :: 49 :: 58 :: (f4 ++ [10]) from by
      simp [strBytes, List.append_assoc]]
    rw [splitOnByte, splitOnByte, splitOnByte, splitOnByte, splitOnByte,
      splitOnByte, hsplit4]
    simp
  unfold ParseGroups
  rw [show strBytes "g:x:1:" ++ (f4 ++ [10]) =
    (strBytes "g:x:1:" ++ f4) ++ [10] from by simp [List.append_assoc]]
  simp only [hline]
  simp only [List.mapM_cons, List.mapM_nil]
  rw [parseGroupLine_eq ((strBytes "g:x:1:" ++ f4) ++ [10]) [103] [120] [49]
    (f4 ++ [10]) hlinesplit 1 rfl]
  simp only [List.dropLast_concat]
  rfl

/-- Witness for C10: the line `"g:x:1:a,\n"` yields exactly the two
members `"a"` and `""`. -/
theorem C10_group_member_splitting_witness :
    (∀ c ∈ [97, 44], c ≠ 58 ∧ c ≠ 10) ∧
    ParseGroups (strBytes "g:x:1:" ++ ([97, 44] ++ [10])) =
      .ok [{ name := [103], passwd := [120], gid := 1,
             members := [[97], []] }] :=
  ⟨by decide, by
    rw [C10_group_member_splitting [97, 44] (by decide)]
    rfl⟩

/-! ## Claim C1 -/

instance : DecidablePred NulFree := fun b => by
  unfold NulFree
  infer_instance

instance : DecidablePred Passwd.WF := fun p => by
  unfold Passwd.WF
  infer_instance

instance : DecidablePred Group.WF := fun g => by
  unfold Group.WF
  infer_instance

instance : DecidablePred pwFit := fun pws => by
  unfold pwFit
  infer_instance

instance : DecidablePred grFit := fun grs => by
  unfold grFit
  infer_instance

/-- Serialization success implies every record was within the size
limit. -/
theorem serPwRecs_ok_imp (ps : List Passwd) :
    ∀ (data0 : Bytes) (off0 : Passwd → Nat) (r : Bytes × (Passwd → Nat)),
    serPwRecs ps data0 off0 = .ok r → ∀ p ∈ ps, pwOk p := by
  induction ps with
  | nil =>
    intro data0 off0 r _ p hp
    simp at hp
  | cons q qs ih =>
    intro data0 off0 r h p hp
    rw [serPwRecs] at h
    cases hs : SerializePasswd q with
    | none =>
      rw [hs] at h
      exact absurd h (by simp)
    | some x =>
      rw [hs] at h
      rcases List.mem_cons.mp hp with he | hm
      · subst he
        simp only [SerializePasswd] at hs
        split_ifs at hs with hbig
        unfold pwOk
        omega
      · exact ih _ _ r h p hm

theorem serGrRecs_ok_imp (gs : List Group) :
    ∀ (data0 : Bytes) (off0 : GroupKey → Nat) (r : Bytes × (GroupKey → Nat)),
    serGrRecs gs data0 off0 = .ok r → ∀ g ∈ gs, grOk g := by
  induction gs with
  | nil =>
    intro data0 off0 r _ g hg
    simp at hg
  | cons q qs ih =>
    intro data0 off0 r h g hg
    rw [serGrRecs] at h
    cases hs : SerializeGroup q with
    | none =>
      rw [hs] at h
      exact absurd h (by simp)
    | some x =>
      rw [hs] at h
      rcases List.mem_cons.mp hg with he | hm
      · subst he
        simp only [SerializeGroup] at hs
        split_ifs at hs with hbig
        unfold grOk
        omega
      · exact ih _ _ r h g hm

theorem SerializePasswds_ok_imp {pws : List Passwd} {f : Bytes}
    (h : SerializePasswds pws = .ok f) : ∀ p ∈ pws, pwOk p := by
  unfold SerializePasswds at h
  cases hs : serPwRecs pws [] (fun _ => 0) with
  | error e =>
    rw [hs] at h
    exact absurd h (by simp)
  | ok r => exact serPwRecs_ok_imp pws _ _ r hs

theorem SerializeGroups_ok_imp {grs : List Group} {f : Bytes}
    (h : SerializeGroups grs = .ok f) : ∀ g ∈ grs, grOk g := by
  unfold SerializeGroups at h
  cases hs : serGrRecs grs [] (fun _ => 0) with
  | error e =>
    rw [hs] at h
    exact absurd h (by simp)
  | ok r => exact serGrRecs_ok_imp grs _ _ r hs

/-- A record whose uid does not fit `uid_t`. -/
def pwHuge : Passwd :=
  { name := [97], passwd := [120], uid := 2 ^ 32, gid := 0, gecos := [],
    dir := [], shell := [] }

/-- Two distinct groups whose comma-joined member keys collide. -/
def gColA : Group :=
  { name := [103], passwd := [120], gid := 1, members := [[97, 44, 98]] }

def gColB : Group :=
  { name := [103], passwd := [120], gid := 1, members := [[97], [98]] }

set_option maxRecDepth 10000 in
/-- Counterexample to claim C1 as stated: two successfully serialized
inputs whose read-back differs from the input.  A 64-bit uid is
truncated by the reader's `uid_t` cast (`2^32` reads back as `0`), and
two distinct groups whose member lists join to the same comma-separated
string collide in the offsets map, so enumeration returns the last
record twice instead of the two inputs. -/
theorem C1_counterexample :
    SerializePasswds [pwHuge] = .ok (pwFileBytes [pwHuge]) ∧
    pwEnumFrom (some (pwFileBytes [pwHuge])) 65535 1
        { mapped := none, nextIndex := 0 } =
      [.success { pw_uid := 0, pw_gid := 0, pw_name := [97],
                  pw_passwd := [120], pw_gecos := [], pw_dir := [],
                  pw_shell := [] }] ∧
    pwHuge.uid = 2 ^ 32 ∧ (0 : Nat) ≠ 2 ^ 32 ∧
    toKey gColA = toKey gColB ∧ gColA ≠ gColB ∧
    SerializeGroups [gColA, gColB] = .ok (grFileBytes [gColA, gColB]) ∧
    grEnumFrom (some (grFileBytes [gColA, gColB])) 589823 2
        { mapped := none, nextIndex := 0 } =
      [.success (cOfGroup gColB), .success (cOfGroup gColB)] := by
  refine ⟨?_, ?_, ?_, ?_, ?_, ?_, ?_, ?_⟩ <;> decide

/-- Claim C1 (corrected): the round trip is exact provided the ids fit
the C types `uid_t`/`gid_t` (32 bits) and no two distinct group records
share the comma-joined `GroupKey`; the fields are NUL-free C strings,
the file fits the `uint64` offsets, and the reader's buffer is large
enough (65535 bytes always suffices for passwd, 589823 for group). -/
theorem C1_serialize_then_read_roundtrip :
    (∀ (pws : List Passwd) (f : Bytes),
      (∀ p ∈ pws, Passwd.WF p) →
      (∀ p ∈ pws, p.uid < 2 ^ 32 ∧ p.gid < 2 ^ 32) → pwFit pws →
      SerializePasswds pws = .ok f →
      pwEnumFrom (some f) 65535 pws.length
          { mapped := none, nextIndex := 0 } =
        pws.map (fun p => .success (cOfPasswd p))) ∧
    (∀ (grs : List Group) (f : Bytes),
      (∀ g ∈ grs, Group.WF g) →
      (∀ g ∈ grs, g.gid < 2 ^ 32) → grFit grs →
      (∀ g1 ∈ grs, ∀ g2 ∈ grs, toKey g1 = toKey g2 → g1 = g2) →
      SerializeGroups grs = .ok f →
      grEnumFrom (some f) 589823 grs.length
          { mapped := none, nextIndex := 0 } =
        grs.map (fun g => .success (cOfGroup g))) := by
  constructor
  · intro pws f hwf hid hfit hser
    have hok := SerializePasswds_ok_imp hser
    have hf : f = pwFileBytes pws := by
      rw [SerializePasswds_eq pws hok] at hser
      exact (Except.ok.injEq _ _).mp hser.symm
    subst hf
    rw [pwEnumFrom_start (pwFileBytes pws) 65535 pws.length 0 _
      (pwFile_header pws hfit)]
    have := pwEnumFrom_spec pws hwf hok hid hfit 65535 le_rfl
      pws.length 0 (by omega)
    simpa using this
  · intro grs f hwf hid hfit hinj hser
    have hok := SerializeGroups_ok_imp hser
    have hf : f = grFileBytes grs := by
      rw [SerializeGroups_eq grs hok] at hser
      exact (Except.ok.injEq _ _).mp hser.symm
    subst hf
    rw [grEnumFrom_start (grFileBytes grs) 589823 grs.length 0 _
      (grFile_header grs hfit)]
    have := grEnumFrom_spec grs hwf hok hid hfit hinj 589823 le_rfl
      grs.length 0 (by omega)
    simpa using this

/-- Witness for C1: the one-record caches round-trip exactly. -/
theorem C1_serialize_then_read_roundtrip_witness :
    SerializePasswds [pwTiny] = .ok (pwFileBytes [pwTiny]) ∧
    pwEnumFrom (some (pwFileBytes [pwTiny])) 65535 1
        { mapped := none, nextIndex := 0 } =
      [pwTiny].map (fun p => .success (cOfPasswd p)) ∧
    SerializeGroups [grTiny] = .ok (grFileBytes [grTiny]) ∧
    grEnumFrom (some (grFileBytes [grTiny])) 589823 1
        { mapped := none, nextIndex := 0 } =
      [grTiny].map (fun g => .success (cOfGroup g)) :=
  ⟨by decide,
   C1_serialize_then_read_roundtrip.1 [pwTiny] (pwFileBytes [pwTiny])
     (by decide) (by decide) (by decide) (by decide),
   by decide,
   C1_serialize_then_read_roundtrip.2 [grTiny] (grFileBytes [grTiny])
     (by decide) (by decide) (by decide) (by decide) (by decide)⟩

/-! ## Claim C3 -/

/-- Padding never reaches the alignment. -/
theorem padLen_lt (l a : Nat) (ha : 0 < a) : padLen l a < a := by
  unfold padLen
  split_ifs with h <;> omega

set_option maxRecDepth 10000 in
/-- Counterexample to claim C3 as stated: duplicating a record does
write two records and one index entry per occurrence, but the entries
point at the SAME offset — that of the last copy — because the offsets
map is keyed by the record value.  Both entries of every index of
`[pwTiny, pwTiny]` hold offset 40. -/
theorem C3_counterexample :
    SerializePasswds [pwTiny, pwTiny] = .ok (pwFileBytes [pwTiny, pwTiny]) ∧
    pwDataRegion [pwTiny, pwTiny] = pwRec pwTiny ++ pwRec pwTiny ∧
    (pwRec pwTiny).length = 40 ∧
    pwIdxOrig [pwTiny, pwTiny] = [40, 40] ∧
    pwIdxId [pwTiny, pwTiny] = [40, 40] ∧
    pwIdxName [pwTiny, pwTiny] = [40, 40] ∧
    grIdxOrig [grTiny, grTiny] = [24, 24] ∧
    ¬ (pwIdxOrig [pwTiny, pwTiny]).getD 0 0 ≠
        (pwIdxOrig [pwTiny, pwTiny]).getD 1 0 := by
  refine ⟨?_, ?_, ?_, ?_, ?_, ?_, ?_, ?_⟩ <;> decide

/-- Claim C3 (corrected): duplicating a record writes two records into
the data region and gives every index one entry per occurrence, but all
those entries point at the offset of the LAST copy (the offsets map is
keyed by the record value).  Enumeration still returns one success per
occurrence and binary search still materialises the shared record. -/
theorem C3_duplicate_records (p : Passwd) (hwf : Passwd.WF p)
    (hok : pwOk p) (hid : p.uid < 2 ^ 32 ∧ p.gid < 2 ^ 32) :
    pwDataRegion [p, p] = pwRec p ++ pwRec p ∧
    pwIdxOrig [p, p] = [(pwRec p).length, (pwRec p).length] ∧
    pwIdxId [p, p] = [(pwRec p).length, (pwRec p).length] ∧
    pwIdxName [p, p] = [(pwRec p).length, (pwRec p).length] ∧
    pwEnumFrom (some (pwFileBytes [p, p])) 65535 2
        { mapped := some (pwFileBytes [p, p]), nextIndex := 0 } =
      [.success (cOfPasswd p), .success (cOfPasswd p)] ∧
    getpwuidR (some (pwFileBytes [p, p])) p.uid 65535 =
      .success (cOfPasswd p) := by
  have hdata : pwDataRegion [p, p] = pwRec p ++ pwRec p := by
    simp [pwDataRegion]
  have hfit : pwFit [p, p] := by
    unfold pwFit
    rw [hdata]
    have h1 := pwRec_length p hok
    have h2 : (pwData p).length ≤ 65535 := hok
    have h3 := padLen_lt (26 + (pwData p).length) 8 (by omega)
    simp only [List.length_append, List.length_cons, List.length_nil]
    omega
  have hoffs : pwOffs [p, p] p = (pwRec p).length := by
    simp [pwOffs, pwFinalOff]
  have hle1 : pwLeUid p p := le_rfl
  have hle2 : pwLeName p p := by
    unfold pwLeName bytesLe
    rw [(cmpBytes_eq_iff _ _).mpr rfl]
    simp
  have hs1 : pwSorted1 [p, p] = [p, p] := by
    unfold pwSorted1
    simp [List.insertionSort, List.orderedInsert, hle1]
  have hs2 : pwSorted2 [p, p] = [p, p] := by
    unfold pwSorted2
    rw [hs1]
    simp [List.insertionSort, List.orderedInsert, hle2]
  have hAll : ∀ q ∈ [p, p], q = p := by
    intro q hq
    rcases List.mem_cons.mp hq with h | h
    · exact h
    · simpa using h
  refine ⟨hdata, ?_, ?_, ?_, ?_, ?_⟩
  · simp [pwIdxOrig, hoffs]
  · rw [pwIdxId, hs1]
    simp [hoffs]
  · rw [pwIdxName, hs2]
    simp [hoffs]
  · have := pwEnumFrom_spec [p, p]
      (fun q hq => (hAll q hq) ▸ hwf)
      (fun q hq => (hAll q hq) ▸ hok)
      (fun q hq => (hAll q hq) ▸ hid) hfit 65535 le_rfl 2 0 (by simp)
    simpa using this
  · exact pwLookup_id_found [p, p]
      (fun q hq => (hAll q hq) ▸ hwf)
      (fun q hq => (hAll q hq) ▸ hok)
      (fun q hq => (hAll q hq) ▸ hid) hfit
      (fun q1 h1 q2 h2 _ => by rw [hAll q1 h1, hAll q2 h2])
      p (by simp) 65535 le_rfl

/-- Witness for C3: the duplicated tiny record. -/
theorem C3_duplicate_records_witness :
    pwDataRegion [pwTiny, pwTiny] = pwRec pwTiny ++ pwRec pwTiny ∧
    pwIdxId [pwTiny, pwTiny] =
      [(pwRec pwTiny).length, (pwRec pwTiny).length] ∧
    pwEnumFrom (some (pwFileBytes [pwTiny, pwTiny])) 65535 2
        { mapped := some (pwFileBytes [pwTiny, pwTiny]), nextIndex := 0 } =
      [.success (cOfPasswd pwTiny), .success (cOfPasswd pwTiny)] ∧
    getpwuidR (some (pwFileBytes [pwTiny, pwTiny])) pwTiny.uid 65535 =
      .success (cOfPasswd pwTiny) := by
  obtain ⟨h1, h2, h3, h4, h5, h6⟩ := C3_duplicate_records pwTiny
    (by decide) (by decide) (by decide)
  exact ⟨h1, h3, h5, h6⟩

/-! ## Claim C2 -/

/-- Two distinct records sharing uid 7. -/
def pwDupA : Passwd :=
  { name := [97], passwd := [120], uid := 7, gid := 7, gecos := [],
    dir := [], shell := [47] }

def pwDupB : Passwd :=
  { name := [98], passwd := [120], uid := 7, gid := 7, gecos := [],
    dir := [], shell := [47] }

set_option maxRecDepth 10000 in
/-- Counterexample to claim C2 as stated: when two distinct records
share a uid, lookup by that uid can return only one of them — here it
materialises the second record, so for the first record the claimed
"success with r's contents" is false. -/
theorem C2_counterexample :
    SerializePasswds [pwDupA, pwDupB] = .ok (pwFileBytes [pwDupA, pwDupB]) ∧
    pwDupA.uid = 7 ∧ pwDupB.uid = 7 ∧ pwDupA ∈ [pwDupA, pwDupB] ∧
    getpwuidR (some (pwFileBytes [pwDupA, pwDupB])) 7 65535 =
      .success (cOfPasswd pwDupB) ∧
    cOfPasswd pwDupB ≠ cOfPasswd pwDupA := by
  refine ⟨by decide, by decide, by decide, by decide, ?_, by decide⟩
  have hc : pwCmpAt (pwFileBytes [pwDupA, pwDupB])
      (pwHeaderOf [pwDupA, pwDupB]) (.byId 7) 1 = .eq := by decide
  have hbs : bsearch (pwCmpAt (pwFileBytes [pwDupA, pwDupB])
      (pwHeaderOf [pwDupA, pwDupB]) (.byId 7)) 0 2 = some 1 := by
    rw [bsearch]
    simp [hc]
  exact internal_getpw_found _ (pwHeaderOf [pwDupA, pwDupB]) _ 65535 1 _
    (pwFile_header _ (by decide)) hbs (by decide)

/-- Claim C2 (corrected): in a serialized cache whose ids fit the C
types and whose uids (resp. gids, names) are pairwise distinct, lookup
by a present record's id or name succeeds and materialises exactly that
record's contents; lookup by an id or name occurring in no record
reports not-found with errno ENOENT. -/
theorem C2_lookup_matches_records :
    (∀ (pws : List Passwd) (space : Nat),
      (∀ q ∈ pws, Passwd.WF q) → (∀ q ∈ pws, pwOk q) →
      (∀ q ∈ pws, q.uid < 2 ^ 32 ∧ q.gid < 2 ^ 32) → pwFit pws →
      65535 ≤ space →
      ((∀ q1 ∈ pws, ∀ q2 ∈ pws, q1.uid = q2.uid → q1 = q2) →
        ∀ p ∈ pws, getpwuidR (some (pwFileBytes pws)) p.uid space =
          .success (cOfPasswd p)) ∧
      ((∀ q1 ∈ pws, ∀ q2 ∈ pws, q1.name = q2.name → q1 = q2) →
        ∀ p ∈ pws, getpwnamR (some (pwFileBytes pws)) p.name space =
          .success (cOfPasswd p))) ∧
    (∀ (pws : List Passwd) (space : Nat),
      (∀ q ∈ pws, Passwd.WF q) → (∀ q ∈ pws, pwOk q) → pwFit pws →
      (∀ uid, (∀ q ∈ pws, q.uid ≠ uid) →
        getpwuidR (some (pwFileBytes pws)) uid space = .notfound .ENOENT) ∧
      (∀ nm, (∀ q ∈ pws, q.name ≠ nm) →
        getpwnamR (some (pwFileBytes pws)) nm space = .notfound .ENOENT)) ∧
    (∀ (grs : List Group) (space : Nat),
      (∀ q ∈ grs, Group.WF q) → (∀ q ∈ grs, grOk q) →
      (∀ q ∈ grs, q.gid < 2 ^ 32) → grFit grs →
      589823 ≤ space →
      ((∀ q1 ∈ grs, ∀ q2 ∈ grs, q1.gid = q2.gid → q1 = q2) →
        ∀ g ∈ grs, getgrgidR (some (grFileBytes grs)) g.gid space =
          .success (cOfGroup g)) ∧
      ((∀ q1 ∈ grs, ∀ q2 ∈ grs, q1.name = q2.name → q1 = q2) →
        ∀ g ∈ grs, getgrnamR (some (grFileBytes grs)) g.name space =
          .success (cOfGroup g))) ∧
    (∀ (grs : List Group) (space : Nat),
      (∀ q ∈ grs, Group.WF q) → (∀ q ∈ grs, grOk q) → grFit grs →
      (∀ gid, (∀ q ∈ grs, q.gid ≠ gid) →
        getgrgidR (some (grFileBytes grs)) gid space = .notfound .ENOENT) ∧
      (∀ nm, (∀ q ∈ grs, q.name ≠ nm) →
        getgrnamR (some (grFileBytes grs)) nm space = .notfound .ENOENT)) := by
  refine ⟨?_, ?_, ?_, ?_⟩
  · intro pws space hwf hok hid hfit hspace
    exact ⟨fun huniq p hp =>
        pwLookup_id_found pws hwf hok hid hfit huniq p hp space hspace,
      fun huniq p hp =>
        pwLookup_name_found pws hwf hok hid hfit huniq p hp space hspace⟩
  · intro pws space hwf hok hfit
    exact ⟨fun uid habs =>
        pwLookup_id_notfound pws hwf hok hfit uid habs space,
      fun nm habs => pwLookup_name_notfound pws hwf hok hfit nm habs space⟩
  · intro grs space hwf hok hid hfit hspace
    exact ⟨fun huniq g hg =>
        grLookup_id_found grs hwf hok hid hfit huniq g hg space hspace,
      fun huniq g hg =>
        grLookup_name_found grs hwf hok hid hfit huniq g hg space hspace⟩
  · intro grs space hwf hok hfit
    exact ⟨fun gid habs =>
        grLookup_id_notfound grs hwf hok hfit gid habs space,
      fun nm habs => grLookup_name_notfound grs hwf hok hfit nm habs space⟩

/-- Witness for C2: lookups on the one-record caches. -/
theorem C2_lookup_matches_records_witness :
    getpwuidR (some (pwFileBytes [pwTiny])) pwTiny.uid 65535 =
      .success (cOfPasswd pwTiny) ∧
    getpwnamR (some (pwFileBytes [pwTiny])) pwTiny.name 65535 =
      .success (cOfPasswd pwTiny) ∧
    getpwuidR (some (pwFileBytes [pwTiny])) 2 65535 = .notfound .ENOENT ∧
    getgrgidR (some (grFileBytes [grTiny])) grTiny.gid 589823 =
      .success (cOfGroup grTiny) ∧
    getgrnamR (some (grFileBytes [grTiny])) grTiny.name 589823 =
      .success (cOfGroup grTiny) ∧
    getgrnamR (some (grFileBytes [grTiny])) [104] 589823 =
      .notfound .ENOENT :=
  ⟨(C2_lookup_matches_records.1 [pwTiny] 65535 (by decide) (by decide)
      (by decide) (by decide) le_rfl).1 (by decide) pwTiny (by simp),
   (C2_lookup_matches_records.1 [pwTiny] 65535 (by decide) (by decide)
      (by decide) (by decide) le_rfl).2 (by decide) pwTiny (by simp),
   (C2_lookup_matches_records.2.1 [pwTiny] 65535 (by decide) (by decide)
      (by decide)).1 2 (by decide),
   (C2_lookup_matches_records.2.2.1 [grTiny] 589823 (by decide) (by decide)
      (by decide) (by decide) le_rfl).1 (by decide) grTiny (by simp),
   (C2_lookup_matches_records.2.2.1 [grTiny] 589823 (by decide) (by decide)
      (by decide) (by decide) le_rfl).2 (by decide) grTiny (by simp),
   (C2_lookup_matches_records.2.2.2 [grTiny] 589823 (by decide) (by decide)
      (by decide)).2 [104] (by decide)⟩

/-! ## Claim C6 -/

/-- A second record, larger uid/gid and name than `pwTiny`/`grTiny`. -/
def pwTiny2 : Passwd :=
  { name := [98], passwd := [120], uid := 2, gid := 2, gecos := [],
    dir := [], shell := [47] }

def grTiny2 : Group :=
  { name := [104], passwd := [120], gid := 2, members := [] }

set_option maxRecDepth 10000 in
/-- Counterexample to claim C6 as stated: for groups the orig-index does
NOT always list the records in input order.  On the input
`[gColA, gColB]` — two distinct records whose member lists join to the
same comma-separated `GroupKey` — the offsets map overwrites the first
record's offset, so both orig-index entries hold the LAST record's
offset 32, and following entry 0 materialises `gColB`, not the first
input record `gColA`. -/
theorem C6_counterexample :
    SerializeGroups [gColA, gColB] = .ok (grFileBytes [gColA, gColB]) ∧
    grIdxOrig [gColA, gColB] = [32, 32] ∧
    readU64 (grFileBytes [gColA, gColB]) (56 + 8 * 0) = 32 ∧
    entryToGroup (grFileBytes [gColA, gColB]) (56 + 24 * 2 +
      readU64 (grFileBytes [gColA, gColB]) (56 + 8 * 0)) 589823 =
      some (cOfGroup gColB) ∧
    cOfGroup gColB ≠ cOfGroup gColA := by
  refine ⟨?_, ?_, ?_, ?_, ?_⟩ <;> decide

/-- Claim C6 (corrected): in every serialized cache the id-index lists
the records in ascending uid (passwd) / gid (group) order and the
name-index in ascending byte-wise name order; the orig-index lists the
records in input order — entry `i` materialises input record `i` — for
passwd unconditionally and for group provided no two distinct records
share the comma-joined `GroupKey` (otherwise every entry of a colliding
key points at the last record with that key).  All read back from the
file bytes themselves. -/
theorem C6_indices_sorted (pws : List Passwd) (grs : List Group)
    (hwfP : ∀ q ∈ pws, Passwd.WF q) (hokP : ∀ q ∈ pws, pwOk q)
    (hidP : ∀ q ∈ pws, q.uid < 2 ^ 32 ∧ q.gid < 2 ^ 32) (hfitP : pwFit pws)
    (hwfG : ∀ q ∈ grs, Group.WF q) (hokG : ∀ q ∈ grs, grOk q)
    (hidG : ∀ q ∈ grs, q.gid < 2 ^ 32) (hfitG : grFit grs) :
    (∀ i j, i ≤ j → j < pws.length →
      readU64 (pwFileBytes pws) (56 + 24 * pws.length +
        readU64 (pwFileBytes pws) (56 + 8 * pws.length + 8 * i)) ≤
      readU64 (pwFileBytes pws) (56 + 24 * pws.length +
        readU64 (pwFileBytes pws) (56 + 8 * pws.length + 8 * j))) ∧
    (∀ i j, i ≤ j → j < pws.length →
      bytesLe
        (cstr (pwFileBytes pws) (56 + 24 * pws.length +
          readU64 (pwFileBytes pws) (56 + 16 * pws.length + 8 * i) + 26))
        (cstr (pwFileBytes pws) (56 + 24 * pws.length +
          readU64 (pwFileBytes pws) (56 + 16 * pws.length + 8 * j) + 26))) ∧
    (∀ i (hi : i < pws.length),
      readU64 (pwFileBytes pws) (56 + 8 * i) =
        pwOffs pws (pws.get ⟨i, hi⟩) ∧
      entryToPasswd (pwFileBytes pws) (56 + 24 * pws.length +
        readU64 (pwFileBytes pws) (56 + 8 * i)) 65535 =
        some (cOfPasswd (pws.get ⟨i, hi⟩))) ∧
    (∀ i j, i ≤ j → j < grs.length →
      readU64 (grFileBytes grs) (56 + 24 * grs.length +
        readU64 (grFileBytes grs) (56 + 8 * grs.length + 8 * i)) ≤
      readU64 (grFileBytes grs) (56 + 24 * grs.length +
        readU64 (grFileBytes grs) (56 + 8 * grs.length + 8 * j))) ∧
    (∀ i j, i ≤ j → j < grs.length →
      bytesLe
        (cstr (grFileBytes grs) (56 + 24 * grs.length +
          readU64 (grFileBytes grs) (56 + 16 * grs.length + 8 * i) + 16))
        (cstr (grFileBytes grs) (56 + 24 * grs.length +
          readU64 (grFileBytes grs) (56 + 16 * grs.length + 8 * j) + 16))) ∧
    ((∀ g1 ∈ grs, ∀ g2 ∈ grs, toKey g1 = toKey g2 → g1 = g2) →
      ∀ i (hi : i < grs.length),
        readU64 (grFileBytes grs) (56 + 8 * i) =
          grOffs grs (toKey (grs.get ⟨i, hi⟩)) ∧
        entryToGroup (grFileBytes grs) (56 + 24 * grs.length +
          readU64 (grFileBytes grs) (56 + 8 * i)) 589823 =
          some (cOfGroup (grs.get ⟨i, hi⟩))) := by
  have hlen1P : (pwSorted1 pws).length = pws.length := by
    rw [pwSorted1, List.length_insertionSort]
  have hlen2P : (pwSorted2 pws).length = pws.length := by
    rw [pwSorted2, List.length_insertionSort, pwSorted1,
      List.length_insertionSort]
  have hlen1G : (grSorted1 grs).length = grs.length := by
    rw [grSorted1, List.length_insertionSort]
  have hlen2G : (grSorted2 grs).length = grs.length := by
    rw [grSorted2, List.length_insertionSort, grSorted1,
      List.length_insertionSort]
  have hmem1P : ∀ (i : Nat) (hi : i < (pwSorted1 pws).length),
      (pwSorted1 pws).get ⟨i, hi⟩ ∈ pws := fun i hi =>
    (List.perm_insertionSort pwLeUid pws).mem_iff.mp
      (List.get_mem (pwSorted1 pws) i hi)
  have hmem2P : ∀ (i : Nat) (hi : i < (pwSorted2 pws).length),
      (pwSorted2 pws).get ⟨i, hi⟩ ∈ pws := fun i hi =>
    (List.perm_insertionSort pwLeUid pws).mem_iff.mp
      ((List.perm_insertionSort pwLeName (pwSorted1 pws)).mem_iff.mp
        (List.get_mem (pwSorted2 pws) i hi))
  have hmem1G : ∀ (i : Nat) (hi : i < (grSorted1 grs).length),
      (grSorted1 grs).get ⟨i, hi⟩ ∈ grs := fun i hi =>
    (List.perm_insertionSort grLeGid grs).mem_iff.mp
      (List.get_mem (grSorted1 grs) i hi)
  have hmem2G : ∀ (i : Nat) (hi : i < (grSorted2 grs).length),
      (grSorted2 grs).get ⟨i, hi⟩ ∈ grs := fun i hi =>
    (List.perm_insertionSort grLeGid grs).mem_iff.mp
      ((List.perm_insertionSort grLeName (grSorted1 grs)).mem_iff.mp
        (List.get_mem (grSorted2 grs) i hi))
  refine ⟨?_, ?_, ?_, ?_, ?_, ?_⟩
  · intro i j hij hj
    have hjS : j < (pwSorted1 pws).length := by rw [hlen1P]; omega
    have hiS : i < (pwSorted1 pws).length := by rw [hlen1P]; omega
    rw [pwFile_idEntry pws hfitP i hiS _ rfl,
      pwFile_idEntry pws hfitP j hjS _ rfl,
      pwFile_uidAt pws _ (hmem1P i hiS) (hokP _ (hmem1P i hiS)) _ rfl,
      pwFile_uidAt pws _ (hmem1P j hjS) (hokP _ (hmem1P j hjS)) _ rfl,
      Nat.mod_eq_of_lt (hwfP _ (hmem1P i hiS)).2.2.2.2.2.1,
      Nat.mod_eq_of_lt (hwfP _ (hmem1P j hjS)).2.2.2.2.2.1]
    rcases Nat.eq_or_lt_of_le hij with he | hl
    · subst he
      exact le_rfl
    · exact (List.sorted_insertionSort pwLeUid pws).rel_get_of_lt hl
  · intro i j hij hj
    have hjS : j < (pwSorted2 pws).length := by rw [hlen2P]; omega
    have hiS : i < (pwSorted2 pws).length := by rw [hlen2P]; omega
    rw [pwFile_nameEntry pws hfitP i hiS _ rfl,
      pwFile_nameEntry pws hfitP j hjS _ rfl,
      pwFile_nameAt pws _ (hmem2P i hiS) (hokP _ (hmem2P i hiS))
        (hwfP _ (hmem2P i hiS)).1 _ rfl,
      pwFile_nameAt pws _ (hmem2P j hjS) (hokP _ (hmem2P j hjS))
        (hwfP _ (hmem2P j hjS)).1 _ rfl]
    rcases Nat.eq_or_lt_of_le hij with he | hl
    · subst he
      unfold bytesLe
      rw [(cmpBytes_eq_iff _ _).mpr rfl]
      simp
    · exact (List.sorted_insertionSort pwLeName (pwSorted1 pws)).rel_get_of_lt
        hl
  · intro i hi
    refine ⟨pwFile_origEntry pws hfitP i hi _ rfl, ?_⟩
    rw [pwFile_origEntry pws hfitP i hi _ rfl]
    exact pwFile_read_at pws _ (List.get_mem pws i hi)
      (hwfP _ (List.get_mem pws i hi)) (hokP _ (List.get_mem pws i hi))
      (hidP _ (List.get_mem pws i hi)) 65535 le_rfl _ rfl
  · intro i j hij hj
    have hjS : j < (grSorted1 grs).length := by rw [hlen1G]; omega
    have hiS : i < (grSorted1 grs).length := by rw [hlen1G]; omega
    rw [grFile_idEntry grs hfitG i hiS _ rfl,
      grFile_idEntry grs hfitG j hjS _ rfl,
      grFile_gidAt grs _ (hmem1G i hiS) hokG _ rfl,
      grFile_gidAt grs _ (hmem1G j hjS) hokG _ rfl,
      Nat.mod_eq_of_lt (hwfG _ (hmem1G i hiS)).2.2.2,
      Nat.mod_eq_of_lt (hwfG _ (hmem1G j hjS)).2.2.2]
    rcases Nat.eq_or_lt_of_le hij with he | hl
    · subst he
      exact le_rfl
    · exact (List.sorted_insertionSort grLeGid grs).rel_get_of_lt hl
  · intro i j hij hj
    have hjS : j < (grSorted2 grs).length := by rw [hlen2G]; omega
    have hiS : i < (grSorted2 grs).length := by rw [hlen2G]; omega
    rw [grFile_nameEntry grs hfitG i hiS _ rfl,
      grFile_nameEntry grs hfitG j hjS _ rfl,
      grFile_nameAt grs _ (hmem2G i hiS) hokG hwfG _ rfl,
      grFile_nameAt grs _ (hmem2G j hjS) hokG hwfG _ rfl]
    rcases Nat.eq_or_lt_of_le hij with he | hl
    · subst he
      unfold bytesLe
      rw [(cmpBytes_eq_iff _ _).mpr rfl]
      simp
    · exact (List.sorted_insertionSort grLeName (grSorted1 grs)).rel_get_of_lt
        hl
  · intro hinj i hi
    refine ⟨grFile_origEntry grs hfitG i hi _ rfl, ?_⟩
    rw [grFile_origEntry grs hfitG i hi _ rfl]
    obtain ⟨g0, dpre, dpost, hg0, hkey, hdata, hoff⟩ :=
      grOffs_spec grs (grs.get ⟨i, hi⟩) (List.get_mem grs i hi)
    have hg0g : g0 = grs.get ⟨i, hi⟩ :=
      hinj g0 hg0 _ (List.get_mem grs i hi) hkey
    have hent := grFile_read_at grs (grs.get ⟨i, hi⟩) g0 dpre dpost hkey
      hdata hoff (hwfG g0 hg0) (hokG g0 hg0) (hidG g0 hg0) 589823 le_rfl
      _ rfl
    rw [hg0g] at hent
    exact hent

/-- Witness for C6: the two-record caches, fed in reverse id order. -/
theorem C6_indices_sorted_witness :
    readU64 (pwFileBytes [pwTiny2, pwTiny]) (56 + 24 * 2 +
      readU64 (pwFileBytes [pwTiny2, pwTiny]) (56 + 8 * 2 + 8 * 0)) ≤
      readU64 (pwFileBytes [pwTiny2, pwTiny]) (56 + 24 * 2 +
        readU64 (pwFileBytes [pwTiny2, pwTiny]) (56 + 8 * 2 + 8 * 1)) ∧
    entryToPasswd (pwFileBytes [pwTiny2, pwTiny]) (56 + 24 * 2 +
      readU64 (pwFileBytes [pwTiny2, pwTiny]) (56 + 8 * 0)) 65535 =
      some (cOfPasswd pwTiny2) ∧
    entryToPasswd (pwFileBytes [pwTiny2, pwTiny]) (56 + 24 * 2 +
      readU64 (pwFileBytes [pwTiny2, pwTiny]) (56 + 8 * 1)) 65535 =
      some (cOfPasswd pwTiny) ∧
    readU64 (grFileBytes [grTiny2, grTiny]) (56 + 24 * 2 +
      readU64 (grFileBytes [grTiny2, grTiny]) (56 + 8 * 2 + 8 * 0)) ≤
      readU64 (grFileBytes [grTiny2, grTiny]) (56 + 24 * 2 +
        readU64 (grFileBytes [grTiny2, grTiny]) (56 + 8 * 2 + 8 * 1)) ∧
    entryToGroup (grFileBytes [grTiny2, grTiny]) (56 + 24 * 2 +
      readU64 (grFileBytes [grTiny2, grTiny]) (56 + 8 * 0)) 589823 =
      some (cOfGroup grTiny2) ∧
    entryToGroup (grFileBytes [grTiny2, grTiny]) (56 + 24 * 2 +
      readU64 (grFileBytes [grTiny2, grTiny]) (56 + 8 * 1)) 589823 =
      some (cOfGroup grTiny) :=
  ⟨(C6_indices_sorted [pwTiny2, pwTiny] [grTiny2, grTiny] (by decide)
      (by decide) (by decide) (by decide) (by decide) (by decide)
      (by decide) (by decide)).1 0 1 (by omega) (by decide),
   ((C6_indices_sorted [pwTiny2, pwTiny] [grTiny2, grTiny] (by decide)
      (by decide) (by decide) (by decide) (by decide) (by decide)
      (by decide) (by decide)).2.2.1 0 (by decide)).2,
   ((C6_indices_sorted [pwTiny2, pwTiny] [grTiny2, grTiny] (by decide)
      (by decide) (by decide) (by decide) (by decide) (by decide)
      (by decide) (by decide)).2.2.1 1 (by decide)).2,
   (C6_indices_sorted [pwTiny2, pwTiny] [grTiny2, grTiny] (by decide)
      (by decide) (by decide) (by decide) (by decide) (by decide)
      (by decide) (by decide)).2.2.2.1 0 1 (by omega) (by decide),
   ((C6_indices_sorted [pwTiny2, pwTiny] [grTiny2, grTiny] (by decide)
      (by decide) (by decide) (by decide) (by decide) (by decide)
      (by decide) (by decide)).2.2.2.2.2 (by decide) 0 (by decide)).2,
   ((C6_indices_sorted [pwTiny2, pwTiny] [grTiny2, grTiny] (by decide)
      (by decide) (by decide) (by decide) (by decide) (by decide)
      (by decide) (by decide)).2.2.2.2.2 (by decide) 1 (by decide)).2⟩

end Nsscash
